import Mathlib

/-!
# Verification of the fpb-aml-mapper converters

Shallow embedding of the two converters of the fpb-aml-mapper repository:

* `amlToJson` (src/aml-to-json.js): CAEX tree form -> FPB.JS graph form,
* `jsonToAml` (src/json-to-aml.js): FPB.JS graph form -> CAEX tree form,

together with the mapping tables (src/mappings.js).  XML text
parsing/serialisation is external to the converters (fast-xml-parser and
xmlbuilder2); the embedding works on the parsed tree structure that both
converters actually traverse.  JavaScript numbers that can be NaN are
modelled as `Option Rat` (`none` = NaN); JavaScript `Map` is modelled by
an insertion-ordered association list with JS `Map.set`/`Map.get`
semantics.  Identifier generation (`uuidv4`, `generateId`) is modelled by
an explicit supply `gen : Nat -> ...` threaded as a counter, and the
wall-clock timestamp by an explicit `now` argument.
-/

namespace FpbAml

/-- A JavaScript number that may be NaN: `none` is NaN. -/
abbrev JsNum := Option ℚ

/-- JS falsiness for numbers: `0`, `-0` and `NaN` are falsy. -/
def jsFalsy : JsNum → Bool
  | none => true
  | some q => decide (q = 0)

/-- Leading decimal digits of a character list, and the rest. -/
def takeDigits : List Char → List Char × List Char
  | [] => ([], [])
  | c :: cs =>
    if c.isDigit then
      let (d, r) := takeDigits cs
      (c :: d, r)
    else ([], c :: cs)

/-- Decimal value of a digit list. -/
def digitsToNat (ds : List Char) : ℕ :=
  ds.foldl (fun a c => a * 10 + (c.toNat - 48)) 0

/-- JS `parseFloat` on the decimal fragment used by the converters:
optional sign, integer part, optional fractional part; trailing
characters are ignored; an input with no leading number is NaN.
(The exponent form never occurs in the documents handled here.)  The
value `sign * (ip + fp / 10 ^ |fp|)` is assembled with `mkRat` over a
common denominator. -/
def parseFloatJs (s : String) : JsNum :=
  let cs := s.data.dropWhile (fun c => c == ' ' || c == '\t' || c == '\n' || c == '\r')
  let (sgn, cs1) : ℤ × List Char :=
    match cs with
    | '-' :: r => (-1, r)
    | '+' :: r => (1, r)
    | r => (1, r)
  let (ip, rest) := takeDigits cs1
  let (fp, _) :=
    match rest with
    | '.' :: r2 => takeDigits r2
    | _ => (([] : List Char), ([] : List Char))
  if ip.isEmpty && fp.isEmpty then none
  else some (mkRat (sgn * ((digitsToNat ip : ℤ) * (10 : ℤ) ^ fp.length + (digitsToNat fp : ℤ)))
    (10 ^ fp.length))

/-- JS `parseInt(s, 10)`: optional sign then leading digits; NaN if none. -/
def parseIntJs (s : String) : Option ℤ :=
  let cs := s.data.dropWhile (fun c => c == ' ')
  let (sgn, cs1) : ℤ × List Char :=
    match cs with
    | '-' :: r => (-1, r)
    | '+' :: r => (1, r)
    | r => (1, r)
  let (ds, _) := takeDigits cs1
  if ds.isEmpty then none else some (sgn * (digitsToNat ds : ℤ))

/-- JS `s.startsWith(pre)` (on the character lists, so that it computes
in the kernel). -/
def strStartsWith (s pre : String) : Bool := pre.data.isPrefixOf s.data

/-- JS `s.slice(n)`-style drop of the first `n` characters. -/
def strDrop (s : String) (n : ℕ) : String := String.mk (s.data.drop n)

/-- JS `s.split(c)` for a one-character separator. -/
def splitOnChar (c : Char) (s : String) : List String :=
  (s.data.splitOn c).map String.mk

/-- JS `String(n)` for the numbers occurring here: NaN prints "NaN",
integers print plainly, finite decimals print with a point (decimal
expansion exists whenever the denominator divides a power of ten, which
holds for every number produced by `parseFloatJs`). -/
def jsNumToString (n : JsNum) : String :=
  match n with
  | none => "NaN"
  | some q =>
    if q.den = 1 then toString q.num
    else
      match (List.range 64).find? (fun k => decide ((q.den : ℤ) ∣ (10 : ℤ) ^ k)) with
      | some k =>
        let m : ℕ := q.num.natAbs * (10 ^ k) / q.den
        let ip : ℕ := m / 10 ^ k
        let fpn : ℕ := m % 10 ^ k
        let fs := toString fpn
        let pad := String.mk (List.replicate (k - fs.length) '0')
        (if q.num < 0 then "-" else "") ++ toString ip ++ "." ++ pad ++ fs
      | none => toString q.num ++ "/" ++ toString q.den

/-- Insertion-ordered association list with JS `Map` semantics. -/
abbrev JsMap (κ ν : Type) : Type := List (κ × ν)

namespace JsMap

variable {κ ν : Type} [DecidableEq κ]

def empty {κ ν : Type} : JsMap κ ν := []

def get (m : JsMap κ ν) (k : κ) : Option ν :=
  (m.find? (fun p => decide (p.1 = k))).map (·.2)

/-- JS `Map.set`: overwrite in place if the key exists, else append. -/
def set (m : JsMap κ ν) (k : κ) (v : ν) : JsMap κ ν :=
  match m with
  | [] => [(k, v)]
  | p :: t => if p.1 = k then (k, v) :: t else p :: set t k v

def has (m : JsMap κ ν) (k : κ) : Bool :=
  (m.find? (fun p => decide (p.1 = k))).isSome

def values {κ ν : Type} (m : JsMap κ ν) : List ν := m.map (·.2)

def keys {κ ν : Type} (m : JsMap κ ν) : List κ := m.map (·.1)

def toList {κ ν : Type} (m : JsMap κ ν) : List (κ × ν) := m

end JsMap

/-! ## Tree form (parsed CAEX document)

The structure exposed by fast-xml-parser with the converter's options:
`Attribute`, `InternalElement`, `ExternalInterface`, `InternalLink` are
arrays; XML attributes are fields.  Attribute `Value` text is kept as the
string the code observes after its own `String(...)` coercion. -/

/-- A CAEX `Attribute` node. -/
inductive XAttr : Type where
  | mk (name : Option String) (value : Option String)
       (dataType : Option String) (refAttributeType : Option String)
       (descr : Option String) (children : List XAttr)

namespace XAttr

def name : XAttr → Option String | .mk n _ _ _ _ _ => n
def value : XAttr → Option String | .mk _ v _ _ _ _ => v
def dataType : XAttr → Option String | .mk _ _ d _ _ _ => d
def refAttributeType : XAttr → Option String | .mk _ _ _ r _ _ => r
def descr : XAttr → Option String | .mk _ _ _ _ d _ => d
def children : XAttr → List XAttr | .mk _ _ _ _ _ c => c

end XAttr

/-- A CAEX `ExternalInterface` (a port). -/
structure ExternalInterface (ι : Type) : Type where
  name : Option String
  id : Option ι
  refBaseClassPath : Option String
  attributes : List XAttr

/-- A CAEX `InternalLink` pairing two ports by reference. -/
structure InternalLink (ι : Type) : Type where
  refPartnerSideA : Option ι
  refPartnerSideB : Option ι
  name : Option String
  deriving DecidableEq

/-- A CAEX `InternalElement`. -/
inductive IE (ι : Type) : Type where
  | mk (name : Option String) (id : Option ι)
       (refBaseSystemUnitPath : Option String)
       (attributes : List XAttr)
       (externalInterfaces : List (ExternalInterface ι))
       (internalElements : List (IE ι))
       (internalLinks : List (InternalLink ι))

namespace IE

variable {ι : Type}

def name : IE ι → Option String | .mk n _ _ _ _ _ _ => n
def id : IE ι → Option ι | .mk _ i _ _ _ _ _ => i
def refBaseSystemUnitPath : IE ι → Option String | .mk _ _ r _ _ _ _ => r
def attributes : IE ι → List XAttr | .mk _ _ _ a _ _ _ => a
def externalInterfaces : IE ι → List (ExternalInterface ι) | .mk _ _ _ _ e _ _ => e
def internalElements : IE ι → List (IE ι) | .mk _ _ _ _ _ c _ => c
def internalLinks : IE ι → List (InternalLink ι) | .mk _ _ _ _ _ _ l => l

end IE

/-- A CAEX `InstanceHierarchy`. -/
structure InstanceHierarchy (ι : Type) : Type where
  name : String
  id : Option ι
  version : String
  elements : List (IE ι)

/-- `SourceDocumentInformation` header data. -/
structure SourceDocInfo : Type where
  originName : String
  originID : String
  originVersion : String
  lastWritingDateTime : String
  deriving DecidableEq

/-- A parsed CAEX file, restricted to the content the converters touch.
`librariesAppended` — modelled from the spec: `appendLibraries`
(src/aml-libraries.js, not under src/) appends a fixed, input-independent
static library fragment that the reverse converter never reads; it is
modelled as an opaque marker. -/
structure CaexFile (ι : Type) : Type where
  schemaVersion : String
  fileName : String
  superiorStandardVersion : String
  sourceDocInfo : SourceDocInfo
  instanceHierarchies : List (InstanceHierarchy ι)
  librariesAppended : Bool

/-! ## Graph form (FPB.JS document) -/

/-- The `identification` block (5 string fields, each possibly absent). -/
structure Identification : Type where
  uniqueIdent : Option String := none
  longName : Option String := none
  shortName : Option String := none
  versionNumber : Option String := none
  revisionNumber : Option String := none
  deriving DecidableEq

/-- Characteristic `identification` sub-block. -/
structure CIdent : Type where
  uniqueIdent : Option String := none
  longName : Option String := none
  shortName : Option String := none
  versionNumber : Option String := none
  revisionNumber : Option String := none
  deriving DecidableEq

/-- Characteristic `descriptiveElement` sub-block. -/
structure CDesc : Type where
  valueDeterminationProcess : Option String := none
  representivity : Option String := none
  setpointValue : Option String := none
  validityLimits : Option String := none
  actualValues : Option String := none
  deriving DecidableEq

/-- Characteristic `relationalElement` sub-block. -/
structure CRel : Type where
  view : Option String := none
  model : Option String := none
  regulationsForRelationalGeneration : Option String := none
  deriving DecidableEq

/-- One characteristic record. -/
structure Characteristic : Type where
  identification : Option CIdent := none
  descriptiveElement : Option CDesc := none
  relationalElement : Option CRel := none
  deriving DecidableEq

/-- A point of an edge waypoint (JSON `{x, y}`). -/
structure WpPoint : Type where
  x : JsNum
  y : JsNum
  deriving DecidableEq

/-- An FPB.JS visual waypoint: coordinates plus the optional `original`
anchor sub-point. -/
structure FWaypoint : Type where
  original : Option WpPoint := none
  x : JsNum
  y : JsNum
  deriving DecidableEq

/-- An FPB.JS visual record (element geometry or edge waypoints). -/
structure VisualRecord : Type where
  id : String
  type : Option String := none
  x : Option JsNum := none
  y : Option JsNum := none
  width : Option JsNum := none
  height : Option JsNum := none
  waypoints : Option (List FWaypoint) := none
  deriving DecidableEq

/-- A record of `elementDataInformation`: one dynamic JS object shape
shared by element records and flow (edge) records, with the fields either
converter touches; an absent JS field is `none`. -/
structure FpbRecord : Type where
  type : String
  id : String
  name : Option String := none
  identification : Option Identification := none
  characteristics : Option (List Characteristic) := none
  incoming : Option (List String) := none
  outgoing : Option (List String) := none
  isAssignedTo : Option (List String) := none
  decomposedView : Option String := none
  elementsContainer : Option (List String) := none
  sourceRef : Option String := none
  targetRef : Option String := none
  inTandemWith : Option (List String) := none
  deriving DecidableEq

/-- The `process` record of a process entry. -/
structure ProcessRecord : Type where
  id : String
  elementsContainer : List String
  isDecomposedProcessOperator : Option String
  consistsOfStates : List String
  consistsOfSystemLimit : Option String
  consistsOfProcesses : List String
  consistsOfProcessOperator : List String
  parent : Option String
  deriving DecidableEq

/-- One process entry `{ process, elementDataInformation,
elementVisualInformation }`. -/
structure ProcessEntry : Type where
  process : ProcessRecord
  elementDataInformation : List FpbRecord
  elementVisualInformation : List VisualRecord
  deriving DecidableEq

/-- The `fpb:Project` header record. -/
structure ProjectRecord : Type where
  name : String
  targetNamespace : String
  entryPoint : Option String
  deriving DecidableEq

/-- A member of the FPB.JS JSON array: the project header or a process
entry (`find(e => e.$type === 'fpb:Project')` / `filter(e => e.process)`). -/
inductive FpbEntry : Type where
  | project (p : ProjectRecord)
  | entry (e : ProcessEntry)
  deriving DecidableEq

/-- The FPB.JS document: a JSON array of records. -/
abbrev FpbDoc := List FpbEntry

/-! ## Mapping tables (src/mappings.js) -/

/-- `ELEMENT_TO_SUC`. -/
def ELEMENT_TO_SUC (t : String) : Option String :=
  if t = "fpb:Product" then some "FPD_SystemUnitClassLib/FPD_Product"
  else if t = "fpb:Energy" then some "FPD_SystemUnitClassLib/FPD_Energy"
  else if t = "fpb:Information" then some "FPD_SystemUnitClassLib/FPD_Information"
  else if t = "fpb:ProcessOperator" then some "FPD_SystemUnitClassLib/FPD_ProcessOperator"
  else if t = "fpb:TechnicalResource" then some "FPD_SystemUnitClassLib/FPD_TechnicalResource"
  else if t = "fpb:SystemLimit" then some "FPD_SystemUnitClassLib/FPD_SystemLimit"
  else if t = "fpb:Process" then some "FPD_SystemUnitClassLib/FPD_Process"
  else none

/-- `SUC_TO_ELEMENT` (inverse of `ELEMENT_TO_SUC`). -/
def SUC_TO_ELEMENT (s : String) : Option String :=
  if s = "FPD_SystemUnitClassLib/FPD_Product" then some "fpb:Product"
  else if s = "FPD_SystemUnitClassLib/FPD_Energy" then some "fpb:Energy"
  else if s = "FPD_SystemUnitClassLib/FPD_Information" then some "fpb:Information"
  else if s = "FPD_SystemUnitClassLib/FPD_ProcessOperator" then some "fpb:ProcessOperator"
  else if s = "FPD_SystemUnitClassLib/FPD_TechnicalResource" then some "fpb:TechnicalResource"
  else if s = "FPD_SystemUnitClassLib/FPD_SystemLimit" then some "fpb:SystemLimit"
  else if s = "FPD_SystemUnitClassLib/FPD_Process" then some "fpb:Process"
  else none

/-- The out/in interface-class paths of a flow type. -/
structure IfacePaths : Type where
  out : String
  inn : String
  deriving DecidableEq

/-- `FLOW_TO_INTERFACE`. -/
def FLOW_TO_INTERFACE (t : String) : Option IfacePaths :=
  if t = "fpb:Flow" then
    some ⟨"FPD_InterfaceClassLib/FPD_FlowOut", "FPD_InterfaceClassLib/FPD_FlowIn"⟩
  else if t = "fpb:ParallelFlow" then
    some ⟨"FPD_InterfaceClassLib/FPD_ParallelFlowOut", "FPD_InterfaceClassLib/FPD_ParallelFlowIn"⟩
  else if t = "fpb:AlternativeFlow" then
    some ⟨"FPD_InterfaceClassLib/FPD_AlternativeFlowOut", "FPD_InterfaceClassLib/FPD_AlternativeFlowIn"⟩
  else if t = "fpb:Usage" then
    some ⟨"FPD_InterfaceClassLib/FPD_Usage", "FPD_InterfaceClassLib/FPD_Usage"⟩
  else none

/-- Flow kind and direction tag recovered from an interface class. -/
structure IfFlow : Type where
  flowType : String
  direction : String
  deriving DecidableEq

/-- `INTERFACE_TO_FLOW`: built from `FLOW_TO_INTERFACE`; for
`fpb:Usage` the in path equals the out path, so only the `out` entry
exists and every Usage port is tagged `out`. -/
def INTERFACE_TO_FLOW (p : String) : Option IfFlow :=
  if p = "FPD_InterfaceClassLib/FPD_FlowOut" then some ⟨"fpb:Flow", "out"⟩
  else if p = "FPD_InterfaceClassLib/FPD_FlowIn" then some ⟨"fpb:Flow", "in"⟩
  else if p = "FPD_InterfaceClassLib/FPD_ParallelFlowOut" then some ⟨"fpb:ParallelFlow", "out"⟩
  else if p = "FPD_InterfaceClassLib/FPD_ParallelFlowIn" then some ⟨"fpb:ParallelFlow", "in"⟩
  else if p = "FPD_InterfaceClassLib/FPD_AlternativeFlowOut" then some ⟨"fpb:AlternativeFlow", "out"⟩
  else if p = "FPD_InterfaceClassLib/FPD_AlternativeFlowIn" then some ⟨"fpb:AlternativeFlow", "in"⟩
  else if p = "FPD_InterfaceClassLib/FPD_Usage" then some ⟨"fpb:Usage", "out"⟩
  else none

/-- `OBJECT_TYPES`. -/
def OBJECT_TYPES : List String :=
  ["fpb:Product", "fpb:Energy", "fpb:Information",
   "fpb:ProcessOperator", "fpb:TechnicalResource", "fpb:SystemLimit"]

/-- `CONNECTION_TYPES`. -/
def CONNECTION_TYPES : List String :=
  ["fpb:Flow", "fpb:ParallelFlow", "fpb:AlternativeFlow", "fpb:Usage"]

/-- The state types (`fpb:Product`, `fpb:Energy`, `fpb:Information`),
as the literal list the code repeats inline. -/
def STATE_TYPES : List String := ["fpb:Product", "fpb:Energy", "fpb:Information"]

/-- `ATTR_REFS`. -/
def ATTR_REFS_identification : String := "FPD_AttributeTypeLib/FPD_Identification"
def ATTR_REFS_characteristic : String := "FPD_AttributeTypeLib/FPD_Characteristic"
def ATTR_REFS_elementVisual : String := "FPD_VisualAttributeTypeLib/FPD_ElementVisual"
def ATTR_REFS_coordinate : String := "FPD_VisualAttributeTypeLib/FPD_Coordinate"
def ATTR_REFS_waypoint : String := "FPD_VisualAttributeTypeLib/FPD_Waypoint"

end FpbAml

namespace FpbAml

/-! ## Tree -> graph converter (src/aml-to-json.js)

`generateId` (crypto.randomUUID / counter fallback) is modelled by the
explicit supply `gen : Nat -> String` applied to a running counter. -/

/-- JS truthiness of a possibly-absent string. -/
def jsTruthyStr : Option String → Bool
  | none => false
  | some s => decide (s ≠ "")

/-- JS `s || null` on a possibly-absent string. -/
def jsOrNullStr (o : Option String) : Option String :=
  if jsTruthyStr o then o else none

/-- JS `s || dflt` on a possibly-absent string. -/
def jsOrStr (o : Option String) (dflt : String) : String :=
  match o with
  | some s => if s = "" then dflt else s
  | none => dflt

def slPath : String := "FPD_SystemUnitClassLib/FPD_SystemLimit"

def procPath : String := "FPD_SystemUnitClassLib/FPD_Process"

/-- `findByRefSUC`. -/
def findByRefSUC (elements : List (IE String)) (sucPath : String) : Option (IE String) :=
  elements.find? (fun e => decide (e.refBaseSystemUnitPath = some sucPath))

/-- `getAttr` on an attribute list (`.Attribute || []` then find by name). -/
def findAttr (attrs : List XAttr) (nm : String) : Option XAttr :=
  attrs.find? (fun a => decide (a.name = some nm))

/-- `getAttr(ie, name)` for an InternalElement. -/
def getAttrIE (ie : IE String) (nm : String) : Option XAttr :=
  findAttr ie.attributes nm

/-- `getAttr(attr, name)` for a nested attribute. -/
def XAttr.getAttr (a : XAttr) (nm : String) : Option XAttr :=
  findAttr a.children nm

/-- `getAttrValue`. -/
def getAttrValue (a : Option XAttr) : String :=
  match a with
  | none => ""
  | some a =>
    match a.value with
    | some v => v
    | none => ""

/-- `getSubAttrValue`. -/
def getSubAttrValue (parent : Option XAttr) (nm : String) : String :=
  match parent with
  | none => ""
  | some p => getAttrValue (p.getAttr nm)

/-- `parseIdentificationId`. -/
def parseIdentificationId (ie : IE String) : Option String :=
  match getAttrIE ie "Identification" with
  | none => none
  | some ident =>
    let uid := getSubAttrValue (some ident) "uniqueIdent"
    if uid = "" then none else some uid

/-- `parseIdentification`. -/
def parseIdentification (ie : IE String) : Option Identification :=
  match getAttrIE ie "Identification" with
  | none => none
  | some ident =>
    some { uniqueIdent := some (getSubAttrValue (some ident) "uniqueIdent")
           longName := some (getSubAttrValue (some ident) "longName")
           shortName := some (getSubAttrValue (some ident) "shortName")
           versionNumber := some (getSubAttrValue (some ident) "versionNumber")
           revisionNumber := some (getSubAttrValue (some ident) "revisionNumber") }

/-- `parseCharacteristics`. -/
def parseCharacteristics (ie : IE String) : List Characteristic :=
  match getAttrIE ie "Characteristics" with
  | none => []
  | some container =>
    container.children.filterMap (fun cAttr =>
      match cAttr.name with
      | none => none
      | some nm =>
        if strStartsWith nm "Characteristic" then
          let cIdent :=
            match cAttr.getAttr "Identification" with
            | none => none
            | some ci =>
              some { uniqueIdent := some (getSubAttrValue (some ci) "uniqueIdent")
                     longName := some (getSubAttrValue (some ci) "longName")
                     shortName := some (getSubAttrValue (some ci) "shortName")
                     versionNumber := some (getSubAttrValue (some ci) "versionNumber")
                     revisionNumber := some (getSubAttrValue (some ci) "revisionNumber") : CIdent }
          let cDesc :=
            match cAttr.getAttr "DescriptiveElement" with
            | none => none
            | some d =>
              some { valueDeterminationProcess := some (getSubAttrValue (some d) "valueDeterminationProcess")
                     representivity := some (getSubAttrValue (some d) "representivity")
                     setpointValue := some (getSubAttrValue (some d) "setpointValue")
                     validityLimits := some (getSubAttrValue (some d) "validityLimits")
                     actualValues := some (getSubAttrValue (some d) "actualValues") : CDesc }
          let cRel :=
            match cAttr.getAttr "RelationalElement" with
            | none => none
            | some r =>
              some { view := some (getSubAttrValue (some r) "view")
                     model := some (getSubAttrValue (some r) "model")
                     regulationsForRelationalGeneration :=
                       some (getSubAttrValue (some r) "regulationsForRelationalGeneration") : CRel }
          some { identification := cIdent, descriptiveElement := cDesc, relationalElement := cRel }
        else none)

/-- `parseFloat(x) || 0`: NaN and 0 both give 0. -/
def jsOrZero (n : JsNum) : ℚ :=
  match n with
  | none => 0
  | some q => q

/-- The record `{x, y, width, height}` returned by `parseVisualAttr`. -/
structure VisualBox : Type where
  x : JsNum
  y : JsNum
  width : JsNum
  height : JsNum
  deriving DecidableEq

/-- `parseVisualAttr`. -/
def parseVisualAttr (ie : IE String) : Option VisualBox :=
  match getAttrIE ie "Visual" with
  | none => none
  | some visual =>
    let pos := visual.getAttr "position"
    let x : JsNum :=
      match pos with
      | some p => parseFloatJs (getSubAttrValue (some p) "x")
      | none => some 0
    let y : JsNum :=
      match pos with
      | some p => parseFloatJs (getSubAttrValue (some p) "y")
      | none => some 0
    let width : ℚ := jsOrZero (parseFloatJs (getSubAttrValue (some visual) "width"))
    let height : ℚ := jsOrZero (parseFloatJs (getSubAttrValue (some visual) "height"))
    if width = 0 ∧ height = 0 ∧ jsFalsy x ∧ jsFalsy y then none
    else some { x := x, y := y, width := some width, height := some height }

/-- `parsePortCoordinate` (NaN on either coordinate gives no coordinate). -/
def parsePortCoordinate (extIf : ExternalInterface String) : Option (ℚ × ℚ) :=
  match extIf.attributes.find? (fun a => decide (a.name = some "PortCoordinate")) with
  | none => none
  | some pcAttr =>
    match parseFloatJs (getSubAttrValue (some pcAttr) "x"),
          parseFloatJs (getSubAttrValue (some pcAttr) "y") with
    | some x, some y => some (x, y)
    | _, _ => none

/-- An entry collected by `parseWaypoints` before sorting: the numeric
suffix of the attribute name (`none` = NaN from `parseInt`) and the point. -/
structure WpEntry : Type where
  index : Option ℤ
  x : ℚ
  y : ℚ
  deriving DecidableEq

/-- The sort comparator `(a, b) => a.index - b.index` as a relation.  V8's
sort is stable and treats a NaN comparator value as a tie, so a pair
involving a NaN index is ranked as already ordered. -/
def wpLeB (a b : WpEntry) : Bool :=
  match a.index, b.index with
  | some i, some j => decide (i ≤ j)
  | _, _ => true

def wpLE (a b : WpEntry) : Prop := wpLeB a b = true

instance : DecidableRel wpLE :=
  fun a b => inferInstanceAs (Decidable (wpLeB a b = true))

/-- The pre-sort entry list of `parseWaypoints`: attributes named
`FPD_Waypoint` + suffix carrying a `position` with numeric coordinates.
The `@_Name.replace('FPD_Waypoint', '')` strips the checked prefix. -/
def wpEntries (extIf : ExternalInterface String) : List WpEntry :=
  extIf.attributes.filterMap (fun attr =>
    match attr.name with
    | none => none
    | some nm =>
      if strStartsWith nm "FPD_Waypoint" then
        match attr.getAttr "position" with
        | none => none
        | some pos =>
          match parseFloatJs (getSubAttrValue (some pos) "x"),
                parseFloatJs (getSubAttrValue (some pos) "y") with
          | some x, some y =>
            let indexStr := strDrop nm 12
            let index : Option ℤ := if indexStr = "" then some 0 else parseIntJs indexStr
            some { index := index, x := x, y := y }
          | _, _ => none
      else none)

/-- `parseWaypoints`: collect, sort by numeric suffix, drop the index. -/
def parseWaypoints (extIf : ExternalInterface String) : List (ℚ × ℚ) :=
  (List.insertionSort wpLE (wpEntries extIf)).map (fun e => (e.x, e.y))

/-- The `interfaceMap` payload. -/
structure IfaceInfo : Type where
  elementId : String
  direction : String
  flowType : String
  portCoordinate : Option (ℚ × ℚ)
  waypoints : List (ℚ × ℚ)
  deriving DecidableEq

/-- `buildWaypoints`. -/
def buildWaypoints (outSide inSide : IfaceInfo) : List FWaypoint :=
  (match outSide.portCoordinate with
   | some pc => [{ original := some ⟨some pc.1, some pc.2⟩, x := some pc.1, y := some pc.2 }]
   | none => [])
  ++ outSide.waypoints.map (fun wp => { original := none, x := some wp.1, y := some wp.2 })
  ++ (match inSide.portCoordinate with
      | some pc => [{ original := some ⟨some pc.1, some pc.2⟩, x := some pc.1, y := some pc.2 }]
      | none => [])

/-- Update the first record with the given id (the object JS `find`
returns and whose fields the loop mutates); no-op when absent. -/
def updateFirst : List FpbRecord → String → (FpbRecord → FpbRecord) → List FpbRecord
  | [], _, _ => []
  | e :: es, i, f => if e.id = i then f e :: es else e :: updateFirst es i f

/-- `elem.outgoing.push(flowId)`. -/
def pushOutgoing (fid : String) (r : FpbRecord) : FpbRecord :=
  { r with outgoing := some ((r.outgoing.getD []) ++ [fid]) }

/-- `elem.incoming.push(flowId)`. -/
def pushIncoming (fid : String) (r : FpbRecord) : FpbRecord :=
  { r with incoming := some ((r.incoming.getD []) ++ [fid]) }

/-- `if (!elem.isAssignedTo.includes(x)) elem.isAssignedTo.push(x)`. -/
def pushAssignedIfNew (x : String) (r : FpbRecord) : FpbRecord :=
  if x ∈ r.isAssignedTo.getD [] then r
  else { r with isAssignedTo := some ((r.isAssignedTo.getD []) ++ [x]) }

/-- State threaded through the `InternalLink` loop of `parseProcess`. -/
structure LinkState : Type where
  elems : List FpbRecord
  visuals : List VisualRecord
  containerIds : List String
  flows : JsMap String FpbRecord
  ctr : ℕ

/-- One iteration of the `for (const link of links)` loop. -/
def processLink (gen : ℕ → String) (ifmap : JsMap (Option String) IfaceInfo)
    (st : LinkState) (link : InternalLink String) : LinkState :=
  match ifmap.get link.refPartnerSideA, ifmap.get link.refPartnerSideB with
  | some sideA, some sideB =>
    let outSide := if sideA.direction = "out" then sideA else sideB
    let inSide := if sideA.direction = "in" then sideA else sideB
    let flowId := gen st.ctr
    let flowType := outSide.flowType
    let flowData : FpbRecord :=
      { type := flowType, id := flowId,
        sourceRef := some outSide.elementId, targetRef := some inSide.elementId,
        inTandemWith :=
          if flowType ≠ "fpb:Flow" ∧ flowType ≠ "fpb:Usage" then some [] else none }
    let flows := st.flows.set flowId flowData
    let wps := buildWaypoints outSide inSide
    let visuals :=
      if wps.length > 0 then
        st.visuals ++ [{ id := flowId, type := some flowType, waypoints := some wps }]
      else st.visuals
    let elems1 := updateFirst st.elems outSide.elementId (pushOutgoing flowId)
    let elems2 := updateFirst elems1 inSide.elementId (pushIncoming flowId)
    let elems3 :=
      match elems2.find? (fun e => decide (e.id = outSide.elementId)),
            elems2.find? (fun e => decide (e.id = inSide.elementId)) with
      | some s, some t =>
        if s.type ∈ STATE_TYPES ∧ t.type = "fpb:ProcessOperator" then
          updateFirst elems2 outSide.elementId (pushAssignedIfNew t.id)
        else elems2
      | _, _ => elems2
    let elems4 :=
      match elems3.find? (fun e => decide (e.id = outSide.elementId)),
            elems3.find? (fun e => decide (e.id = inSide.elementId)) with
      | some s, some t =>
        if t.type ∈ STATE_TYPES ∧ s.type = "fpb:ProcessOperator" then
          updateFirst elems3 inSide.elementId (pushAssignedIfNew s.id)
        else elems3
      | _, _ => elems3
    let elems5 :=
      if flowType = "fpb:Usage" then
        match elems4.find? (fun e => decide (e.id = outSide.elementId)),
              elems4.find? (fun e => decide (e.id = inSide.elementId)) with
        | some s, some t =>
          let elemsA := updateFirst elems4 outSide.elementId (pushAssignedIfNew t.id)
          updateFirst elemsA inSide.elementId (pushAssignedIfNew s.id)
        | _, _ => elems4
      else elems4
    { elems := elems5, visuals := visuals,
      containerIds := st.containerIds ++ [flowId],
      flows := flows, ctr := st.ctr + 1 }
  | _, _ => st

/-- The tandem-grouping pass: groups the flows that carry an
`inTandemWith` field by `sourceRef` alone, then cross-references every
group with more than one member. -/
def tandemPass (flows : JsMap String FpbRecord) : JsMap String FpbRecord :=
  let sourceGroups : JsMap (Option String) (List String) :=
    flows.foldl (fun m p =>
      if p.2.inTandemWith.isSome then
        m.set p.2.sourceRef ((m.get p.2.sourceRef).getD [] ++ [p.1])
      else m) JsMap.empty
  sourceGroups.values.foldl (fun fl group =>
    if group.length ≤ 1 then fl
    else group.foldl (fun fl2 fid =>
      match fl2.get fid with
      | some f => fl2.set fid { f with inTandemWith := some (group.filter (fun i => decide (i ≠ fid))) }
      | none => fl2) fl) flows

/-- Counter and accumulated process entries, threaded through the whole
recursive parse. -/
structure PPState : Type where
  ctr : ℕ
  entries : List ProcessEntry

/-- Per-process accumulator of the object loop. -/
structure ObjAcc : Type where
  interfaceMap : JsMap (Option String) IfaceInfo
  elems : List FpbRecord
  visuals : List VisualRecord
  stateIds : List String
  poIds : List String
  containerIds : List String

/-- Register the external interfaces of one object element
(`for (const extIf of extInterfaces)`). -/
def registerInterfaces (elemId : String) (c : IE String)
    (m : JsMap (Option String) IfaceInfo) : JsMap (Option String) IfaceInfo :=
  c.externalInterfaces.foldl (fun m extIf =>
    match extIf.refBaseClassPath.bind INTERFACE_TO_FLOW with
    | some info =>
      m.set extIf.id
        { elementId := elemId, direction := info.direction, flowType := info.flowType,
          portCoordinate := parsePortCoordinate extIf, waypoints := parseWaypoints extIf }
    | none => m) m

/-- The tail of one object-loop iteration: element record, visual record,
and id bookkeeping (everything after the decomposition recursion). -/
def objPost (c : IE String) (fpbType elemId : String)
    (decomposedView : Option String) (acc : ObjAcc) : ObjAcc :=
  let name := (c.name).getD ""
  let elemData : FpbRecord :=
    { type := fpbType, id := elemId,
      identification := parseIdentification c,
      characteristics := some (parseCharacteristics c),
      incoming := some [], outgoing := some [], isAssignedTo := some [],
      name := some name,
      decomposedView := jsOrNullStr decomposedView }
  let visuals :=
    match parseVisualAttr c with
    | some vb =>
      acc.visuals ++ [{ id := elemId, x := some vb.x, y := some vb.y,
                        width := some vb.width, height := some vb.height,
                        type := some fpbType }]
    | none => acc.visuals
  { acc with
    elems := acc.elems ++ [elemData],
    visuals := visuals,
    containerIds := acc.containerIds ++ [elemId],
    stateIds := if fpbType ∈ STATE_TYPES then acc.stateIds ++ [elemId] else acc.stateIds,
    poIds := if fpbType = "fpb:ProcessOperator" then acc.poIds ++ [elemId] else acc.poIds }

/-- Assemble the finished process entry from the loop results
(flow append, SystemLimit container update, process record). -/
def finishEntry (processId : String) (parentProcessId : Option String)
    (systemLimitId : Option String) (acc : ObjAcc) (ls : LinkState) : ProcessEntry :=
  let elemsAll := ls.elems ++ (tandemPass ls.flows).values
  let elemsAll2 :=
    if jsTruthyStr systemLimitId then
      updateFirst elemsAll ((systemLimitId).getD "")
        (fun e => { e with elementsContainer := some ls.containerIds })
    else elemsAll
  { process :=
      { id := processId,
        elementsContainer :=
          if jsTruthyStr systemLimitId then
            (systemLimitId).getD "" ::
              (elemsAll2.filter (fun e => decide (e.type = "fpb:TechnicalResource"))).map (·.id)
          else [],
        isDecomposedProcessOperator := jsOrNullStr parentProcessId,
        consistsOfStates := acc.stateIds,
        consistsOfSystemLimit := systemLimitId,
        consistsOfProcesses := elemsAll2.filterMap (fun e => jsOrNullStr e.decomposedView),
        consistsOfProcessOperator := acc.poIds,
        parent := jsOrNullStr parentProcessId },
    elementDataInformation := elemsAll2,
    elementVisualInformation := ls.visuals }

mutual

/-- `parseProcess`: parse one `FPD_Process` container into a process
entry, recursing for decomposition; returns the process id and pushes
the finished entry after any child entries. -/
def parseProcess (gen : ℕ → String) (ie : IE String)
    (parentProcessId : Option String) (st : PPState) : String × PPState :=
  match ie with
  | .mk _ _ _ _ _ children links =>
  let systemLimitIE := findByRefSUC children slPath
  let slStep : Option String × ObjAcc × PPState :=
    match systemLimitIE with
    | some sl =>
      let slName := jsOrStr sl.name "SystemLimit"
      let slId := gen st.ctr
      let slVisual := parseVisualAttr sl
      let elems0 : List FpbRecord :=
        [{ type := "fpb:SystemLimit", id := slId,
           elementsContainer := some [], name := some slName }]
      let visuals0 : List VisualRecord :=
        match slVisual with
        | some vb =>
          [{ id := slId, x := some vb.x, y := some vb.y,
             width := some vb.width, height := some vb.height,
             type := some "fpb:SystemLimit" }]
        | none => []
      (some slId, ⟨JsMap.empty, elems0, visuals0, [], [], []⟩, ⟨st.ctr + 1, st.entries⟩)
    | none => (none, ⟨JsMap.empty, [], [], [], [], []⟩, st)
  let systemLimitId := slStep.1
  let acc0 := slStep.2.1
  let st0 := slStep.2.2
  let pidStep : String × PPState :=
    if jsTruthyStr parentProcessId then ((parentProcessId).getD "", st0)
    else (gen st0.ctr, ⟨st0.ctr + 1, st0.entries⟩)
  let processId := pidStep.1
  let st1 := pidStep.2
  let objStep := parseObjects gen children acc0 st1
  let acc := objStep.1
  let st2 := objStep.2
  let ls0 : LinkState := ⟨acc.elems, acc.visuals, acc.containerIds, JsMap.empty, st2.ctr⟩
  let ls := links.foldl (processLink gen acc.interfaceMap) ls0
  let entry := finishEntry processId parentProcessId systemLimitId acc ls
  (processId, ⟨ls.ctr, st2.entries ++ [entry]⟩)

/-- The `for (const ie of objectIEs)` loop of `parseProcess`, written as
a recursion over the child list with the `objectIEs` filter applied per
child. -/
def parseObjects (gen : ℕ → String) (cs : List (IE String))
    (acc : ObjAcc) (st : PPState) : ObjAcc × PPState :=
  match cs with
  | [] => (acc, st)
  | c :: rest =>
    match c.refBaseSystemUnitPath with
    | none => parseObjects gen rest acc st
    | some suc =>
      match SUC_TO_ELEMENT suc with
      | none => parseObjects gen rest acc st
      | some fpbType =>
        if suc = procPath then parseObjects gen rest acc st
        else if fpbType = "fpb:SystemLimit" ∨ fpbType = "fpb:Process" then
          parseObjects gen rest acc st
        else
          let idStep : String × PPState :=
            match parseIdentificationId c with
            | some uid => (uid, st)
            | none => (gen st.ctr, ⟨st.ctr + 1, st.entries⟩)
          let elemId := idStep.1
          let st1 := idStep.2
          let acc1 := { acc with interfaceMap := registerInterfaces elemId c acc.interfaceMap }
          match c with
          | .mk _ _ _ _ _ cc _ =>
            let nd := parseNested gen elemId cc st1
            let dv : Option String := if nd.1 then some elemId else none
            parseObjects gen rest (objPost c fpbType elemId dv acc1) nd.2

/-- The decomposition step of the object loop:
`findByRefSUC(ie.InternalElement, FPD_Process)` followed by the recursive
parse of that first nested `FPD_Process` child (using the operator's
graph id as the nested process's identifier); reports whether one was
found. -/
def parseNested (gen : ℕ → String) (elemId : String)
    (cs : List (IE String)) (st : PPState) : Bool × PPState :=
  match cs with
  | [] => (false, st)
  | c :: rest =>
    if c.refBaseSystemUnitPath = some procPath then
      let r := parseProcess gen c (some elemId) st
      (true, r.2)
    else parseNested gen elemId rest st

end

/-- `amlToJson`, from the parsed document on. -/
def amlToJson (gen : ℕ → String) (caex : CaexFile String) : Except String FpbDoc :=
  match caex.instanceHierarchies with
  | [] => Except.error "No InstanceHierarchy found"
  | ih :: _ =>
    match findByRefSUC ih.elements procPath with
    | none => Except.error "No FPD_Process found in InstanceHierarchy"
    | some topProcess =>
      let r := parseProcess gen topProcess none ⟨0, []⟩
      let project : ProjectRecord :=
        { name := "FPBJS_Project",
          targetNamespace := "http://www.hsu-ifa.de/fpbjs",
          entryPoint := some r.1 }
      Except.ok (FpbEntry.project project :: r.2.entries.map FpbEntry.entry)

end FpbAml

namespace FpbAml

/-! ## Graph -> tree converter (src/json-to-aml.js)

`uuidv4()` is modelled by the supply `gen : Nat -> _` applied to a running
counter in call order; `new Date().toISOString()` by the argument `now`.
Recursion follows `decomposedView` jumps through the process map, so it is
bounded by explicit fuel; a cyclic decomposition chain (on which the
JavaScript would not terminate) exhausts the fuel, and any acyclic
document is built completely once the fuel exceeds its decomposition
depth. -/

/-- `addStringSubAttr`: a `Value` child only for a present, non-empty string. -/
def addStringSubAttr (nm : String) (v : Option String) : XAttr :=
  XAttr.mk (some nm)
    (match v with
     | some s => if s = "" then none else some s
     | none => none)
    (some "xs:string") none none []

/-- `addDoubleSubAttr`: a `Value` child only for a present number (NaN prints). -/
def addDoubleSubAttr (nm : String) (v : Option JsNum) : XAttr :=
  XAttr.mk (some nm) (v.map jsNumToString) (some "xs:double") none none []

/-- `addIdentificationAttr`. -/
def addIdentificationAttr (idf : Identification) : XAttr :=
  XAttr.mk (some "Identification") none (some "xs:string")
    (some ATTR_REFS_identification) none
    [addStringSubAttr "uniqueIdent" idf.uniqueIdent,
     addStringSubAttr "longName" idf.longName,
     addStringSubAttr "shortName" idf.shortName,
     addStringSubAttr "versionNumber" idf.versionNumber,
     addStringSubAttr "revisionNumber" idf.revisionNumber]

/-- One `Characteristic` / `Characteristic<i>` attribute. -/
def charAttr (i : ℕ) (c : Characteristic) : XAttr :=
  let kids :=
    (match c.identification with
     | some ci =>
       [XAttr.mk (some "Identification") none (some "xs:string")
          (some ATTR_REFS_identification) none
          [addStringSubAttr "uniqueIdent" ci.uniqueIdent,
           addStringSubAttr "longName" ci.longName,
           addStringSubAttr "shortName" ci.shortName,
           addStringSubAttr "versionNumber" ci.versionNumber,
           addStringSubAttr "revisionNumber" ci.revisionNumber]]
     | none => [])
    ++ (match c.descriptiveElement with
        | some d =>
          [XAttr.mk (some "DescriptiveElement") none (some "xs:string") none none
             [addStringSubAttr "valueDeterminationProcess" d.valueDeterminationProcess,
              addStringSubAttr "representivity" d.representivity,
              addStringSubAttr "setpointValue" d.setpointValue,
              addStringSubAttr "validityLimits" d.validityLimits,
              addStringSubAttr "actualValues" d.actualValues]]
        | none => [])
    ++ (match c.relationalElement with
        | some r =>
          [XAttr.mk (some "RelationalElement") none (some "xs:string") none none
             [addStringSubAttr "view" r.view,
              addStringSubAttr "model" r.model,
              addStringSubAttr "regulationsForRelationalGeneration"
                r.regulationsForRelationalGeneration]]
        | none => [])
  XAttr.mk (some (if i = 0 then "Characteristic" else "Characteristic" ++ toString i))
    none (some "xs:string") (some ATTR_REFS_characteristic) none kids

/-- `addCharacteristicsAttr`. -/
def addCharacteristicsAttr (cs : Option (List Characteristic)) : XAttr :=
  XAttr.mk (some "Characteristics") none (some "xs:string") none
    (some "Container for characteristics")
    (match cs with
     | some l => if l.length > 0 then l.enum.map (fun p => charAttr p.1 p.2) else []
     | none => [])

/-- `addVisualAttr`. -/
def addVisualAttr (v : VisualRecord) : XAttr :=
  XAttr.mk (some "Visual") none (some "xs:string") (some ATTR_REFS_elementVisual) none
    [XAttr.mk (some "position") none (some "xs:string") (some ATTR_REFS_coordinate) none
       [addDoubleSubAttr "x" v.x, addDoubleSubAttr "y" v.y],
     addDoubleSubAttr "width" v.width,
     addDoubleSubAttr "height" v.height]

/-- `addPortCoordinate`. -/
def addPortCoordinate (x y : JsNum) : XAttr :=
  XAttr.mk (some "PortCoordinate") none (some "xs:string") (some ATTR_REFS_coordinate) none
    [addDoubleSubAttr "x" (some x), addDoubleSubAttr "y" (some y)]

/-- `addEmptyPortCoordinate`. -/
def addEmptyPortCoordinate : XAttr :=
  XAttr.mk (some "PortCoordinate") none (some "xs:string") (some ATTR_REFS_coordinate) none
    [XAttr.mk (some "x") none (some "xs:double") none none [],
     XAttr.mk (some "y") none (some "xs:double") none none []]

/-- `addFlowOutInterface`: first waypoint's anchor as `PortCoordinate`,
interior waypoints without an `original` anchor as `FPD_Waypoint<i>`. -/
def addFlowOutInterface (wps : List FWaypoint) : List XAttr :=
  match wps with
  | [] => [addEmptyPortCoordinate]
  | first :: _ =>
    let pc : WpPoint :=
      match first.original with
      | some o => o
      | none => ⟨first.x, first.y⟩
    let middles := (wps.drop 1).dropLast
    let emitted := middles.filter (fun wp => wp.original.isNone)
    addPortCoordinate pc.x pc.y ::
      emitted.enum.map (fun p =>
        XAttr.mk
          (some (if p.1 = 0 then "FPD_Waypoint" else "FPD_Waypoint" ++ toString p.1))
          none (some "xs:string") (some ATTR_REFS_waypoint) none
          [XAttr.mk (some "position") none (some "xs:string") (some ATTR_REFS_coordinate) none
             [addDoubleSubAttr "x" (some p.2.x), addDoubleSubAttr "y" (some p.2.y)]])

/-- `addFlowInInterface`: last waypoint's anchor as `PortCoordinate`. -/
def addFlowInInterface (wps : List FWaypoint) : List XAttr :=
  match wps.getLast? with
  | none => [addEmptyPortCoordinate]
  | some last =>
    let pc : WpPoint :=
      match last.original with
      | some o => o
      | none => ⟨last.x, last.y⟩
    [addPortCoordinate pc.x pc.y]

/-- Per-element, per-base-class interface-name counters. -/
abbrev IfaceCounters := JsMap String (JsMap String ℕ)

/-- `getNextInterfaceName`: bare base name on first use, then suffixes
`1`, `2`, ..., counted independently per element and per base name. -/
def getNextInterfaceName (counters : IfaceCounters) (elementId baseName : String) :
    String × IfaceCounters :=
  let inner := (counters.get elementId).getD JsMap.empty
  let count := (inner.get baseName).getD 0
  ((if count = 0 then baseName else baseName ++ toString count),
   counters.set elementId (inner.set baseName (count + 1)))

/-- The `linkMap` payload `{ outInterfaceId, inInterfaceId }`. -/
structure LinkIds (ι : Type) : Type where
  outInterfaceId : Option ι := none
  inInterfaceId : Option ι := none

/-- `linkMap.get(flow.id).outInterfaceId = ifaceId` (initialising the slot). -/
def linkSetOut {ι : Type} (lm : JsMap String (LinkIds ι)) (fid : String) (ifaceId : ι) :
    JsMap String (LinkIds ι) :=
  let cur := (lm.get fid).getD {}
  lm.set fid { cur with outInterfaceId := some ifaceId }

/-- `linkMap.get(flow.id).inInterfaceId = ifaceId` (initialising the slot). -/
def linkSetIn {ι : Type} (lm : JsMap String (LinkIds ι)) (fid : String) (ifaceId : ι) :
    JsMap String (LinkIds ι) :=
  let cur := (lm.get fid).getD {}
  lm.set fid { cur with inInterfaceId := some ifaceId }

/-- The `PortCoordinate`/waypoint attributes of one outgoing port
(`flowVisual?.waypoints` present or not). -/
def outIfaceAttrs (visualMap : JsMap String VisualRecord) (fid : String) : List XAttr :=
  match visualMap.get fid with
  | some fv =>
    match fv.waypoints with
    | some wps => addFlowOutInterface wps
    | none => [addEmptyPortCoordinate]
  | none => [addEmptyPortCoordinate]

/-- The `PortCoordinate` attributes of one incoming port. -/
def inIfaceAttrs (visualMap : JsMap String VisualRecord) (fid : String) : List XAttr :=
  match visualMap.get fid with
  | some fv =>
    match fv.waypoints with
    | some wps => addFlowInInterface wps
    | none => [addEmptyPortCoordinate]
  | none => [addEmptyPortCoordinate]

/-- Result of building the ports of one element. -/
structure IfaceBuild (ι : Type) : Type where
  ifaces : List (ExternalInterface ι)
  counters : IfaceCounters
  linkMap : JsMap String (LinkIds ι)
  ctr : ℕ

/-- The `for (const flow of outFlows)` port loop. -/
def addOutIfaces {ι : Type} (gen : ℕ → ι) (visualMap : JsMap String VisualRecord)
    (objId : String) :
    List FpbRecord → IfaceCounters → JsMap String (LinkIds ι) → ℕ → IfaceBuild ι
  | [], counters, lm, ctr => ⟨[], counters, lm, ctr⟩
  | flow :: rest, counters, lm, ctr =>
    match FLOW_TO_INTERFACE flow.type with
    | none => addOutIfaces gen visualMap objId rest counters lm ctr
    | some paths =>
      let outBase := (splitOnChar '/' paths.out).getD 1 ""
      let nm := getNextInterfaceName counters objId outBase
      let ifaceId := gen ctr
      let extIf : ExternalInterface ι :=
        ⟨some nm.1, some ifaceId, some paths.out, outIfaceAttrs visualMap flow.id⟩
      let r := addOutIfaces gen visualMap objId rest nm.2 (linkSetOut lm flow.id ifaceId) (ctr + 1)
      ⟨extIf :: r.ifaces, r.counters, r.linkMap, r.ctr⟩

/-- The `for (const flow of inFlows)` port loop. -/
def addInIfaces {ι : Type} (gen : ℕ → ι) (visualMap : JsMap String VisualRecord)
    (objId : String) :
    List FpbRecord → IfaceCounters → JsMap String (LinkIds ι) → ℕ → IfaceBuild ι
  | [], counters, lm, ctr => ⟨[], counters, lm, ctr⟩
  | flow :: rest, counters, lm, ctr =>
    match FLOW_TO_INTERFACE flow.type with
    | none => addInIfaces gen visualMap objId rest counters lm ctr
    | some paths =>
      let inBase := (splitOnChar '/' paths.inn).getD 1 ""
      let nm := getNextInterfaceName counters objId inBase
      let ifaceId := gen ctr
      let extIf : ExternalInterface ι :=
        ⟨some nm.1, some ifaceId, some paths.inn, inIfaceAttrs visualMap flow.id⟩
      let r := addInIfaces gen visualMap objId rest nm.2 (linkSetIn lm flow.id ifaceId) (ctr + 1)
      ⟨extIf :: r.ifaces, r.counters, r.linkMap, r.ctr⟩

/-- Result of the object loop of `buildProcess`. -/
structure ObjBuild (ι : Type) : Type where
  ies : List (IE ι)
  linkMap : JsMap String (LinkIds ι)
  counters : IfaceCounters
  ctr : ℕ

/-- One step of the `InternalLink` emission loop. -/
def emitLinkStep {ι : Type} (acc : List (InternalLink ι) × ℕ) (p : String × LinkIds ι) :
    List (InternalLink ι) × ℕ :=
  match p.2.outInterfaceId, p.2.inInterfaceId with
  | some o, some i =>
    (acc.1 ++ [⟨some o, some i,
      some (if acc.2 = 0 then "Link" else "Link" ++ toString acc.2)⟩], acc.2 + 1)
  | _, _ => acc

/-- The `InternalLink` emission loop (`Link`, `Link1`, ... for every flow
whose two port ids were both recorded). -/
def emitLinks {ι : Type} (lm : JsMap String (LinkIds ι)) : List (InternalLink ι) :=
  (lm.foldl emitLinkStep (([] : List (InternalLink ι)), (0 : ℕ))).1

/-- The `for (const obj of objects)` loop of `buildProcess`, abstracted
over the recursive call `bp` used for decomposition. -/
def buildObjectsAux {ι : Type} (bp : Option String → ℕ → Option (IE ι) × ℕ)
    (gen : ℕ → ι) (visualMap : JsMap String VisualRecord)
    (flowsBySource flowsByTarget : JsMap (Option String) (List FpbRecord)) :
    List FpbRecord → JsMap String (LinkIds ι) → IfaceCounters → ℕ → ObjBuild ι
  | [], linkMap, counters, ctr => ⟨[], linkMap, counters, ctr⟩
  | obj :: rest, linkMap, counters, ctr =>
    if obj.type = "fpb:SystemLimit" then
      buildObjectsAux bp gen visualMap flowsBySource flowsByTarget rest linkMap counters ctr
    else
      match ELEMENT_TO_SUC obj.type with
      | none =>
        buildObjectsAux bp gen visualMap flowsBySource flowsByTarget rest linkMap counters ctr
      | some sucPath =>
        let ieName := jsOrStr obj.name ((splitOnChar ':' obj.type).getD 1 "")
        let ieId := gen ctr
        let attrs :=
          (match obj.identification with
           | some idf => [addIdentificationAttr idf]
           | none => [])
          ++ [addCharacteristicsAttr obj.characteristics]
          ++ (match visualMap.get obj.id with
              | some v => [addVisualAttr v]
              | none => [])
        let outFlows := (flowsBySource.get (some obj.id)).getD []
        let ro := addOutIfaces gen visualMap obj.id outFlows counters linkMap (ctr + 1)
        let inFlows := (flowsByTarget.get (some obj.id)).getD []
        let ri := addInIfaces gen visualMap obj.id inFlows ro.counters ro.linkMap ro.ctr
        let child : Option (IE ι) × ℕ :=
          if obj.type = "fpb:ProcessOperator" ∧ jsTruthyStr obj.decomposedView then
            bp obj.decomposedView ri.ctr
          else (none, ri.ctr)
        let ie : IE ι :=
          IE.mk (some ieName) (some ieId) (some sucPath) attrs
            (ro.ifaces ++ ri.ifaces)
            (match child.1 with
             | some c => [c]
             | none => [])
            []
        let r := buildObjectsAux bp gen visualMap flowsBySource flowsByTarget rest
          ri.linkMap ri.counters child.2
        ⟨ie :: r.ies, r.linkMap, r.counters, r.ctr⟩

/-- `buildProcess`: build the `FPD_Process` InternalElement for one
process entry (`none` when the process id misses the map, in which case
nothing is emitted), threading the identifier counter.  Recursion follows
`decomposedView` jumps through the process map and is bounded by fuel;
on a cyclic decomposition chain the JavaScript would not terminate, and
any acyclic document is built completely once the fuel exceeds its
decomposition depth. -/
def buildProcess {ι : Type} (gen : ℕ → ι) (processMap : JsMap String ProcessEntry) :
    (fuel : ℕ) → Option String → ℕ → Option (IE ι) × ℕ
  | 0, _, ctr => (none, ctr)
  | fuel + 1, processId, ctr =>
    match processId.bind (fun pid => processMap.get pid) with
    | none => (none, ctr)
    | some entry =>
      let edi := entry.elementDataInformation
      let evi := entry.elementVisualInformation
      let visualMap : JsMap String VisualRecord :=
        evi.foldl (fun m vi => m.set vi.id vi) JsMap.empty
      let slData := edi.find? (fun e => decide (e.type = "fpb:SystemLimit"))
      let processName := jsOrStr (slData.bind (·.name)) "Process"
      let procId := gen ctr
      let slStep : List (IE ι) × ℕ :=
        match slData with
        | some sl =>
          ([IE.mk (some (jsOrStr sl.name "SystemLimit")) (some (gen (ctr + 1)))
              (some ((ELEMENT_TO_SUC "fpb:SystemLimit").getD ""))
              (match visualMap.get sl.id with
               | some v => [addVisualAttr v]
               | none => [])
              [] [] []], ctr + 2)
        | none => ([], ctr + 1)
      let flows := edi.filter (fun e => decide (e.type ∈ CONNECTION_TYPES))
      let objects := edi.filter (fun e => decide (e.type ∈ OBJECT_TYPES))
      let flowsBySource : JsMap (Option String) (List FpbRecord) :=
        flows.foldl (fun m f => m.set f.sourceRef ((m.get f.sourceRef).getD [] ++ [f]))
          JsMap.empty
      let flowsByTarget : JsMap (Option String) (List FpbRecord) :=
        flows.foldl (fun m f => m.set f.targetRef ((m.get f.targetRef).getD [] ++ [f]))
          JsMap.empty
      let ob := buildObjectsAux (buildProcess gen processMap fuel) gen visualMap
        flowsBySource flowsByTarget objects JsMap.empty JsMap.empty slStep.2
      let procIE : IE ι :=
        IE.mk (some processName) (some procId)
          (some ((ELEMENT_TO_SUC "fpb:Process").getD ""))
          [] [] (slStep.1 ++ ob.ies) (emitLinks ob.linkMap)
      (some procIE, ob.ctr)

/-- `jsonToAml`, down to the in-memory tree (serialisation and the
appended static libraries are external; `now` is the
`LastWritingDateTime` timestamp).  A document without an `fpb:Project`
header yields `none` (the JavaScript throws a TypeError there). -/
def jsonToAmlT {ι : Type} (gen : ℕ → ι) (now : String) (jsonData : FpbDoc) (fuel : ℕ) :
    Option (CaexFile ι) :=
  match jsonData.find? (fun e =>
    match e with
    | .project _ => true
    | .entry _ => false) with
  | some (.project project) =>
    let processEntries := jsonData.filterMap (fun e =>
      match e with
      | .entry pe => some pe
      | .project _ => none)
    let processMap : JsMap String ProcessEntry :=
      processEntries.foldl (fun m pe => m.set pe.process.id pe) JsMap.empty
    let ihId := gen 0
    let bp := buildProcess gen processMap fuel project.entryPoint 1
    some { schemaVersion := "3.0", fileName := "fpb-export.aml",
           superiorStandardVersion := "AutomationML 2.1",
           sourceDocInfo :=
             { originName := "fpb-aml-mapper", originID := "fpb-aml-mapper-1.0",
               originVersion := "0.1.0", lastWritingDateTime := now },
           instanceHierarchies :=
             [{ name := "InstanceHierarchy", id := some ihId, version := "1.0.0",
                elements :=
                  match bp.1 with
                  | some pIE => [pIE]
                  | none => [] }],
           librariesAppended := true }
  | _ => none

end FpbAml

namespace FpbAml

/-! ## C7: visual-block decoding -/

/-- The `x`/`y` coordinate computed by `parseVisualAttr` from the
`position` sub-block: `0` when the block is absent, else the parse of
the named value. -/
def pvCoord (visual : XAttr) (axisName : String) : JsNum :=
  match visual.getAttr "position" with
  | some p => parseFloatJs (getSubAttrValue (some p) axisName)
  | none => some 0

/-- Closed form of `parseVisualAttr` once the `Visual` attribute is found. -/
theorem parseVisualAttr_char (ie : IE String) (visual : XAttr)
    (hv : getAttrIE ie "Visual" = some visual) :
    parseVisualAttr ie =
      (if jsOrZero (parseFloatJs (getSubAttrValue (some visual) "width")) = 0 ∧
          jsOrZero (parseFloatJs (getSubAttrValue (some visual) "height")) = 0 ∧
          jsFalsy (pvCoord visual "x") ∧ jsFalsy (pvCoord visual "y") then none
       else some ⟨pvCoord visual "x", pvCoord visual "y",
         some (jsOrZero (parseFloatJs (getSubAttrValue (some visual) "width"))),
         some (jsOrZero (parseFloatJs (getSubAttrValue (some visual) "height")))⟩) := by
  unfold parseVisualAttr
  rw [hv]
  rfl

/-- A visual block whose `position` is present but carries no `x` value,
with width `5`. -/
def visualNaNAttr : XAttr :=
  XAttr.mk (some "Visual") none none none none
    [XAttr.mk (some "position") none none none none
      [XAttr.mk (some "y") (some "2") none none none []],
     XAttr.mk (some "width") (some "5") none none none []]

def visualNaNIE : IE String :=
  IE.mk (some "V") (some "v") (some "FPD_SystemUnitClassLib/FPD_Product")
    [visualNaNAttr] [] [] []

/-- C7, the claim as stated, is false: in this visual block the
`position` block is present but its `x` value is missing, and `x`
decodes as NaN (`none`), not as `0`. -/
theorem parseVisualAttr_counterexample :
    getAttrIE visualNaNIE "Visual" = some visualNaNAttr ∧
    (visualNaNAttr.getAttr "position").isSome = true ∧
    ((visualNaNAttr.getAttr "position").map (fun p => (findAttr p.children "x").isNone))
      = some true ∧
    parseVisualAttr visualNaNIE = some ⟨none, some 2, some 5, some 0⟩ ∧
    (none : JsNum) ≠ some 0 :=
  ⟨rfl, rfl, rfl, by decide, by decide⟩

/-- C7 amended: a missing `width`/`height` value decodes as `0` and the
decoded sizes are never NaN; with the whole `position` block absent,
`x`/`y` decode as `0`; but with the `position` block present and its `x`
value missing, `x` decodes as NaN (`none`), not `0`; a decoded record is
never entirely falsy (sizes zero, coordinates zero or NaN), and a visual
block with no position and empty size values decodes to no record. -/
theorem parseVisualAttr_amended (ie : IE String) (visual : XAttr)
    (hv : getAttrIE ie "Visual" = some visual) :
    (∀ vb, parseVisualAttr ie = some vb →
      (∃ w : ℚ, vb.width = some w) ∧ (∃ hq : ℚ, vb.height = some hq)) ∧
    (getSubAttrValue (some visual) "width" = "" →
      ∀ vb, parseVisualAttr ie = some vb → vb.width = some 0) ∧
    (visual.getAttr "position" = none →
      ∀ vb, parseVisualAttr ie = some vb → vb.x = some 0 ∧ vb.y = some 0) ∧
    (∀ p, visual.getAttr "position" = some p → getSubAttrValue (some p) "x" = "" →
      ∀ vb, parseVisualAttr ie = some vb → vb.x = none) ∧
    (∀ vb, parseVisualAttr ie = some vb →
      ¬(jsFalsy vb.x = true ∧ jsFalsy vb.y = true ∧ vb.width = some 0 ∧ vb.height = some 0)) ∧
    (visual.getAttr "position" = none → getSubAttrValue (some visual) "width" = "" →
      getSubAttrValue (some visual) "height" = "" → parseVisualAttr ie = none) := by
  have hpf : parseFloatJs "" = none := by decide
  rw [parseVisualAttr_char ie visual hv]
  refine ⟨?_, ?_, ?_, ?_, ?_, ?_⟩
  · intro vb hvb
    split_ifs at hvb
    cases hvb
    exact ⟨⟨_, rfl⟩, ⟨_, rfl⟩⟩
  · intro hw vb hvb
    rw [hw, hpf] at hvb
    split_ifs at hvb
    rw [← Option.some.inj hvb]
    rfl
  · intro hpos vb hvb
    rw [show pvCoord visual "x" = some 0 by rw [pvCoord, hpos],
        show pvCoord visual "y" = some 0 by rw [pvCoord, hpos]] at hvb
    split_ifs at hvb
    rw [← Option.some.inj hvb]
    exact ⟨rfl, rfl⟩
  · intro p hp hx vb hvb
    rw [show pvCoord visual "x" = none by
      rw [pvCoord, hp]
      show parseFloatJs (getSubAttrValue (some p) "x") = none
      rw [hx]
      exact hpf] at hvb
    split_ifs at hvb
    all_goals rw [← Option.some.inj hvb]
  · intro vb hvb hfal
    split_ifs at hvb with hcond
    rw [← Option.some.inj hvb] at hfal
    obtain ⟨h1, h2, h3, h4⟩ := hfal
    exact hcond ⟨Option.some.inj h3, Option.some.inj h4, h1, h2⟩
  · intro hpos hw hh
    rw [hw, hh, hpf,
        show pvCoord visual "x" = some 0 by rw [pvCoord, hpos],
        show pvCoord visual "y" = some 0 by rw [pvCoord, hpos]]
    simp [jsFalsy, jsOrZero]

/-- Witness for `parseVisualAttr_amended` at the concrete visual block:
the hypotheses hold there, and the conclusion gives `x = NaN` for the
decoded record. -/
theorem parseVisualAttr_amended_witness :
    (⟨none, some 2, some 5, some 0⟩ : VisualBox).x = none :=
  (parseVisualAttr_amended visualNaNIE visualNaNAttr rfl).2.2.2.1
    (XAttr.mk (some "position") none none none none
      [XAttr.mk (some "y") (some "2") none none none []]) rfl rfl
    ⟨none, some 2, some 5, some 0⟩ (by decide)

end FpbAml

namespace FpbAml

/-! ## JsMap laws -/

theorem JsMap.get_nil {κ ν : Type} [DecidableEq κ] (k : κ) :
    (JsMap.empty : JsMap κ ν).get k = none := rfl

theorem JsMap.get_cons {κ ν : Type} [DecidableEq κ] (p : κ × ν) (t : JsMap κ ν) (k : κ) :
    JsMap.get (p :: t) k = if p.1 = k then some p.2 else t.get k := by
  by_cases h : p.1 = k
  · simp [JsMap.get, List.find?_cons, h]
  · simp [JsMap.get, List.find?_cons, h]

theorem JsMap.get_set_same {κ ν : Type} [DecidableEq κ] (m : JsMap κ ν) (k : κ) (v : ν) :
    (m.set k v).get k = some v := by
  induction m with
  | nil => simp [JsMap.set, JsMap.get_cons, JsMap.get_nil]
  | cons p t ih =>
    by_cases h : p.1 = k
    · simp [JsMap.set, h, JsMap.get_cons]
    · simp [JsMap.set, h, JsMap.get_cons, ih]

theorem JsMap.get_set_ne {κ ν : Type} [DecidableEq κ] (m : JsMap κ ν) (k k' : κ) (v : ν)
    (h : k' ≠ k) : (m.set k v).get k' = m.get k' := by
  have h2 : k ≠ k' := Ne.symm h
  induction m with
  | nil => simp [JsMap.set, JsMap.get_cons, JsMap.get_nil, h2]
  | cons p t ih =>
    by_cases hp : p.1 = k
    · subst hp
      simp [JsMap.set, JsMap.get_cons, h2]
    · simp only [JsMap.set, hp, if_false, JsMap.get_cons, ih]

/-! ## C5: port naming (getNextInterfaceName) -/

/-- The stream of names produced by consecutive `getNextInterfaceName`
requests (one request = element id and interface base name). -/
def interfaceNameRun (counters : IfaceCounters) : List (String × String) → List String
  | [] => []
  | r :: rest =>
    let p := getNextInterfaceName counters r.1 r.2
    p.1 :: interfaceNameRun p.2 rest

/-- The expected name of the zero-indexed k-th port of one base class on
one element: the bare base name first, then suffixes 1, 2, ... -/
def portName (base : String) (k : ℕ) : String :=
  if k = 0 then base else base ++ toString k

/-- The counter state for one element and base name. -/
def ifaceCount (counters : IfaceCounters) (e b : String) : ℕ :=
  (((counters.get e).getD JsMap.empty).get b).getD 0

theorem getNextInterfaceName_name (counters : IfaceCounters) (e b : String) :
    (getNextInterfaceName counters e b).1 = portName b (ifaceCount counters e b) := by
  simp [getNextInterfaceName, portName, ifaceCount]

theorem ifaceCount_step (counters : IfaceCounters) (e' b' e b : String) :
    ifaceCount (getNextInterfaceName counters e' b').2 e b =
      (if e' = e ∧ b' = b then ifaceCount counters e b + 1 else ifaceCount counters e b) := by
  by_cases he : e' = e
  · subst he
    by_cases hb : b' = b
    · subst hb
      simp [ifaceCount, getNextInterfaceName, JsMap.get_set_same]
    · simp only [ifaceCount, getNextInterfaceName, JsMap.get_set_same, hb, and_false, if_false]
      simp [JsMap.get_set_ne _ _ _ _ (Ne.symm hb)]
  · simp only [ifaceCount, getNextInterfaceName, he, false_and, if_false]
    rw [JsMap.get_set_ne _ _ _ _ (Ne.symm he)]

theorem interfaceNameRun_filter (reqs : List (String × String)) (counters : IfaceCounters)
    (e b : String) :
    ((reqs.zip (interfaceNameRun counters reqs)).filter
        (fun p => decide (p.1 = (e, b)))).map (·.2)
      = (List.range' (ifaceCount counters e b)
          (reqs.countP (fun p => decide (p.1 = e ∧ p.2 = b)))).map (portName b) := by
  induction reqs generalizing counters with
  | nil => simp
  | cons r rest ih =>
    by_cases hr : r = (e, b)
    · subst hr
      show ((((e, b), (getNextInterfaceName counters e b).1) ::
          (rest.zip (interfaceNameRun (getNextInterfaceName counters e b).2 rest))).filter
            (fun p => decide (p.1 = (e, b)))).map (·.2) = _
      rw [List.filter_cons_of_pos (by simp), List.map_cons,
        List.countP_cons_of_pos _ _ (by simp),
        show ∀ c n, List.range' c (n + 1) = c :: List.range' (c + 1) n from fun c n => rfl,
        List.map_cons, getNextInterfaceName_name, ih, ifaceCount_step]
      simp
    · have hr2 : ¬(r.1 = e ∧ r.2 = b) := by
        intro hh
        exact hr (Prod.ext hh.1 hh.2)
      show ((((r.1, r.2), (getNextInterfaceName counters r.1 r.2).1) ::
          (rest.zip (interfaceNameRun (getNextInterfaceName counters r.1 r.2).2 rest))).filter
            (fun p => decide (p.1 = (e, b)))).map (·.2) = _
      rw [List.filter_cons_of_neg (by simpa using hr),
        List.countP_cons_of_neg _ _ (by simpa using hr2), ih, ifaceCount_step]
      simp [hr2]

end FpbAml

namespace FpbAml

/-- The out-port names emitted for one element are exactly the stream of
`getNextInterfaceName` answers for that element's out-base requests. -/
theorem addOutIfaces_names {ι : Type} (gen : ℕ → ι) (visualMap : JsMap String VisualRecord)
    (objId : String) (flows : List FpbRecord) (counters : IfaceCounters)
    (lm : JsMap String (LinkIds ι)) (ctr : ℕ) :
    (addOutIfaces gen visualMap objId flows counters lm ctr).ifaces.map (·.name)
      = (interfaceNameRun counters (flows.filterMap (fun f =>
          (FLOW_TO_INTERFACE f.type).map (fun paths =>
            (objId, (splitOnChar '/' paths.out).getD 1 ""))))).map some := by
  induction flows generalizing counters lm ctr with
  | nil => rfl
  | cons flow rest ih =>
    cases hf : FLOW_TO_INTERFACE flow.type with
    | none => simp [addOutIfaces, hf, ih]
    | some paths => simp [addOutIfaces, hf, ih, interfaceNameRun]

/-- The in-port names emitted for one element are exactly the stream of
`getNextInterfaceName` answers for that element's in-base requests. -/
theorem addInIfaces_names {ι : Type} (gen : ℕ → ι) (visualMap : JsMap String VisualRecord)
    (objId : String) (flows : List FpbRecord) (counters : IfaceCounters)
    (lm : JsMap String (LinkIds ι)) (ctr : ℕ) :
    (addInIfaces gen visualMap objId flows counters lm ctr).ifaces.map (·.name)
      = (interfaceNameRun counters (flows.filterMap (fun f =>
          (FLOW_TO_INTERFACE f.type).map (fun paths =>
            (objId, (splitOnChar '/' paths.inn).getD 1 ""))))).map some := by
  induction flows generalizing counters lm ctr with
  | nil => rfl
  | cons flow rest ih =>
    cases hf : FLOW_TO_INTERFACE flow.type with
    | none => simp [addInIfaces, hf, ih]
    | some paths => simp [addInIfaces, hf, ih, interfaceNameRun]

/-- C5: port names are assigned per element and per interface base
class, zero-indexed with suffixing.  For any interleaved request stream,
the names answered at the positions of one element/base pair are exactly
`base, base1, ..., base(k-1)` in that order (`portName base 0..k-1`),
with counters independent across elements and base classes; and the port
loops of the builder emit exactly this stream of names for an element's
out- and in-bases. -/
theorem portNaming_zero_indexed_suffixed :
    (∀ (reqs : List (String × String)) (e b : String),
      ((reqs.zip (interfaceNameRun JsMap.empty reqs)).filter
          (fun p => decide (p.1 = (e, b)))).map (·.2)
        = (List.range (reqs.countP (fun p => decide (p.1 = e ∧ p.2 = b)))).map (portName b)) ∧
    (∀ (gen : ℕ → String) (visualMap : JsMap String VisualRecord) (objId : String)
        (flows : List FpbRecord) (counters : IfaceCounters)
        (lm : JsMap String (LinkIds String)) (ctr : ℕ),
      (addOutIfaces gen visualMap objId flows counters lm ctr).ifaces.map (·.name)
        = (interfaceNameRun counters (flows.filterMap (fun f =>
            (FLOW_TO_INTERFACE f.type).map (fun paths =>
              (objId, (splitOnChar '/' paths.out).getD 1 ""))))).map some) ∧
    (∀ (gen : ℕ → String) (visualMap : JsMap String VisualRecord) (objId : String)
        (flows : List FpbRecord) (counters : IfaceCounters)
        (lm : JsMap String (LinkIds String)) (ctr : ℕ),
      (addInIfaces gen visualMap objId flows counters lm ctr).ifaces.map (·.name)
        = (interfaceNameRun counters (flows.filterMap (fun f =>
            (FLOW_TO_INTERFACE f.type).map (fun paths =>
              (objId, (splitOnChar '/' paths.inn).getD 1 ""))))).map some) := by
  refine ⟨?_, ?_, ?_⟩
  · intro reqs e b
    rw [interfaceNameRun_filter reqs JsMap.empty e b, List.range_eq_range']
    rfl
  · intro gen visualMap objId flows counters lm ctr
    exact addOutIfaces_names gen visualMap objId flows counters lm ctr
  · intro gen visualMap objId flows counters lm ctr
    exact addInIfaces_names gen visualMap objId flows counters lm ctr

end FpbAml

namespace FpbAml

/-! ## C9: determinism and identifier-supply equivariance of jsonToAml

Relabeling of every generated-identifier position of the output tree. -/

def mapExtIf {ι κ : Type} (f : ι → κ) (e : ExternalInterface ι) : ExternalInterface κ :=
  ⟨e.name, e.id.map f, e.refBaseClassPath, e.attributes⟩

def mapLink {ι κ : Type} (f : ι → κ) (l : InternalLink ι) : InternalLink κ :=
  ⟨l.refPartnerSideA.map f, l.refPartnerSideB.map f, l.name⟩

mutual

def mapIE {ι κ : Type} (f : ι → κ) : IE ι → IE κ
  | .mk n i r a ifs cs ls =>
    .mk n (i.map f) r a (ifs.map (mapExtIf f)) (mapIEs f cs) (ls.map (mapLink f))

def mapIEs {ι κ : Type} (f : ι → κ) : List (IE ι) → List (IE κ)
  | [] => []
  | c :: cs => mapIE f c :: mapIEs f cs

end

theorem mapIEs_eq_map {ι κ : Type} (f : ι → κ) (l : List (IE ι)) :
    mapIEs f l = l.map (mapIE f) := by
  induction l with
  | nil => rfl
  | cons c cs ih => simp [mapIEs, ih]

def mapIH {ι κ : Type} (f : ι → κ) (ih : InstanceHierarchy ι) : InstanceHierarchy κ :=
  ⟨ih.name, ih.id.map f, ih.version, mapIEs f ih.elements⟩

/-- Relabel every generated-identifier slot of a built CAEX document. -/
def mapCaex {ι κ : Type} (f : ι → κ) (c : CaexFile ι) : CaexFile κ :=
  { schemaVersion := c.schemaVersion, fileName := c.fileName,
    superiorStandardVersion := c.superiorStandardVersion,
    sourceDocInfo := c.sourceDocInfo,
    instanceHierarchies := c.instanceHierarchies.map (mapIH f),
    librariesAppended := c.librariesAppended }

def mapLinkIds {ι κ : Type} (f : ι → κ) (li : LinkIds ι) : LinkIds κ :=
  ⟨li.outInterfaceId.map f, li.inInterfaceId.map f⟩

def mapLinkMap {ι κ : Type} (f : ι → κ) (lm : JsMap String (LinkIds ι)) :
    JsMap String (LinkIds κ) :=
  lm.map (fun p => (p.1, mapLinkIds f p.2))

theorem JsMap.get_mapVal {κ ν ν' : Type} [DecidableEq κ] (g : ν → ν') (m : JsMap κ ν) (k : κ) :
    JsMap.get (m.map (fun p => (p.1, g p.2))) k = (m.get k).map g := by
  induction m with
  | nil => rfl
  | cons p t ih =>
    by_cases h : p.1 = k
    · simp [JsMap.get_cons, h]
    · simp [JsMap.get_cons, h, ih]

theorem JsMap.set_mapVal {κ ν ν' : Type} [DecidableEq κ] (g : ν → ν') (m : JsMap κ ν)
    (k : κ) (v : ν) :
    JsMap.set (m.map (fun p => (p.1, g p.2))) k (g v)
      = (m.set k v).map (fun p => (p.1, g p.2)) := by
  induction m with
  | nil => rfl
  | cons p t ih =>
    by_cases h : p.1 = k
    · simp [JsMap.set, h]
    · simp [JsMap.set, h, ih]

theorem mapLinkMap_get {ι κ : Type} (f : ι → κ) (lm : JsMap String (LinkIds ι)) (k : String) :
    (mapLinkMap f lm).get k = (lm.get k).map (mapLinkIds f) :=
  JsMap.get_mapVal (mapLinkIds f) lm k

theorem linkSetOut_map {ι κ : Type} (f : ι → κ) (lm : JsMap String (LinkIds ι))
    (fid : String) (i : ι) :
    linkSetOut (mapLinkMap f lm) fid (f i) = mapLinkMap f (linkSetOut lm fid i) := by
  unfold linkSetOut
  rw [mapLinkMap_get]
  cases hg : lm.get fid with
  | none => exact JsMap.set_mapVal (mapLinkIds f) lm fid ⟨some i, none⟩
  | some c => exact JsMap.set_mapVal (mapLinkIds f) lm fid ⟨some i, c.inInterfaceId⟩

theorem linkSetIn_map {ι κ : Type} (f : ι → κ) (lm : JsMap String (LinkIds ι))
    (fid : String) (i : ι) :
    linkSetIn (mapLinkMap f lm) fid (f i) = mapLinkMap f (linkSetIn lm fid i) := by
  unfold linkSetIn
  rw [mapLinkMap_get]
  cases hg : lm.get fid with
  | none => exact JsMap.set_mapVal (mapLinkIds f) lm fid ⟨none, some i⟩
  | some c => exact JsMap.set_mapVal (mapLinkIds f) lm fid ⟨c.outInterfaceId, some i⟩

theorem addOutIfaces_map {ι κ : Type} (f : ι → κ) (gen : ℕ → ι)
    (visualMap : JsMap String VisualRecord) (objId : String) (flows : List FpbRecord)
    (counters : IfaceCounters) (lm : JsMap String (LinkIds ι)) (ctr : ℕ) :
    addOutIfaces (fun n => f (gen n)) visualMap objId flows counters (mapLinkMap f lm) ctr
      = ⟨(addOutIfaces gen visualMap objId flows counters lm ctr).ifaces.map (mapExtIf f),
         (addOutIfaces gen visualMap objId flows counters lm ctr).counters,
         mapLinkMap f ((addOutIfaces gen visualMap objId flows counters lm ctr).linkMap),
         (addOutIfaces gen visualMap objId flows counters lm ctr).ctr⟩ := by
  induction flows generalizing counters lm ctr with
  | nil => rfl
  | cons flow rest ih =>
    cases hf : FLOW_TO_INTERFACE flow.type with
    | none => simp [addOutIfaces, hf, ih]
    | some paths =>
      simp only [addOutIfaces, hf]
      rw [linkSetOut_map, ih]
      rfl

theorem addInIfaces_map {ι κ : Type} (f : ι → κ) (gen : ℕ → ι)
    (visualMap : JsMap String VisualRecord) (objId : String) (flows : List FpbRecord)
    (counters : IfaceCounters) (lm : JsMap String (LinkIds ι)) (ctr : ℕ) :
    addInIfaces (fun n => f (gen n)) visualMap objId flows counters (mapLinkMap f lm) ctr
      = ⟨(addInIfaces gen visualMap objId flows counters lm ctr).ifaces.map (mapExtIf f),
         (addInIfaces gen visualMap objId flows counters lm ctr).counters,
         mapLinkMap f ((addInIfaces gen visualMap objId flows counters lm ctr).linkMap),
         (addInIfaces gen visualMap objId flows counters lm ctr).ctr⟩ := by
  induction flows generalizing counters lm ctr with
  | nil => rfl
  | cons flow rest ih =>
    cases hf : FLOW_TO_INTERFACE flow.type with
    | none => simp [addInIfaces, hf, ih]
    | some paths =>
      simp only [addInIfaces, hf]
      rw [linkSetIn_map, ih]
      rfl

theorem emitLinks_map {ι κ : Type} (f : ι → κ) (lm : JsMap String (LinkIds ι)) :
    emitLinks (mapLinkMap f lm) = (emitLinks lm).map (mapLink f) := by
  suffices h : ∀ (acc : List (InternalLink ι)) (n : ℕ),
      List.foldl emitLinkStep (acc.map (mapLink f), n) (mapLinkMap f lm)
        = ((List.foldl emitLinkStep (acc, n) lm).1.map (mapLink f),
           (List.foldl emitLinkStep (acc, n) lm).2) by
    have h2 := h [] 0
    unfold emitLinks
    rw [show (([] : List (InternalLink κ)), (0 : ℕ))
          = ((([] : List (InternalLink ι)).map (mapLink f)), (0 : ℕ)) from rfl, h2]
  intro acc n
  induction lm generalizing acc n with
  | nil => rfl
  | cons p t ih =>
    cases p with
    | mk fid li =>
      cases li with
      | mk o i =>
        cases o with
        | none => exact ih acc n
        | some ov =>
          cases i with
          | none => exact ih acc n
          | some iv =>
            have e1 : mapLinkMap f ((fid, (⟨some ov, some iv⟩ : LinkIds ι)) :: t)
                = (fid, (⟨some (f ov), some (f iv)⟩ : LinkIds κ)) :: mapLinkMap f t := rfl
            rw [e1, List.foldl_cons, List.foldl_cons]
            have e2 : emitLinkStep (acc.map (mapLink f), n)
                  (fid, (⟨some (f ov), some (f iv)⟩ : LinkIds κ))
                = ((acc ++ [(⟨some ov, some iv,
                    some (if n = 0 then "Link" else "Link" ++ toString n)⟩ : InternalLink ι)]).map
                      (mapLink f),
                   n + 1) := by
              simp [emitLinkStep, mapLink]
            have e3 : emitLinkStep (acc, n) (fid, (⟨some ov, some iv⟩ : LinkIds ι))
                = (acc ++ [(⟨some ov, some iv,
                    some (if n = 0 then "Link" else "Link" ++ toString n)⟩ : InternalLink ι)],
                   n + 1) := rfl
            rw [e2, e3]
            exact ih _ (n + 1)

end FpbAml

namespace FpbAml

theorem buildObjectsAux_map {ι κ : Type} (f : ι → κ)
    (bp : Option String → ℕ → Option (IE ι) × ℕ)
    (bp' : Option String → ℕ → Option (IE κ) × ℕ)
    (hbp : ∀ pid ctr, bp' pid ctr = ((bp pid ctr).1.map (mapIE f), (bp pid ctr).2))
    (gen : ℕ → ι) (visualMap : JsMap String VisualRecord)
    (flowsBySource flowsByTarget : JsMap (Option String) (List FpbRecord))
    (objs : List FpbRecord) (lm : JsMap String (LinkIds ι)) (counters : IfaceCounters)
    (ctr : ℕ) :
    buildObjectsAux bp' (fun n => f (gen n)) visualMap flowsBySource flowsByTarget objs
        (mapLinkMap f lm) counters ctr
      = ⟨mapIEs f ((buildObjectsAux bp gen visualMap flowsBySource flowsByTarget objs
            lm counters ctr).ies),
         mapLinkMap f ((buildObjectsAux bp gen visualMap flowsBySource flowsByTarget objs
            lm counters ctr).linkMap),
         (buildObjectsAux bp gen visualMap flowsBySource flowsByTarget objs
            lm counters ctr).counters,
         (buildObjectsAux bp gen visualMap flowsBySource flowsByTarget objs
            lm counters ctr).ctr⟩ := by
  induction objs generalizing lm counters ctr with
  | nil => rfl
  | cons obj rest ih =>
    by_cases hsl : obj.type = "fpb:SystemLimit"
    · simp only [buildObjectsAux, hsl, if_true, if_pos]
      exact ih lm counters ctr
    · simp only [buildObjectsAux, hsl, if_false, if_neg hsl]
      cases hsuc : ELEMENT_TO_SUC obj.type with
      | none => exact ih lm counters ctr
      | some sucPath =>
        simp only [addOutIfaces_map f gen visualMap obj.id _ counters lm (ctr + 1)]
        simp only [addInIfaces_map f gen visualMap obj.id]
        by_cases hdec : obj.type = "fpb:ProcessOperator" ∧ jsTruthyStr obj.decomposedView
        · simp only [hdec, if_true, if_pos, hbp]
          rw [ih]
          simp [mapIEs_eq_map, mapIE]
          cases hch : (bp obj.decomposedView
              (addInIfaces gen visualMap obj.id _ _ _ _).ctr).1 with
          | none => simp [mapIEs]
          | some c => simp [mapIEs]
        · simp only [hdec, if_false, if_neg hdec]
          rw [ih]
          simp [mapIEs_eq_map, mapIE, mapIEs]

theorem buildProcess_map {ι κ : Type} (f : ι → κ) (gen : ℕ → ι)
    (processMap : JsMap String ProcessEntry) (fuel : ℕ) (processId : Option String) (ctr : ℕ) :
    buildProcess (fun n => f (gen n)) processMap fuel processId ctr
      = ((buildProcess gen processMap fuel processId ctr).1.map (mapIE f),
         (buildProcess gen processMap fuel processId ctr).2) := by
  induction fuel generalizing processId ctr with
  | zero => rfl
  | succ fuel ih =>
    show buildProcess _ processMap (fuel + 1) processId ctr = _
    simp only [buildProcess]
    cases hent : processId.bind (fun pid => processMap.get pid) with
    | none => rfl
    | some entry =>
      simp only
      have hob := buildObjectsAux_map f
        (buildProcess gen processMap fuel) (buildProcess (fun n => f (gen n)) processMap fuel)
        (fun pid c => ih pid c) gen
        (entry.elementVisualInformation.foldl (fun m vi => m.set vi.id vi) JsMap.empty)
        (entry.elementDataInformation.filter (fun e => decide (e.type ∈ CONNECTION_TYPES))
          |>.foldl (fun m g => m.set g.sourceRef ((m.get g.sourceRef).getD [] ++ [g]))
            JsMap.empty)
        (entry.elementDataInformation.filter (fun e => decide (e.type ∈ CONNECTION_TYPES))
          |>.foldl (fun m g => m.set g.targetRef ((m.get g.targetRef).getD [] ++ [g]))
            JsMap.empty)
        (entry.elementDataInformation.filter (fun e => decide (e.type ∈ OBJECT_TYPES)))
      cases hsl : entry.elementDataInformation.find? (fun e => decide (e.type = "fpb:SystemLimit")) with
      | none =>
        have hob2 := hob JsMap.empty JsMap.empty (ctr + 1)
        rw [show mapLinkMap f JsMap.empty = JsMap.empty from rfl] at hob2
        simp only [hsl, hob2]
        rw [emitLinks_map]
        simp [mapIE, mapIEs, mapIEs_eq_map]
      | some sl =>
        have hob2 := hob JsMap.empty JsMap.empty (ctr + 2)
        rw [show mapLinkMap f JsMap.empty = JsMap.empty from rfl] at hob2
        simp only [hsl, hob2]
        rw [emitLinks_map]
        cases hvm : JsMap.get (entry.elementVisualInformation.foldl
            (fun m vi => m.set vi.id vi) JsMap.empty) sl.id with
        | none => simp [mapIE, mapIEs, mapIEs_eq_map, hvm]
        | some v => simp [mapIE, mapIEs, mapIEs_eq_map, hvm]

/-- C9 amended: each conversion is a deterministic function of its input
document together with its identifier-supply and timestamp environment,
and `jsonToAml` depends on the identifier supply only up to relabelling:
composing the supply with any function `f` relabels exactly the
generated-identifier positions of the output tree and changes nothing
else.  (In particular two invocations with the same supply and timestamp
produce identical outputs; invocations with different supplies differ
only in those generated positions — not in input-derived content.) -/
theorem jsonToAml_supply_equivariant {ι κ : Type} (f : ι → κ) (gen : ℕ → ι)
    (now : String) (jsonData : FpbDoc) (fuel : ℕ) :
    jsonToAmlT (fun n => f (gen n)) now jsonData fuel
      = (jsonToAmlT gen now jsonData fuel).map (mapCaex f) := by
  unfold jsonToAmlT
  cases hp : jsonData.find? (fun e =>
    match e with
    | .project _ => true
    | .entry _ => false) with
  | none => rfl
  | some e =>
    cases e with
    | entry pe => rfl
    | project project =>
      simp only
      rw [buildProcess_map f gen _ fuel project.entryPoint 1]
      cases hbpr : (buildProcess gen (List.foldl (fun m pe => m.set pe.process.id pe)
          JsMap.empty (jsonData.filterMap (fun e =>
            match e with
            | .entry pe => some pe
            | .project _ => none))) fuel project.entryPoint 1).1 with
      | none => simp [mapCaex, mapIH, mapIEs]
      | some pIE => simp [mapCaex, mapIH, mapIEs]

/-- The fixed-point-free document for the nondeterminism counterexample:
just a project header. -/
def detDoc : FpbDoc := [FpbEntry.project ⟨"P", "ns", none⟩]

/-- C9, the claim as stated, is false: on the same input document, two
invocations drawing different identifiers (as `crypto.randomUUID` /
`uuidv4` do) produce different outputs — here the InstanceHierarchy id
differs. -/
theorem jsonToAml_nondeterminism_counterexample :
    jsonToAmlT (fun _ => "a") "T" detDoc 1 ≠ jsonToAmlT (fun _ => "b") "T" detDoc 1 := by
  intro h
  have h2 := congrArg (fun o =>
    (o.map (fun c => c.instanceHierarchies.map (fun ih => ih.id)))) h
  revert h2
  decide

end FpbAml

namespace FpbAml

/-! ## C3: link resolution -/

theorem JsMap.get_eq_none_iff {κ ν : Type} [DecidableEq κ] (m : JsMap κ ν) (k : κ) :
    m.get k = none ↔ k ∉ m.keys := by
  induction m with
  | nil => simp [JsMap.get, JsMap.keys, List.find?]
  | cons p t ih =>
    by_cases h : p.1 = k
    · simp [JsMap.get_cons, h, JsMap.keys]
    · simp [JsMap.get_cons, h, JsMap.keys, ih, Ne.symm h]

theorem JsMap.set_of_get_none {κ ν : Type} [DecidableEq κ] (m : JsMap κ ν) (k : κ) (v : ν)
    (h : m.get k = none) : m.set k v = m ++ [(k, v)] := by
  induction m with
  | nil => rfl
  | cons p t ih =>
    rw [JsMap.get_cons] at h
    by_cases hp : p.1 = k
    · simp [hp] at h
    · simp only [hp, if_false] at h
      simp [JsMap.set, hp, ih h]

theorem JsMap.length_set_of_get_none {κ ν : Type} [DecidableEq κ] (m : JsMap κ ν) (k : κ)
    (v : ν) (h : m.get k = none) : (m.set k v).length = m.length + 1 := by
  rw [JsMap.set_of_get_none m k v h]
  simp

/-- A link with an unresolved side is skipped: the loop state is
unchanged, so no edge, waypoint record or container entry arises. -/
theorem processLink_skip (gen : ℕ → String) (ifmap : JsMap (Option String) IfaceInfo)
    (st : LinkState) (link : InternalLink String)
    (h : ifmap.get link.refPartnerSideA = none ∨ ifmap.get link.refPartnerSideB = none) :
    processLink gen ifmap st link = st := by
  unfold processLink
  rcases h with h | h
  · rw [h]
  · rw [h]
    cases ifmap.get link.refPartnerSideA <;> rfl

/-- A link with both sides resolved produces exactly one new edge:
source = side A when it is tagged `out`, else side B; target = side A
when it is tagged `in`, else side B; fresh id; `inTandemWith`
initialised for the ParallelFlow/AlternativeFlow kinds only. -/
theorem processLink_step (gen : ℕ → String) (ifmap : JsMap (Option String) IfaceInfo)
    (st : LinkState) (link : InternalLink String) (sideA sideB : IfaceInfo)
    (hA : ifmap.get link.refPartnerSideA = some sideA)
    (hB : ifmap.get link.refPartnerSideB = some sideB) :
    (processLink gen ifmap st link).flows = st.flows.set (gen st.ctr)
      { type := (if sideA.direction = "out" then sideA else sideB).flowType,
        id := gen st.ctr,
        sourceRef := some (if sideA.direction = "out" then sideA else sideB).elementId,
        targetRef := some (if sideA.direction = "in" then sideA else sideB).elementId,
        inTandemWith :=
          if (if sideA.direction = "out" then sideA else sideB).flowType ≠ "fpb:Flow" ∧
             (if sideA.direction = "out" then sideA else sideB).flowType ≠ "fpb:Usage"
          then some [] else none }
    ∧ (processLink gen ifmap st link).ctr = st.ctr + 1
    ∧ (processLink gen ifmap st link).containerIds = st.containerIds ++ [gen st.ctr] := by
  unfold processLink
  rw [hA, hB]
  exact ⟨rfl, rfl, rfl⟩

theorem linkFold_count (gen : ℕ → String) (hinj : Function.Injective gen)
    (ifmap : JsMap (Option String) IfaceInfo) :
    ∀ (links : List (InternalLink String)) (st : LinkState),
      (∀ n, st.ctr ≤ n → st.flows.get (gen n) = none) →
      (List.foldl (processLink gen ifmap) st links).flows.length
        = st.flows.length + (links.filter (fun l =>
            (ifmap.get l.refPartnerSideA).isSome && (ifmap.get l.refPartnerSideB).isSome)).length := by
  intro links
  induction links with
  | nil => intro st _; simp
  | cons link rest ih =>
    intro st hfresh
    cases hA : ifmap.get link.refPartnerSideA with
    | none =>
      rw [List.foldl_cons, processLink_skip gen ifmap st link (Or.inl hA),
        List.filter_cons_of_neg (by simp [hA])]
      exact ih st hfresh
    | some sideA =>
      cases hB : ifmap.get link.refPartnerSideB with
      | none =>
        rw [List.foldl_cons, processLink_skip gen ifmap st link (Or.inr hB),
          List.filter_cons_of_neg (by simp [hB])]
        exact ih st hfresh
      | some sideB =>
        obtain ⟨hf, hc, _⟩ := processLink_step gen ifmap st link sideA sideB hA hB
        rw [List.foldl_cons, List.filter_cons_of_pos (by simp [hA, hB])]
        have hnew := ih (processLink gen ifmap st link) (by
          intro n hn
          rw [hc] at hn
          rw [hf, JsMap.get_set_ne _ _ _ _ (fun he => by
            have := hinj he
            omega)]
          exact hfresh n (by omega))
        rw [hnew, hf, JsMap.length_set_of_get_none _ _ _ (hfresh st.ctr le_rfl)]
        simp [List.length_filter_le]
        omega

end FpbAml

namespace FpbAml

/-- The process entries of a conversion result. -/
def docEntries : Except String FpbDoc → List ProcessEntry
  | Except.ok l =>
    l.filterMap (fun e =>
      match e with
      | FpbEntry.entry pe => some pe
      | FpbEntry.project _ => none)
  | Except.error _ => []

/-- All `elementDataInformation` records of a conversion result. -/
def docRecords (r : Except String FpbDoc) : List FpbRecord :=
  (docEntries r).flatMap (·.elementDataInformation)

/-- A deterministic id supply for the concrete examples. -/
def cgen : ℕ → String := fun n => "g" ++ toString n

def bothOutProcIE : IE String :=
  IE.mk (some "P") (some "iep") (some procPath) [] []
    [IE.mk (some "X") (some "iex") (some "FPD_SystemUnitClassLib/FPD_Product")
      [XAttr.mk (some "Identification") none none none none
        [XAttr.mk (some "uniqueIdent") (some "x") none none none []]]
      [⟨some "FPD_FlowOut", some "px", some "FPD_InterfaceClassLib/FPD_FlowOut", []⟩] [] [],
     IE.mk (some "Y") (some "iey") (some "FPD_SystemUnitClassLib/FPD_Product")
      [XAttr.mk (some "Identification") none none none none
        [XAttr.mk (some "uniqueIdent") (some "y") none none none []]]
      [⟨some "FPD_FlowOut", some "py", some "FPD_InterfaceClassLib/FPD_FlowOut", []⟩] [] []]
    [⟨some "px", some "py", some "Link"⟩]

/-- A document whose single link pairs two ports that are both tagged
`out` (two `FPD_FlowOut` ports). -/
def bothOutCaex : CaexFile String :=
  ⟨"3.0", "f", "A", ⟨"", "", "", "T"⟩, [⟨"IH", some "ih", "1", [bothOutProcIE]⟩], true⟩

/-- C3, the claim as stated, is false: a link whose two resolved ports
carry the same direction tag (here both `out`) is not skipped — the
conversion produces one Flow edge from side A's element to side B's. -/
theorem sameDirection_link_counterexample :
    INTERFACE_TO_FLOW "FPD_InterfaceClassLib/FPD_FlowOut" = some ⟨"fpb:Flow", "out"⟩ ∧
    (bothOutProcIE.internalElements.flatMap (fun e => e.externalInterfaces)).map
        (fun i => i.refBaseClassPath)
      = [some "FPD_InterfaceClassLib/FPD_FlowOut", some "FPD_InterfaceClassLib/FPD_FlowOut"] ∧
    bothOutProcIE.internalLinks.map (fun l => (l.refPartnerSideA, l.refPartnerSideB))
      = [(some "px", some "py")] ∧
    ((docRecords (amlToJson cgen bothOutCaex)).filter (fun r => r.sourceRef.isSome)).map
        (fun r => (r.type, r.sourceRef, r.targetRef))
      = [("fpb:Flow", some "x", some "y")] := by
  decide

/-- C3 amended: a link of which either port reference is unresolved is
skipped (state unchanged, no edge); every other link produces exactly
one edge, whose source element is side A's when side A is tagged `out`
and side B's otherwise, and whose target element is side A's when side A
is tagged `in` and side B's otherwise.  So for links whose sides carry
distinct tags, source = the out-tagged port's element and target = the
in-tagged port's element; a same-direction link is NOT skipped: with
both sides tagged `out` — every Usage link is one — side A's element is
the source and side B's the target, while with both sides tagged `in`
side B's element is the source and side A's the target.  The number of
edges equals the number of resolvable links. -/
theorem amlToJson_link_resolution :
    (∀ (gen : ℕ → String) (ifmap : JsMap (Option String) IfaceInfo) (st : LinkState)
        (link : InternalLink String),
      (ifmap.get link.refPartnerSideA = none ∨ ifmap.get link.refPartnerSideB = none) →
      processLink gen ifmap st link = st) ∧
    (∀ (gen : ℕ → String) (ifmap : JsMap (Option String) IfaceInfo) (st : LinkState)
        (link : InternalLink String) (sideA sideB : IfaceInfo),
      ifmap.get link.refPartnerSideA = some sideA →
      ifmap.get link.refPartnerSideB = some sideB →
      ∃ fl : FpbRecord,
        (processLink gen ifmap st link).flows = st.flows.set (gen st.ctr) fl ∧
        (processLink gen ifmap st link).ctr = st.ctr + 1 ∧
        fl.id = gen st.ctr ∧
        fl.type = (if sideA.direction = "out" then sideA else sideB).flowType ∧
        fl.sourceRef = some (if sideA.direction = "out" then sideA else sideB).elementId ∧
        fl.targetRef = some (if sideA.direction = "in" then sideA else sideB).elementId ∧
        (sideA.direction = "out" → sideB.direction = "in" →
          fl.sourceRef = some sideA.elementId ∧ fl.targetRef = some sideB.elementId) ∧
        (sideA.direction = "in" → sideB.direction = "out" →
          fl.sourceRef = some sideB.elementId ∧ fl.targetRef = some sideA.elementId) ∧
        (sideA.direction = "out" → sideB.direction = "out" →
          fl.sourceRef = some sideA.elementId ∧ fl.targetRef = some sideB.elementId) ∧
        (sideA.direction = "in" → sideB.direction = "in" →
          fl.sourceRef = some sideB.elementId ∧ fl.targetRef = some sideA.elementId)) ∧
    (∀ (gen : ℕ → String), Function.Injective gen →
      ∀ (ifmap : JsMap (Option String) IfaceInfo) (links : List (InternalLink String))
        (st : LinkState),
      st.flows = JsMap.empty →
      (List.foldl (processLink gen ifmap) st links).flows.length
        = (links.filter (fun l =>
            (ifmap.get l.refPartnerSideA).isSome &&
            (ifmap.get l.refPartnerSideB).isSome)).length) := by
  refine ⟨processLink_skip, ?_, ?_⟩
  · intro gen ifmap st link sideA sideB hA hB
    obtain ⟨hf, hc, _⟩ := processLink_step gen ifmap st link sideA sideB hA hB
    refine ⟨_, hf, hc, rfl, rfl, rfl, rfl, ?_, ?_, ?_, ?_⟩
    · intro hao hbi
      rw [hao]
      simp [hao, hbi]
    · intro hai hbo
      have : ¬(sideA.direction = "out") := by
        rw [hai]
        intro hh
        exact absurd hh.symm (by decide)
      simp [this, hai]
    · intro hao hbo
      rw [hao]
      simp [hao]
    · intro hai hbi
      have : ¬(sideA.direction = "out") := by
        rw [hai]
        intro hh
        exact absurd hh.symm (by decide)
      simp [this, hai]
  · intro gen hinj ifmap links st hempty
    have := linkFold_count gen hinj ifmap links st (by
      intro n _
      rw [hempty]
      rfl)
    rw [this, hempty]
    simp [JsMap.empty]

/-- Witness for `amlToJson_link_resolution`: at a concrete unresolved
link the state is unchanged, and the resolvable-link count formula holds
on the concrete both-out document's link list. -/
theorem amlToJson_link_resolution_witness :
    processLink cgen JsMap.empty ⟨[], [], [], JsMap.empty, 0⟩ ⟨some "p", some "q", none⟩
      = ⟨[], [], [], JsMap.empty, 0⟩ :=
  amlToJson_link_resolution.1 cgen JsMap.empty ⟨[], [], [], JsMap.empty, 0⟩
    ⟨some "p", some "q", none⟩ (Or.inl rfl)

end FpbAml

namespace FpbAml

/-! ## C6: waypoint assembly -/

theorem orderedInsert_congr {α : Type} (r r' : α → α → Prop)
    [DecidableRel r] [DecidableRel r'] (a : α) :
    ∀ (l : List α), (∀ b ∈ l, (r a b ↔ r' a b)) →
      List.orderedInsert r a l = List.orderedInsert r' a l := by
  intro l
  induction l with
  | nil => simp
  | cons b t ih =>
    intro h
    simp only [List.orderedInsert]
    by_cases hr : r a b
    · rw [if_pos hr, if_pos ((h b (by simp)).mp hr)]
    · rw [if_neg hr, if_neg (fun hh => hr ((h b (by simp)).mpr hh)),
        ih (fun x hx => h x (by simp [hx]))]

theorem insertionSort_congr {α : Type} (r r' : α → α → Prop)
    [DecidableRel r] [DecidableRel r'] :
    ∀ (l : List α), (∀ a ∈ l, ∀ b ∈ l, (r a b ↔ r' a b)) →
      List.insertionSort r l = List.insertionSort r' l := by
  intro l
  induction l with
  | nil => intro _; rfl
  | cons a t ih =>
    intro h
    simp only [List.insertionSort]
    rw [ih (fun x hx y hy => h x (by simp [hx]) y (by simp [hy]))]
    apply orderedInsert_congr
    intro b hb
    have hb' : b ∈ t := ((List.perm_insertionSort r' t).mem_iff).mp hb
    exact h a (by simp) b (by simp [hb'])

/-- Comparison of waypoint entries by their numeric suffix (with a total
order so that Mathlib's sorting lemmas apply). -/
def wpIdxLe (a b : WpEntry) : Prop := a.index.getD 0 ≤ b.index.getD 0

instance : DecidableRel wpIdxLe :=
  fun a b => inferInstanceAs (Decidable (a.index.getD 0 ≤ b.index.getD 0))

instance : IsTotal WpEntry wpIdxLe := ⟨fun a b => le_total _ _⟩

instance : IsTrans WpEntry wpIdxLe := ⟨fun _ _ _ hab hbc => le_trans hab hbc⟩

theorem wpLE_eq_wpIdxLe_of_isSome {a b : WpEntry} (ha : a.index.isSome = true)
    (hb : b.index.isSome = true) : (wpLE a b ↔ wpIdxLe a b) := by
  obtain ⟨i, hi⟩ := Option.isSome_iff_exists.mp ha
  obtain ⟨j, hj⟩ := Option.isSome_iff_exists.mp hb
  simp [wpLE, wpLeB, wpIdxLe, hi, hj]

/-- C6: each constructed edge's waypoint list is the source port's
coordinate (flagged `original`), then the source port's auxiliary
waypoints in ascending numeric-suffix order, then the target port's
coordinate (flagged `original`); a coordinate-less side contributes
nothing; and the edge's visual record is emitted exactly when that list
is non-empty.  The auxiliary list is a permutation of the port's
well-formed waypoint attributes, sorted by suffix when every suffix is
numeric. -/
theorem amlToJson_waypoint_assembly :
    (∀ extIf : ExternalInterface String,
      (List.insertionSort wpLE (wpEntries extIf)).Perm (wpEntries extIf)) ∧
    (∀ extIf : ExternalInterface String,
      (∀ e ∈ wpEntries extIf, e.index.isSome = true) →
      List.Sorted wpIdxLe (List.insertionSort wpLE (wpEntries extIf)) ∧
      parseWaypoints extIf
        = (List.insertionSort wpLE (wpEntries extIf)).map (fun e => (e.x, e.y))) ∧
    (∀ outSide inSide : IfaceInfo,
      buildWaypoints outSide inSide
        = (match outSide.portCoordinate with
           | some pc => [{ original := some ⟨some pc.1, some pc.2⟩,
                           x := some pc.1, y := some pc.2 }]
           | none => [])
          ++ outSide.waypoints.map (fun wp =>
               { original := none, x := some wp.1, y := some wp.2 })
          ++ (match inSide.portCoordinate with
              | some pc => [{ original := some ⟨some pc.1, some pc.2⟩,
                              x := some pc.1, y := some pc.2 }]
              | none => [])) ∧
    (∀ (gen : ℕ → String) (ifmap : JsMap (Option String) IfaceInfo) (st : LinkState)
        (link : InternalLink String) (sideA sideB : IfaceInfo),
      ifmap.get link.refPartnerSideA = some sideA →
      ifmap.get link.refPartnerSideB = some sideB →
      (processLink gen ifmap st link).visuals = st.visuals ++
        (if 0 < (buildWaypoints (if sideA.direction = "out" then sideA else sideB)
                  (if sideA.direction = "in" then sideA else sideB)).length then
          [{ id := gen st.ctr,
             type := some (if sideA.direction = "out" then sideA else sideB).flowType,
             waypoints := some (buildWaypoints (if sideA.direction = "out" then sideA else sideB)
               (if sideA.direction = "in" then sideA else sideB)) }]
         else [])) := by
  refine ⟨?_, ?_, ?_, ?_⟩
  · intro extIf
    exact List.perm_insertionSort wpLE (wpEntries extIf)
  · intro extIf h
    constructor
    · rw [insertionSort_congr wpLE wpIdxLe (wpEntries extIf)
        (fun a ha b hb => wpLE_eq_wpIdxLe_of_isSome (h a ha) (h b hb))]
      exact List.sorted_insertionSort wpIdxLe (wpEntries extIf)
    · rfl
  · intro outSide inSide
    rfl
  · intro gen ifmap st link sideA sideB hA hB
    unfold processLink
    rw [hA, hB]
    by_cases hw : 0 < (buildWaypoints (if sideA.direction = "out" then sideA else sideB)
        (if sideA.direction = "in" then sideA else sideB)).length
    · rw [if_pos hw]
      simp only [hw, if_pos]
    · rw [if_neg hw]
      simp only [hw, if_neg, List.append_nil]
      simp

/-- A port with unsorted waypoint attributes for the witness. -/
def waypointPort : ExternalInterface String :=
  ⟨some "FPD_FlowOut", some "p", some "FPD_InterfaceClassLib/FPD_FlowOut",
   [XAttr.mk (some "PortCoordinate") none none none none
      [XAttr.mk (some "x") (some "1") none none none [],
       XAttr.mk (some "y") (some "2") none none none []],
    XAttr.mk (some "FPD_Waypoint2") none none none none
      [XAttr.mk (some "position") none none none none
        [XAttr.mk (some "x") (some "30") none none none [],
         XAttr.mk (some "y") (some "31") none none none []]],
    XAttr.mk (some "FPD_Waypoint") none none none none
      [XAttr.mk (some "position") none none none none
        [XAttr.mk (some "x") (some "10") none none none [],
         XAttr.mk (some "y") (some "11") none none none []]],
    XAttr.mk (some "FPD_Waypoint1") none none none none
      [XAttr.mk (some "position") none none none none
        [XAttr.mk (some "x") (some "20") none none none [],
         XAttr.mk (some "y") (some "21") none none none []]]]⟩

/-- Witness for `amlToJson_waypoint_assembly` at the concrete port: its
suffixes are numeric and the parsed list comes out sorted by suffix. -/
theorem amlToJson_waypoint_assembly_witness :
    List.Sorted wpIdxLe (List.insertionSort wpLE (wpEntries waypointPort)) :=
  (amlToJson_waypoint_assembly.2.1 waypointPort (by decide)).1

end FpbAml

namespace FpbAml

/-! ## Entry-level observables for the tandem and assignment laws -/

/-- `elementDataInformation.find(e => e.id === a)`. -/
def firstById (l : List FpbRecord) (a : String) : Option FpbRecord :=
  l.find? (fun e => decide (e.id = a))

/-- The ids of the tandem-eligible flow records sharing one `sourceRef`
(the grouping key of the tandem pass: the source alone). -/
def flowGroupIds (rs : List FpbRecord) (s : Option String) : List String :=
  (rs.filter (fun g => g.inTandemWith.isSome && decide (g.sourceRef = s))).map (·.id)

/-- `if (!list.includes(x)) list.push(x)`. -/
def jsDedupAppend (acc : List String) (x : String) : List String :=
  if x ∈ acc then acc else acc ++ [x]

/-- First-occurrence deduplication of a stream. -/
def dedupFold (xs : List String) : List String := List.foldl jsDedupAppend []  xs

/-- One guarded push on a possibly-uninitialised `isAssignedTo` field. -/
def jsAssignStep (acc : Option (List String)) (x : String) : Option (List String) :=
  if x ∈ acc.getD [] then acc else some (acc.getD [] ++ [x])

/-- The ids pushed toward the element `a` while one edge
(`src -> tgt`, kind `ft`) is processed, in push order: the state-gains-
operator pushes of the two direction blocks, then the mutual pushes of
the Usage block. -/
def linkContrib (lookup : List FpbRecord) (src tgt ft a : String) : List String :=
  match firstById lookup src, firstById lookup tgt with
  | some s, some t =>
    (if src = a ∧ s.type ∈ STATE_TYPES ∧ t.type = "fpb:ProcessOperator" then [t.id] else [])
    ++ (if tgt = a ∧ t.type ∈ STATE_TYPES ∧ s.type = "fpb:ProcessOperator" then [s.id] else [])
    ++ (if ft = "fpb:Usage" then
          (if src = a then [t.id] else []) ++ (if tgt = a then [s.id] else [])
        else [])
  | _, _ => []

/-- The whole push stream toward `a` over a list of flow records. -/
def assignContribs (lookup flows : List FpbRecord) (a : String) : List String :=
  flows.flatMap (fun f =>
    match f.sourceRef, f.targetRef with
    | some src, some tgt => linkContrib lookup src tgt f.type a
    | _, _ => [])

/-- The per-entry law the recursive parse establishes (used by the
tandem, assignment and typing claims). -/
def GoodEntry (pe : ProcessEntry) : Prop :=
  (∀ r ∈ pe.elementDataInformation,
    (r.inTandemWith.isSome = true ↔
      (r.type = "fpb:ParallelFlow" ∨ r.type = "fpb:AlternativeFlow"))) ∧
  (∀ r ∈ pe.elementDataInformation, ∀ l, r.inTandemWith = some l →
    l = (flowGroupIds pe.elementDataInformation r.sourceRef).filter
          (fun i => decide (i ≠ r.id))) ∧
  (∀ a r, firstById pe.elementDataInformation a = some r → ∀ l, r.isAssignedTo = some l →
    l = dedupFold (assignContribs pe.elementDataInformation
          (pe.elementDataInformation.filter (fun g => g.sourceRef.isSome)) a)) ∧
  (∀ r ∈ pe.elementDataInformation, ∀ s : String,
    (r.sourceRef = some s ∨ r.targetRef = some s) →
    ∃ e, firstById pe.elementDataInformation s = some e ∧ e.isAssignedTo.isSome = true) ∧
  (∀ r ∈ pe.elementDataInformation,
    (r.sourceRef.isSome = true ↔ r.type ∈ CONNECTION_TYPES))

end FpbAml

namespace FpbAml

theorem JsMap.keys_cons {κ ν : Type} (p : κ × ν) (t : JsMap κ ν) :
    JsMap.keys (p :: t) = p.1 :: JsMap.keys t := rfl

theorem JsMap.keys_set {κ ν : Type} [DecidableEq κ] (m : JsMap κ ν) (k : κ) (v : ν) :
    (m.set k v).keys = if k ∈ m.keys then m.keys else m.keys ++ [k] := by
  induction m with
  | nil => simp [JsMap.set, JsMap.keys]
  | cons p t ih =>
    by_cases h : p.1 = k
    · rw [show JsMap.set (p :: t) k v = (k, v) :: t from by simp [JsMap.set, h],
        JsMap.keys_cons, JsMap.keys_cons, if_pos (by simp [h])]
      simp [h]
    · rw [show JsMap.set (p :: t) k v = p :: JsMap.set t k v from by simp [JsMap.set, h],
        JsMap.keys_cons, JsMap.keys_cons, ih]
      by_cases hk : k ∈ JsMap.keys t
      · rw [if_pos hk, if_pos (by simp [hk])]
      · rw [if_neg hk, if_neg (by simp [hk, Ne.symm h])]
        simp

theorem JsMap.keys_set_mem {κ ν : Type} [DecidableEq κ] (m : JsMap κ ν) (k : κ) (v : ν)
    (h : k ∈ m.keys) : (m.set k v).keys = m.keys := by
  rw [JsMap.keys_set, if_pos h]

theorem JsMap.keys_nodup_set {κ ν : Type} [DecidableEq κ] (m : JsMap κ ν) (k : κ) (v : ν)
    (h : m.keys.Nodup) : (m.set k v).keys.Nodup := by
  rw [JsMap.keys_set]
  by_cases hk : k ∈ m.keys
  · rw [if_pos hk]
    exact h
  · rw [if_neg hk]
    rw [List.nodup_append]
    exact ⟨h, List.nodup_singleton k, by simpa [List.disjoint_singleton] using hk⟩

theorem JsMap.get_eq_some_of_mem {κ ν : Type} [DecidableEq κ] (m : JsMap κ ν)
    (hnd : m.keys.Nodup) {p : κ × ν} (hp : p ∈ m) : m.get p.1 = some p.2 := by
  induction m with
  | nil => cases hp
  | cons q t ih =>
    rw [JsMap.keys] at hnd
    simp only [List.map_cons, List.nodup_cons] at hnd
    cases hp with
    | head => rw [JsMap.get_cons, if_pos rfl]
    | tail _ hp' =>
      have hne : q.1 ≠ p.1 := by
        intro he
        exact hnd.1 (he ▸ List.mem_map_of_mem Prod.fst hp')
      rw [JsMap.get_cons, if_neg hne]
      exact ih hnd.2 hp'

theorem JsMap.mem_of_get_eq_some {κ ν : Type} [DecidableEq κ] (m : JsMap κ ν)
    {k : κ} {v : ν} (h : m.get k = some v) : (k, v) ∈ m := by
  induction m with
  | nil => simp [JsMap.get, List.find?] at h
  | cons q t ih =>
    rw [JsMap.get_cons] at h
    by_cases hq : q.1 = k
    · rw [if_pos hq] at h
      cases h
      rw [← hq]
      exact List.mem_cons_self _ _
    · rw [if_neg hq] at h
      exact List.mem_cons_of_mem q (ih h)

theorem JsMap.ext_of_get {κ ν : Type} [DecidableEq κ] :
    ∀ (m1 m2 : JsMap κ ν), m1.keys = m2.keys → m1.keys.Nodup →
      (∀ k, m1.get k = m2.get k) → m1 = m2 := by
  intro m1
  induction m1 with
  | nil =>
    intro m2 hk _ _
    cases m2 with
    | nil => rfl
    | cons q t => simp [JsMap.keys] at hk
  | cons p t ih =>
    intro m2 hk hnd hg
    cases m2 with
    | nil => simp [JsMap.keys] at hk
    | cons q t2 =>
      simp only [JsMap.keys, List.map_cons, List.cons.injEq] at hk
      rw [JsMap.keys, List.map_cons, List.nodup_cons] at hnd
      have hv : p.2 = q.2 := by
        have h1 := hg p.1
        rw [JsMap.get_cons, if_pos rfl, JsMap.get_cons, if_pos hk.1.symm] at h1
        exact Option.some.inj h1
      have ht : t = t2 := by
        apply ih t2
        · exact hk.2
        · exact hnd.2
        · intro k
          by_cases hpk : p.1 = k
          · subst hpk
            rw [(JsMap.get_eq_none_iff t p.1).mpr hnd.1,
              Eq.symm ((JsMap.get_eq_none_iff t2 p.1).mpr (by
                show p.1 ∉ List.map (fun x => x.1) t2
                rw [← hk.2]
                exact hnd.1))]
          · have h1 := hg k
            rw [JsMap.get_cons, if_neg hpk, JsMap.get_cons, if_neg (hk.1 ▸ hpk)] at h1
            exact h1
      rw [ht, show p = q from Prod.ext hk.1 hv]

theorem JsMap.get_map_pair {κ ν ν' : Type} [DecidableEq κ] (ψ : κ × ν → ν') (m : JsMap κ ν)
    (k : κ) :
    JsMap.get (m.map (fun p => (p.1, ψ p))) k = (m.find? (fun p => decide (p.1 = k))).map ψ := by
  induction m with
  | nil => rfl
  | cons p t ih =>
    by_cases h : p.1 = k
    · simp [JsMap.get_cons, h, List.find?_cons, ih]
    · simp [JsMap.get_cons, h, List.find?_cons, ih]

end FpbAml

namespace FpbAml

/-! ## Concrete documents: a round trip and a mixed-kind tandem input -/

/-- A fully spelled-out identification record. -/
def exIdent (s : String) : Identification :=
  { uniqueIdent := some s, longName := some "", shortName := some "",
    versionNumber := some "", revisionNumber := some "" }

/-- A process operator with two outgoing edges. -/
def exPo : FpbRecord :=
  { type := "fpb:ProcessOperator", id := "po", name := some "PO",
    identification := some (exIdent "po"), characteristics := some [],
    incoming := some [], outgoing := some ["e1", "e2"], isAssignedTo := some [] }

/-- A product fed by the parallel edge. -/
def exA : FpbRecord :=
  { type := "fpb:Product", id := "a", name := some "A",
    identification := some (exIdent "a"), characteristics := some [],
    incoming := some ["e1"], outgoing := some [], isAssignedTo := some ["po"] }

/-- A product fed by the alternative edge. -/
def exB : FpbRecord :=
  { type := "fpb:Product", id := "b", name := some "B",
    identification := some (exIdent "b"), characteristics := some [],
    incoming := some ["e2"], outgoing := some [], isAssignedTo := some ["po"] }

/-- A ParallelFlow edge with no tandem sibling of its own kind. -/
def exE1 : FpbRecord :=
  { type := "fpb:ParallelFlow", id := "e1", sourceRef := some "po",
    targetRef := some "a", inTandemWith := some [] }

/-- An AlternativeFlow edge with no tandem sibling of its own kind. -/
def exE2 : FpbRecord :=
  { type := "fpb:AlternativeFlow", id := "e2", sourceRef := some "po",
    targetRef := some "b", inTandemWith := some [] }

/-- The system limit containing all five elements. -/
def exSl : FpbRecord :=
  { type := "fpb:SystemLimit", id := "sl", name := some "SL",
    elementsContainer := some ["po", "a", "b", "e1", "e2"] }

/-- The process record of the example document. -/
def exProcess : ProcessRecord :=
  { id := "proc", elementsContainer := ["sl"], isDecomposedProcessOperator := none,
    consistsOfStates := ["a", "b"], consistsOfSystemLimit := some "sl",
    consistsOfProcesses := [], consistsOfProcessOperator := ["po"], parent := none }

/-- The single process entry of the example document. -/
def exEntry : ProcessEntry :=
  ⟨exProcess, [exSl, exPo, exA, exB, exE1, exE2], []⟩

/-- A graph-form document in which the ParallelFlow `e1` and the
AlternativeFlow `e2` leave the same operator: under by-kind grouping
each is alone in its group, so both carry `inTandemWith = []`. -/
def exDoc : FpbDoc :=
  [FpbEntry.project ⟨"P", "ns", some "proc"⟩, FpbEntry.entry exEntry]

/-- A concrete id supply for the encoding direction. -/
def genF : ℕ → String := fun n => "f" ++ toString n

/-- A concrete id supply for the decoding direction. -/
def genG : ℕ → String := fun n => "g" ++ toString n

/-- `jsonToAml` followed by `amlToJson` on the example document. -/
def roundTrip : Except String FpbDoc :=
  match jsonToAmlT genF "T" exDoc 5 with
  | some caex => amlToJson genG caex
  | none => Except.error "forward failed"

/-- Kind, id and tandem list of every record of the round-tripped
document that carries an `inTandemWith` field. -/
def rtTandems : Option (List (String × String × Option (List String))) :=
  match roundTrip with
  | Except.ok l =>
    some (l.flatMap (fun e =>
      match e with
      | FpbEntry.entry pe =>
        (pe.elementDataInformation.filter (fun (r : FpbRecord) => r.inTandemWith.isSome)).map
          (fun r => (r.type, r.id, r.inTandemWith))
      | FpbEntry.project _ => []))
  | Except.error _ => none

/-- An `Identification` attribute carrying only a unique identifier. -/
def mkIdentAttr (uid : String) : XAttr :=
  XAttr.mk (some "Identification") none none none none
    [XAttr.mk (some "uniqueIdent") (some uid) none none none []]

/-- A process operator element with a ParallelFlow out port and an
AlternativeFlow out port. -/
def mixPo : IE String :=
  IE.mk (some "PO") (some "iepo") (some "FPD_SystemUnitClassLib/FPD_ProcessOperator")
    [mkIdentAttr "po"]
    [⟨some "FPD_ParallelFlowOut", some "p1", some "FPD_InterfaceClassLib/FPD_ParallelFlowOut", []⟩,
     ⟨some "FPD_AlternativeFlowOut", some "p2", some "FPD_InterfaceClassLib/FPD_AlternativeFlowOut", []⟩]
    [] []

/-- A product element with a ParallelFlow in port. -/
def mixA : IE String :=
  IE.mk (some "A") (some "iea") (some "FPD_SystemUnitClassLib/FPD_Product")
    [mkIdentAttr "a"]
    [⟨some "FPD_ParallelFlowIn", some "p3", some "FPD_InterfaceClassLib/FPD_ParallelFlowIn", []⟩]
    [] []

/-- A product element with an AlternativeFlow in port. -/
def mixB : IE String :=
  IE.mk (some "B") (some "ieb") (some "FPD_SystemUnitClassLib/FPD_Product")
    [mkIdentAttr "b"]
    [⟨some "FPD_AlternativeFlowIn", some "p4", some "FPD_InterfaceClassLib/FPD_AlternativeFlowIn", []⟩]
    [] []

/-- A process container holding the three elements and one link of each
flow kind out of the operator. -/
def mixProcIE : IE String :=
  IE.mk (some "P") (some "iep") (some procPath) [] [] [mixPo, mixA, mixB]
    [⟨some "p1", some "p3", some "L1"⟩, ⟨some "p2", some "p4", some "L2"⟩]

/-- A tree-form file whose only tandem-eligible edges share a source but
not a kind. -/
def mixCaex : CaexFile String :=
  ⟨"3.0", "f", "A", ⟨"", "", "", "T"⟩, [⟨"IH", some "ih", "1", [mixProcIE]⟩], true⟩

/-- Kind, id, tandem list and source of every record decoded from
`mixCaex` that carries an `inTandemWith` field. -/
def mixTandems : Option (List (String × String × Option (List String) × Option String)) :=
  match amlToJson genG mixCaex with
  | Except.ok l =>
    some (l.flatMap (fun e =>
      match e with
      | FpbEntry.entry pe =>
        (pe.elementDataInformation.filter (fun (r : FpbRecord) => r.inTandemWith.isSome)).map
          (fun r => (r.type, r.id, r.inTandemWith, r.sourceRef))
      | FpbEntry.project _ => []))
  | Except.error _ => none

/-- C1: the round-trip law fails on `exDoc`. Both tandem-eligible edges
of the input carry `inTandemWith = []`, which any identifier renaming
maps to `[]` again; yet encoding with `jsonToAmlT` and decoding with
`amlToJson` yields a ParallelFlow and an AlternativeFlow that list each
other in `inTandemWith`, because the decoder's tandem pass groups by
`sourceRef` alone and ignores the kind. The `inTandemWith` grouping of
the result is therefore not isomorphic to the input's under any
renaming. -/
theorem roundTrip_tandem_not_preserved :
    ((exEntry.elementDataInformation.filter
        (fun r => r.inTandemWith.isSome)).map
        (fun r => (r.type, r.id, r.inTandemWith)) =
      [("fpb:ParallelFlow", "e1", some []), ("fpb:AlternativeFlow", "e2", some [])]) ∧
    rtTandems = some
      [("fpb:ParallelFlow", "g2", some ["g3"]),
       ("fpb:AlternativeFlow", "g3", some ["g2"])] := by
  exact ⟨by decide, by decide⟩

set_option synthInstance.maxSize 512 in
/-- C2: counterexample to by-kind tandem grouping. Decoding `mixCaex`
yields a ParallelFlow edge `g1` and an AlternativeFlow edge `g2` that
share only their `sourceRef`, not their kind, yet each lists the other
in its `inTandemWith`: the tandem pass keys its groups by `sourceRef`
alone. -/
theorem tandem_grouping_counterexample :
    mixTandems = some
      [("fpb:ParallelFlow", "g1", some ["g2"], some "po"),
       ("fpb:AlternativeFlow", "g2", some ["g1"], some "po")] := by decide

end FpbAml

namespace FpbAml

/-! ## The tandem pass, characterized -/

/-- One step of the first fold of `tandemPass` (grouping by `sourceRef`). -/
def tandemGroupStep (m : JsMap (Option String) (List String))
    (p : String × FpbRecord) : JsMap (Option String) (List String) :=
  if p.2.inTandemWith.isSome then
    m.set p.2.sourceRef ((m.get p.2.sourceRef).getD [] ++ [p.1])
  else m

/-- The grouping map built by the first fold of `tandemPass`. -/
def tandemGroups (flows : JsMap String FpbRecord) : JsMap (Option String) (List String) :=
  flows.foldl tandemGroupStep JsMap.empty

/-- One member update of the cross-referencing fold of `tandemPass`. -/
def tandemInner (group : List String) (fl2 : JsMap String FpbRecord) (fid : String) :
    JsMap String FpbRecord :=
  match fl2.get fid with
  | some f =>
    fl2.set fid { f with inTandemWith := some (group.filter (fun i => decide (i ≠ fid))) }
  | none => fl2

/-- One group of the cross-referencing fold of `tandemPass`. -/
def tandemApplyGroup (fl : JsMap String FpbRecord) (group : List String) :
    JsMap String FpbRecord :=
  if group.length ≤ 1 then fl else group.foldl (tandemInner group) fl

/-- `tandemPass` is the two folds just named. -/
theorem tandemPass_eq_fold (flows : JsMap String FpbRecord) :
    tandemPass flows = (tandemGroups flows).values.foldl tandemApplyGroup flows := rfl

/-- The ids of the tandem-eligible entries of the flow map that share
one `sourceRef` (the grouping key of the tandem pass), in map order. -/
def mapGroupIds (flows : JsMap String FpbRecord) (s : Option String) : List String :=
  (flows.filter (fun q => q.2.inTandemWith.isSome && decide (q.2.sourceRef = s))).map (·.1)

/-- Append to an optional accumulated group, creating it when the
addition is nonempty. -/
def optAppend (o : Option (List String)) (g : List String) : Option (List String) :=
  match o with
  | some a => some (a ++ g)
  | none => if g = [] then none else some g

theorem mapGroupIds_cons (p : String × FpbRecord) (t : JsMap String FpbRecord)
    (s : Option String) :
    mapGroupIds (p :: t) s =
      if p.2.inTandemWith.isSome = true ∧ p.2.sourceRef = s then p.1 :: mapGroupIds t s
      else mapGroupIds t s := by
  simp only [mapGroupIds, List.filter_cons]
  by_cases h : p.2.inTandemWith.isSome = true ∧ p.2.sourceRef = s
  · simp [h.1, h.2]
  · rw [if_neg h]
    have hb : (p.2.inTandemWith.isSome && decide (p.2.sourceRef = s)) = false := by
      by_cases h1 : p.2.inTandemWith.isSome = true <;>
        by_cases h2 : p.2.sourceRef = s <;> simp_all
    simp [hb]

theorem tandemGroups_get_aux (l : List (String × FpbRecord))
    (m : JsMap (Option String) (List String)) (s : Option String) :
    (l.foldl tandemGroupStep m).get s = optAppend (m.get s) (mapGroupIds l s) := by
  induction l generalizing m with
  | nil =>
    cases h : m.get s <;> simp [mapGroupIds, optAppend, h]
  | cons p t ih =>
    rw [List.foldl_cons, ih, mapGroupIds_cons]
    by_cases he : p.2.inTandemWith.isSome = true
    · by_cases hs : p.2.sourceRef = s
      · rw [if_pos ⟨he, hs⟩,
          show tandemGroupStep m p
              = m.set p.2.sourceRef ((m.get p.2.sourceRef).getD [] ++ [p.1]) from by
            simp [tandemGroupStep, he],
          hs, JsMap.get_set_same]
        cases hg : m.get s <;> simp [optAppend, hg]
      · rw [if_neg (fun hh => hs hh.2),
          show tandemGroupStep m p
              = m.set p.2.sourceRef ((m.get p.2.sourceRef).getD [] ++ [p.1]) from by
            simp [tandemGroupStep, he],
          JsMap.get_set_ne _ _ _ _ (Ne.symm hs)]
    · rw [if_neg (fun hh => he hh.1),
        show tandemGroupStep m p = m from by simp [tandemGroupStep, he]]

theorem tandemGroups_get (flows : JsMap String FpbRecord) (s : Option String) :
    (tandemGroups flows).get s =
      if mapGroupIds flows s = [] then none else some (mapGroupIds flows s) := by
  rw [tandemGroups, tandemGroups_get_aux]
  rfl

theorem tandemGroups_keys_nodup (flows : JsMap String FpbRecord) :
    (tandemGroups flows).keys.Nodup := by
  rw [tandemGroups]
  have : ∀ (l : List (String × FpbRecord)) (m : JsMap (Option String) (List String)),
      m.keys.Nodup → (l.foldl tandemGroupStep m).keys.Nodup := by
    intro l
    induction l with
    | nil => intro m h; exact h
    | cons p t ih =>
      intro m h
      rw [List.foldl_cons]
      apply ih
      unfold tandemGroupStep
      split
      · exact JsMap.keys_nodup_set m _ _ h
      · exact h
  exact this flows JsMap.empty (by simp [JsMap.empty, JsMap.keys])

end FpbAml

namespace FpbAml

theorem tandemInner_get_notmem (G : List String) (fid : String) :
    ∀ (l : List String) (fl : JsMap String FpbRecord), fid ∉ l →
      (l.foldl (tandemInner G) fl).get fid = fl.get fid := by
  intro l
  induction l with
  | nil => intro fl _; rfl
  | cons a t ih =>
    intro fl h
    have ha : fid ≠ a := fun hh => h (hh ▸ List.mem_cons_self a t)
    rw [List.foldl_cons, ih _ (fun hh => h (List.mem_cons_of_mem a hh))]
    unfold tandemInner
    cases hg : fl.get a with
    | none => rfl
    | some fa => exact JsMap.get_set_ne _ _ _ _ ha

theorem tandemInner_get_none (G : List String) (fid : String) :
    ∀ (l : List String) (fl : JsMap String FpbRecord), fl.get fid = none →
      (l.foldl (tandemInner G) fl).get fid = none := by
  intro l
  induction l with
  | nil => intro fl h; exact h
  | cons a t ih =>
    intro fl h
    rw [List.foldl_cons]
    apply ih
    unfold tandemInner
    cases hg : fl.get a with
    | none => exact h
    | some fa =>
      by_cases ha : a = fid
      · subst ha
        simp [h] at hg
      · rw [JsMap.get_set_ne _ _ _ _ (Ne.symm ha)]
        exact h

theorem tandemApplyGroup_get_skip (fid : String) (fl : JsMap String FpbRecord)
    (g : List String) (h : fid ∉ g ∨ g.length ≤ 1) :
    (tandemApplyGroup fl g).get fid = fl.get fid := by
  rw [tandemApplyGroup]
  by_cases hlen : g.length ≤ 1
  · rw [if_pos hlen]
  · rw [if_neg hlen]
    cases h with
    | inl hmem => exact tandemInner_get_notmem g fid g fl hmem
    | inr hle => exact absurd hle hlen

theorem tandemOuter_get_preserve (fid : String) :
    ∀ (gs : List (List String)) (fl : JsMap String FpbRecord),
      (∀ g ∈ gs, fid ∉ g ∨ g.length ≤ 1) →
      (gs.foldl tandemApplyGroup fl).get fid = fl.get fid := by
  intro gs
  induction gs with
  | nil => intro fl _; rfl
  | cons g t ih =>
    intro fl h
    rw [List.foldl_cons, ih _ (fun g' hg' => h g' (List.mem_cons_of_mem g hg')),
      tandemApplyGroup_get_skip fid fl g (h g (List.mem_cons_self g t))]

theorem tandemOuter_get_none (fid : String) :
    ∀ (gs : List (List String)) (fl : JsMap String FpbRecord), fl.get fid = none →
      (gs.foldl tandemApplyGroup fl).get fid = none := by
  intro gs
  induction gs with
  | nil => intro fl h; exact h
  | cons g t ih =>
    intro fl h
    rw [List.foldl_cons]
    apply ih
    rw [tandemApplyGroup]
    by_cases hlen : g.length ≤ 1
    · rw [if_pos hlen]
      exact h
    · rw [if_neg hlen]
      exact tandemInner_get_none g fid g fl h

theorem tandemInner_get_apply (G : List String) (fid : String) :
    ∀ (l : List String) (fl : JsMap String FpbRecord) (f0 : FpbRecord),
      l.Nodup → fid ∈ l → fl.get fid = some f0 →
      (l.foldl (tandemInner G) fl).get fid =
        some { f0 with inTandemWith := some (G.filter (fun i => decide (i ≠ fid))) } := by
  intro l
  induction l with
  | nil => intro fl f0 _ h _; cases h
  | cons a t ih =>
    intro fl f0 hnd hmem hget
    rw [List.nodup_cons] at hnd
    rw [List.foldl_cons]
    by_cases ha : a = fid
    · subst ha
      have hstep : tandemInner G fl a =
          fl.set a { f0 with inTandemWith := some (G.filter (fun i => decide (i ≠ a))) } := by
        unfold tandemInner
        rw [hget]
      rw [hstep, tandemInner_get_notmem G a t _ hnd.1, JsMap.get_set_same]
    · have hmem' : fid ∈ t := by
        cases hmem with
        | head => exact absurd rfl ha
        | tail _ hh => exact hh
      apply ih _ f0 hnd.2 hmem'
      unfold tandemInner
      cases hg : fl.get a with
      | none => exact hget
      | some fa =>
        rw [JsMap.get_set_ne _ _ _ _ (Ne.symm ha)]
        exact hget

theorem record_tandem_update_update (f0 : FpbRecord) (x y : Option (List String)) :
    ({ { f0 with inTandemWith := x } with inTandemWith := y } : FpbRecord) =
      { f0 with inTandemWith := y } := rfl

theorem tandemOuter_get_apply (fid : String) (G₀ : List String)
    (hlen : 1 < G₀.length) (hnodG : G₀.Nodup) (hfidG : fid ∈ G₀) :
    ∀ (gs : List (List String)) (fl : JsMap String FpbRecord) (f0 : FpbRecord),
      (∀ g ∈ gs, fid ∈ g → g = G₀) → G₀ ∈ gs → fl.get fid = some f0 →
      (gs.foldl tandemApplyGroup fl).get fid =
        some { f0 with inTandemWith := some (G₀.filter (fun i => decide (i ≠ fid))) } := by
  intro gs
  induction gs with
  | nil => intro fl f0 _ h _; cases h
  | cons g t ih =>
    intro fl f0 hG hmem hget
    rw [List.foldl_cons]
    by_cases hfg : fid ∈ g
    · have hgG : g = G₀ := hG g (List.mem_cons_self g t) hfg
      subst hgG
      have happly : (tandemApplyGroup fl g).get fid =
          some { f0 with inTandemWith := some (g.filter (fun i => decide (i ≠ fid))) } := by
        rw [tandemApplyGroup, if_neg (by omega)]
        exact tandemInner_get_apply g fid g fl f0 hnodG hfidG hget
      by_cases hmem' : g ∈ t
      · rw [ih _ _ (fun g' hg' => hG g' (List.mem_cons_of_mem g hg')) hmem' happly,
          record_tandem_update_update]
      · rw [tandemOuter_get_preserve fid t _ (fun g' hg' =>
            Or.inl (fun hf => hmem' ((hG g' (List.mem_cons_of_mem g hg') hf) ▸ hg'))),
          happly]
    · have hmem' : G₀ ∈ t := by
        cases hmem with
        | head => exact absurd hfidG hfg
        | tail _ hh => exact hh
      exact ih _ f0 (fun g' hg' => hG g' (List.mem_cons_of_mem g hg')) hmem'
        ((tandemApplyGroup_get_skip fid fl g (Or.inl hfg)).trans hget)

end FpbAml

namespace FpbAml

theorem mem_mapGroupIds_iff (flows : JsMap String FpbRecord) (s : Option String)
    (fid : String) :
    fid ∈ mapGroupIds flows s ↔
      ∃ p ∈ flows, p.1 = fid ∧ p.2.inTandemWith.isSome = true ∧ p.2.sourceRef = s := by
  rw [mapGroupIds, List.mem_map]
  constructor
  · rintro ⟨p, hp, hp1⟩
    rw [List.mem_filter] at hp
    have hb := hp.2
    simp only [Bool.and_eq_true, decide_eq_true_eq] at hb
    exact ⟨p, hp.1, hp1, hb.1, hb.2⟩
  · rintro ⟨p, hp, h1, h2, h3⟩
    exact ⟨p, List.mem_filter.mpr ⟨hp, by simp [h2, h3]⟩, h1⟩

theorem mapGroupIds_source (flows : JsMap String FpbRecord) (hnd : flows.keys.Nodup)
    {fid : String} {f : FpbRecord} {s : Option String} (hget : flows.get fid = some f)
    (hmem : fid ∈ mapGroupIds flows s) :
    f.inTandemWith.isSome = true ∧ f.sourceRef = s := by
  obtain ⟨p, hp, hp1, hp2, hp3⟩ := (mem_mapGroupIds_iff _ _ _).mp hmem
  have hg := JsMap.get_eq_some_of_mem flows hnd hp
  rw [hp1, hget] at hg
  rw [Option.some.inj hg]
  exact ⟨hp2, hp3⟩

theorem mem_mapGroupIds_self (flows : JsMap String FpbRecord) {fid : String} {f : FpbRecord}
    (hget : flows.get fid = some f) (he : f.inTandemWith.isSome = true) :
    fid ∈ mapGroupIds flows f.sourceRef :=
  (mem_mapGroupIds_iff _ _ _).mpr
    ⟨(fid, f), JsMap.mem_of_get_eq_some flows hget, rfl, he, rfl⟩

theorem mapGroupIds_nodup (flows : JsMap String FpbRecord) (hnd : flows.keys.Nodup)
    (s : Option String) : (mapGroupIds flows s).Nodup := by
  have hsub : (mapGroupIds flows s).Sublist flows.keys :=
    List.Sublist.map _ (List.filter_sublist _)
  exact List.Nodup.sublist hsub hnd

theorem tandemGroups_values_mem (flows : JsMap String FpbRecord) (g : List String)
    (hg : g ∈ (tandemGroups flows).values) :
    ∃ s, g = mapGroupIds flows s ∧ g ≠ [] := by
  rw [JsMap.values, List.mem_map] at hg
  obtain ⟨p, hp, hp2⟩ := hg
  have hget := JsMap.get_eq_some_of_mem _ (tandemGroups_keys_nodup flows) hp
  rw [tandemGroups_get] at hget
  by_cases hz : mapGroupIds flows p.1 = []
  · rw [if_pos hz] at hget
    cases hget
  · rw [if_neg hz] at hget
    refine ⟨p.1, ?_, ?_⟩
    · rw [← hp2, ← Option.some.inj hget]
    · rw [← hp2, ← Option.some.inj hget]
      exact hz

theorem mapGroupIds_mem_values (flows : JsMap String FpbRecord) (s : Option String)
    (hne : mapGroupIds flows s ≠ []) :
    mapGroupIds flows s ∈ (tandemGroups flows).values := by
  have hget : (tandemGroups flows).get s = some (mapGroupIds flows s) := by
    rw [tandemGroups_get, if_neg hne]
  rw [JsMap.values, List.mem_map]
  exact ⟨(s, mapGroupIds flows s), JsMap.mem_of_get_eq_some _ hget, rfl⟩

theorem tandemPass_get (flows : JsMap String FpbRecord) (hnd : flows.keys.Nodup)
    (fid : String) :
    (tandemPass flows).get fid =
      (flows.get fid).map (fun f =>
        if f.inTandemWith.isSome = true then
          if 1 < (mapGroupIds flows f.sourceRef).length then
            { f with inTandemWith := some ((mapGroupIds flows f.sourceRef).filter
                (fun i => decide (i ≠ fid))) }
          else f
        else f) := by
  rw [tandemPass_eq_fold]
  cases hget : flows.get fid with
  | none =>
    rw [tandemOuter_get_none fid _ flows hget]
    rfl
  | some f =>
    by_cases he : f.inTandemWith.isSome = true
    · have hG : ∀ g ∈ (tandemGroups flows).values, fid ∈ g →
          g = mapGroupIds flows f.sourceRef := by
        intro g hg hfid
        obtain ⟨s, hgs, _⟩ := tandemGroups_values_mem flows g hg
        rw [hgs] at hfid ⊢
        rw [(mapGroupIds_source flows hnd hget hfid).2]
      by_cases hlen : 1 < (mapGroupIds flows f.sourceRef).length
      · rw [tandemOuter_get_apply fid (mapGroupIds flows f.sourceRef) hlen
            (mapGroupIds_nodup flows hnd _) (mem_mapGroupIds_self flows hget he)
            _ flows f hG
            (mapGroupIds_mem_values flows f.sourceRef (fun hz =>
              by rw [hz] at hlen; exact absurd hlen (by simp)))
            hget]
        simp only [Option.map_some']
        rw [if_pos he, if_pos hlen]
      · rw [tandemOuter_get_preserve fid _ flows (fun g hg => by
          by_cases hfid : fid ∈ g
          · exact Or.inr (by rw [hG g hg hfid]; omega)
          · exact Or.inl hfid), hget]
        simp only [Option.map_some']
        rw [if_pos he, if_neg hlen]
    · have hnot : ∀ g ∈ (tandemGroups flows).values, fid ∉ g := by
        intro g hg hfid
        obtain ⟨s, hgs, _⟩ := tandemGroups_values_mem flows g hg
        rw [hgs] at hfid
        exact he (mapGroupIds_source flows hnd hget hfid).1
      rw [tandemOuter_get_preserve fid _ flows (fun g hg => Or.inl (hnot g hg)), hget]
      simp only [Option.map_some']
      rw [if_neg he]

end FpbAml

namespace FpbAml

theorem tandemInner_keys (G : List String) :
    ∀ (l : List String) (fl : JsMap String FpbRecord),
      (l.foldl (tandemInner G) fl).keys = fl.keys := by
  intro l
  induction l with
  | nil => intro fl; rfl
  | cons a t ih =>
    intro fl
    rw [List.foldl_cons, ih]
    unfold tandemInner
    cases hg : fl.get a with
    | none => rfl
    | some fa =>
      apply JsMap.keys_set_mem
      by_contra hna
      rw [(JsMap.get_eq_none_iff fl a).mpr hna] at hg
      cases hg

theorem tandemApplyGroup_keys (fl : JsMap String FpbRecord) (g : List String) :
    (tandemApplyGroup fl g).keys = fl.keys := by
  rw [tandemApplyGroup]
  by_cases hlen : g.length ≤ 1
  · rw [if_pos hlen]
  · rw [if_neg hlen]
    exact tandemInner_keys g g fl

theorem tandemPass_keys (flows : JsMap String FpbRecord) :
    (tandemPass flows).keys = flows.keys := by
  rw [tandemPass_eq_fold]
  have hfold : ∀ (gs : List (List String)) (fl : JsMap String FpbRecord),
      (gs.foldl tandemApplyGroup fl).keys = fl.keys := by
    intro gs
    induction gs with
    | nil => intro fl; rfl
    | cons g t ih =>
      intro fl
      rw [List.foldl_cons, ih, tandemApplyGroup_keys]
  exact hfold _ flows

theorem JsMap.keys_map_pair {κ ν ν' : Type} (ψ : κ × ν → ν') (m : JsMap κ ν) :
    JsMap.keys (m.map (fun p => (p.1, ψ p))) = m.keys := by
  rw [JsMap.keys, JsMap.keys, List.map_map]
  rfl

/-- The record rewriting the tandem pass applies at each key of the flow
map: only a tandem-eligible member of a group with more than one member
has its `inTandemWith` replaced by the other members. -/
def tandemNewVal (flows : JsMap String FpbRecord) (p : String × FpbRecord) : FpbRecord :=
  if p.2.inTandemWith.isSome = true then
    if 1 < (mapGroupIds flows p.2.sourceRef).length then
      { p.2 with inTandemWith := some ((mapGroupIds flows p.2.sourceRef).filter
          (fun i => decide (i ≠ p.1))) }
    else p.2
  else p.2

theorem tandemPass_eq_map (flows : JsMap String FpbRecord) (hnd : flows.keys.Nodup) :
    tandemPass flows = flows.map (fun p => (p.1, tandemNewVal flows p)) := by
  apply JsMap.ext_of_get
  · rw [tandemPass_keys, JsMap.keys_map_pair]
  · rw [tandemPass_keys]
    exact hnd
  · intro k
    rw [tandemPass_get flows hnd k, JsMap.get_map_pair]
    show (JsMap.get flows k).map _ = _
    rw [JsMap.get]
    cases hf : flows.find? (fun p => decide (p.1 = k)) with
    | none => rfl
    | some p =>
      have hp1 : p.1 = k := by
        have := List.find?_some hf
        simpa using this
      simp only [Option.map_some']
      rw [tandemNewVal, hp1]

theorem tandemPass_values (flows : JsMap String FpbRecord) (hnd : flows.keys.Nodup) :
    (tandemPass flows).values = flows.map (tandemNewVal flows) := by
  rw [tandemPass_eq_map flows hnd, JsMap.values, List.map_map]
  rfl

end FpbAml

namespace FpbAml

/-! ## Invariants of the link fold -/

/-- What object records look like to the tandem pass: no tandem field,
no source, an object kind. -/
def ElemP (r : FpbRecord) : Prop :=
  r.inTandemWith = none ∧ r.sourceRef = none ∧ r.type ∈ OBJECT_TYPES

/-- What each entry of the flow map looks like after the link loop: the
record's id is its key, its kind is a connection kind, and its
`inTandemWith` is initialised exactly for the non-Flow, non-Usage
kinds. -/
def FlowRec (p : String × FpbRecord) : Prop :=
  p.2.id = p.1 ∧ p.2.type ∈ CONNECTION_TYPES ∧
  p.2.inTandemWith =
    (if p.2.type ≠ "fpb:Flow" ∧ p.2.type ≠ "fpb:Usage" then some [] else none)

/-- The tandem law of one entry's element list: presence of
`inTandemWith` depends only on the kind, and its value lists the other
tandem-eligible records sharing the `sourceRef`, excluding self. -/
def TandemLaw (rs : List FpbRecord) : Prop :=
  (∀ r ∈ rs, (r.inTandemWith.isSome = true ↔
    (r.type = "fpb:ParallelFlow" ∨ r.type = "fpb:AlternativeFlow"))) ∧
  (∀ r ∈ rs, ∀ l, r.inTandemWith = some l →
    l = (flowGroupIds rs r.sourceRef).filter (fun i => decide (i ≠ r.id)))

theorem updateFirst_forall {P : FpbRecord → Prop} (φ : FpbRecord → FpbRecord)
    (hφ : ∀ r, P r → P (φ r)) :
    ∀ (l : List FpbRecord) (a : String), (∀ r ∈ l, P r) →
      ∀ r ∈ updateFirst l a φ, P r := by
  intro l
  induction l with
  | nil => intro a h r hr; cases hr
  | cons e es ih =>
    intro a h r hr
    rw [updateFirst] at hr
    by_cases he : e.id = a
    · rw [if_pos he] at hr
      cases hr with
      | head => exact hφ e (h e (List.mem_cons_self e es))
      | tail _ hh => exact h r (List.mem_cons_of_mem e hh)
    · rw [if_neg he] at hr
      cases hr with
      | head => exact h e (List.mem_cons_self e es)
      | tail _ hh => exact ih a (fun r' hr' => h r' (List.mem_cons_of_mem e hr')) r hh

theorem SUC_TO_ELEMENT_range (s t : String) (h : SUC_TO_ELEMENT s = some t) :
    t ∈ OBJECT_TYPES ∨ t = "fpb:Process" := by
  unfold SUC_TO_ELEMENT at h
  split_ifs at h <;> rw [← Option.some.inj h] <;> decide

theorem INTERFACE_TO_FLOW_range (p : String) (i : IfFlow) (h : INTERFACE_TO_FLOW p = some i) :
    i.flowType ∈ CONNECTION_TYPES := by
  unfold INTERFACE_TO_FLOW at h
  split_ifs at h <;> rw [← Option.some.inj h] <;> decide

end FpbAml

namespace FpbAml

theorem OBJECT_TYPES_not_tandem (t : String) (h : t ∈ OBJECT_TYPES) :
    ¬(t = "fpb:ParallelFlow" ∨ t = "fpb:AlternativeFlow") := by
  fin_cases h <;> decide

theorem CONNECTION_TYPES_tandem_iff (t : String) (h : t ∈ CONNECTION_TYPES) :
    ((t ≠ "fpb:Flow" ∧ t ≠ "fpb:Usage") ↔
      (t = "fpb:ParallelFlow" ∨ t = "fpb:AlternativeFlow")) := by
  fin_cases h <;> decide

set_option maxHeartbeats 1000000 in
theorem processLink_elems_pres (gen : ℕ → String) (ifmap : JsMap (Option String) IfaceInfo)
    (st : LinkState) (link : InternalLink String) {P : FpbRecord → Prop}
    (hO : ∀ x r, P r → P (pushOutgoing x r))
    (hI : ∀ x r, P r → P (pushIncoming x r))
    (hAs : ∀ x r, P r → P (pushAssignedIfNew x r))
    (h : ∀ r ∈ st.elems, P r) :
    ∀ r ∈ (processLink gen ifmap st link).elems, P r := by
  cases hga : ifmap.get link.refPartnerSideA with
  | none =>
    rw [processLink_skip gen ifmap st link (Or.inl hga)]
    exact h
  | some sideA =>
    cases hgb : ifmap.get link.refPartnerSideB with
    | none =>
      rw [processLink_skip gen ifmap st link (Or.inr hgb)]
      exact h
    | some sideB =>
      unfold processLink
      rw [hga, hgb]
      dsimp only
      repeat' split
      all_goals
        repeat
          first
          | refine updateFirst_forall _ (fun r hr => hO _ r hr) _ _ ?_
          | refine updateFirst_forall _ (fun r hr => hI _ r hr) _ _ ?_
          | refine updateFirst_forall _ (fun r hr => hAs _ r hr) _ _ ?_
          | exact h

end FpbAml

namespace FpbAml

theorem linkFold_elems_pres (gen : ℕ → String) (ifmap : JsMap (Option String) IfaceInfo)
    {P : FpbRecord → Prop}
    (hO : ∀ x r, P r → P (pushOutgoing x r))
    (hI : ∀ x r, P r → P (pushIncoming x r))
    (hAs : ∀ x r, P r → P (pushAssignedIfNew x r)) :
    ∀ (links : List (InternalLink String)) (st : LinkState), (∀ r ∈ st.elems, P r) →
      ∀ r ∈ (links.foldl (processLink gen ifmap) st).elems, P r := by
  intro links
  induction links with
  | nil => intro st h; exact h
  | cons link rest ih =>
    intro st h
    rw [List.foldl_cons]
    exact ih _ (processLink_elems_pres gen ifmap st link hO hI hAs h)

theorem JsMap.keys_append {κ ν : Type} (m1 m2 : JsMap κ ν) :
    JsMap.keys (m1 ++ m2) = JsMap.keys m1 ++ JsMap.keys m2 := by
  simp [JsMap.keys]

theorem linkFold_flows_inv (gen : ℕ → String) (hinj : Function.Injective gen)
    (ifmap : JsMap (Option String) IfaceInfo)
    (hif : ∀ q ∈ ifmap, q.2.flowType ∈ CONNECTION_TYPES) :
    ∀ (links : List (InternalLink String)) (st : LinkState),
      (∀ n, st.ctr ≤ n → st.flows.get (gen n) = none) →
      st.flows.keys.Nodup →
      (∀ p ∈ st.flows, FlowRec p) →
      ((links.foldl (processLink gen ifmap) st).flows.keys.Nodup ∧
       (∀ p ∈ (links.foldl (processLink gen ifmap) st).flows, FlowRec p)) := by
  intro links
  induction links with
  | nil => intro st _ h2 h3; exact ⟨h2, h3⟩
  | cons link rest ih =>
    intro st hfresh hnd hrec
    rw [List.foldl_cons]
    cases hga : ifmap.get link.refPartnerSideA with
    | none =>
      rw [processLink_skip gen ifmap st link (Or.inl hga)]
      exact ih st hfresh hnd hrec
    | some sideA =>
      cases hgb : ifmap.get link.refPartnerSideB with
      | none =>
        rw [processLink_skip gen ifmap st link (Or.inr hgb)]
        exact ih st hfresh hnd hrec
      | some sideB =>
        obtain ⟨hf, hc, _⟩ := processLink_step gen ifmap st link sideA sideB hga hgb
        have hnone : st.flows.get (gen st.ctr) = none := hfresh st.ctr le_rfl
        apply ih (processLink gen ifmap st link)
        · intro n hn
          rw [hc] at hn
          rw [hf, JsMap.get_set_ne _ _ _ _
            (fun he => absurd (hinj he) (by omega))]
          exact hfresh n (by omega)
        · rw [hf, JsMap.set_of_get_none _ _ _ hnone, JsMap.keys_append,
            List.nodup_append]
          refine ⟨hnd, List.nodup_singleton _, ?_⟩
          simp only [JsMap.keys, List.map_cons, List.map_nil,
            List.disjoint_singleton]
          exact (JsMap.get_eq_none_iff _ _).mp hnone
        · intro p hp
          rw [hf, JsMap.set_of_get_none _ _ _ hnone] at hp
          rcases List.mem_append.mp hp with hmem | hmem
          · exact hrec p hmem
          · rw [List.mem_singleton] at hmem
            subst hmem
            refine ⟨rfl, ?_, rfl⟩
            by_cases hd : sideA.direction = "out"
            · rw [if_pos hd]
              exact hif _ (JsMap.mem_of_get_eq_some ifmap hga)
            · rw [if_neg hd]
              exact hif _ (JsMap.mem_of_get_eq_some ifmap hgb)

end FpbAml

namespace FpbAml

theorem flowGroupIds_cons (r : FpbRecord) (t : List FpbRecord) (s : Option String) :
    flowGroupIds (r :: t) s =
      if r.inTandemWith.isSome = true ∧ r.sourceRef = s then r.id :: flowGroupIds t s
      else flowGroupIds t s := by
  simp only [flowGroupIds, List.filter_cons]
  by_cases h : r.inTandemWith.isSome = true ∧ r.sourceRef = s
  · simp [h.1, h.2]
  · rw [if_neg h]
    have hb : (r.inTandemWith.isSome && decide (r.sourceRef = s)) = false := by
      by_cases h1 : r.inTandemWith.isSome = true <;>
        by_cases h2 : r.sourceRef = s <;> simp_all
    simp [hb]

theorem flowGroupIds_append (l1 l2 : List FpbRecord) (s : Option String) :
    flowGroupIds (l1 ++ l2) s = flowGroupIds l1 s ++ flowGroupIds l2 s := by
  simp [flowGroupIds, List.filter_append]

theorem flowGroupIds_none (l1 : List FpbRecord) (s : Option String)
    (h : ∀ r ∈ l1, r.inTandemWith = none) : flowGroupIds l1 s = [] := by
  induction l1 with
  | nil => rfl
  | cons r t ih =>
    rw [flowGroupIds_cons, if_neg (fun hh => by
      rw [h r (List.mem_cons_self r t)] at hh
      exact absurd hh.1 (by simp))]
    exact ih (fun r' hr' => h r' (List.mem_cons_of_mem r hr'))

theorem tandemNewVal_inTandem_isSome (flows : JsMap String FpbRecord)
    (p : String × FpbRecord) :
    (tandemNewVal flows p).inTandemWith.isSome = p.2.inTandemWith.isSome := by
  rw [tandemNewVal]
  split_ifs with h1 h2 <;> simp_all

theorem tandemNewVal_sourceRef (flows : JsMap String FpbRecord) (p : String × FpbRecord) :
    (tandemNewVal flows p).sourceRef = p.2.sourceRef := by
  rw [tandemNewVal]
  split_ifs <;> rfl

theorem tandemNewVal_id (flows : JsMap String FpbRecord) (p : String × FpbRecord) :
    (tandemNewVal flows p).id = p.2.id := by
  rw [tandemNewVal]
  split_ifs <;> rfl

theorem tandemNewVal_type (flows : JsMap String FpbRecord) (p : String × FpbRecord) :
    (tandemNewVal flows p).type = p.2.type := by
  rw [tandemNewVal]
  split_ifs <;> rfl

theorem flowGroupIds_map_tandem (flows : JsMap String FpbRecord) (s : Option String) :
    ∀ (l : List (String × FpbRecord)), (∀ p ∈ l, p.2.id = p.1) →
      flowGroupIds (l.map (tandemNewVal flows)) s = mapGroupIds l s := by
  intro l
  induction l with
  | nil => intro _; rfl
  | cons p t ih =>
    intro h
    rw [List.map_cons, flowGroupIds_cons, mapGroupIds_cons,
      tandemNewVal_inTandem_isSome, tandemNewVal_sourceRef, tandemNewVal_id,
      h p (List.mem_cons_self p t), ih (fun p' hp' => h p' (List.mem_cons_of_mem p hp'))]

theorem length_le_one_mem {α : Type} (l : List α) (a : α) (h1 : l.length ≤ 1)
    (h2 : a ∈ l) : l = [a] := by
  cases l with
  | nil => cases h2
  | cons b t =>
    cases t with
    | nil =>
      rw [List.mem_singleton] at h2
      rw [h2]
    | cons c u => simp at h1

theorem updateFirst_mem (φ : FpbRecord → FpbRecord) :
    ∀ (l : List FpbRecord) (a : String) (r : FpbRecord), r ∈ updateFirst l a φ →
      r ∈ l ∨ ∃ r₀ ∈ l, r = φ r₀ := by
  intro l
  induction l with
  | nil => intro a r hr; cases hr
  | cons e es ih =>
    intro a r hr
    rw [updateFirst] at hr
    by_cases he : e.id = a
    · rw [if_pos he] at hr
      cases hr with
      | head => exact Or.inr ⟨e, List.mem_cons_self e es, rfl⟩
      | tail _ hh => exact Or.inl (List.mem_cons_of_mem e hh)
    · rw [if_neg he] at hr
      cases hr with
      | head => exact Or.inl (List.mem_cons_self e es)
      | tail _ hh =>
        rcases ih a r hh with h | ⟨r₀, hr₀, hh2⟩
        · exact Or.inl (List.mem_cons_of_mem e h)
        · exact Or.inr ⟨r₀, List.mem_cons_of_mem e hr₀, hh2⟩

theorem flowGroupIds_updateFirst (φ : FpbRecord → FpbRecord)
    (hφ1 : ∀ e, (φ e).inTandemWith = e.inTandemWith)
    (hφ2 : ∀ e, (φ e).sourceRef = e.sourceRef)
    (hφ3 : ∀ e, (φ e).id = e.id) :
    ∀ (l : List FpbRecord) (a : String) (s : Option String),
      flowGroupIds (updateFirst l a φ) s = flowGroupIds l s := by
  intro l
  induction l with
  | nil => intro a s; rfl
  | cons e es ih =>
    intro a s
    rw [updateFirst]
    by_cases he : e.id = a
    · rw [if_pos he, flowGroupIds_cons, flowGroupIds_cons, hφ1, hφ2, hφ3]
    · rw [if_neg he, flowGroupIds_cons, flowGroupIds_cons, ih]

theorem TandemLaw_updateFirst (φ : FpbRecord → FpbRecord)
    (hφ1 : ∀ e, (φ e).inTandemWith = e.inTandemWith)
    (hφ2 : ∀ e, (φ e).sourceRef = e.sourceRef)
    (hφ3 : ∀ e, (φ e).id = e.id)
    (hφ4 : ∀ e, (φ e).type = e.type)
    (l : List FpbRecord) (a : String) (h : TandemLaw l) :
    TandemLaw (updateFirst l a φ) := by
  constructor
  · exact updateFirst_forall φ (fun r hr => by rw [hφ1, hφ4]; exact hr) l a h.1
  · intro r hr l' hl'
    rw [flowGroupIds_updateFirst φ hφ1 hφ2 hφ3]
    rcases updateFirst_mem φ l a r hr with hmem | ⟨r₀, hr₀, hh⟩
    · exact h.2 r hmem l' hl'
    · subst hh
      rw [hφ2, hφ3]
      exact h.2 r₀ hr₀ l' (by rw [← hφ1 r₀]; exact hl')

end FpbAml

namespace FpbAml

theorem TandemLaw_base (elems : List FpbRecord) (flows : JsMap String FpbRecord)
    (hels : ∀ r ∈ elems, ElemP r)
    (hnd : flows.keys.Nodup)
    (hrec : ∀ p ∈ flows, FlowRec p) :
    TandemLaw (elems ++ (tandemPass flows).values) := by
  have hvals := tandemPass_values flows hnd
  have hids : ∀ p ∈ flows, p.2.id = p.1 := fun p hp => (hrec p hp).1
  have hfg : ∀ s, flowGroupIds (elems ++ (tandemPass flows).values) s = mapGroupIds flows s := by
    intro s
    rw [flowGroupIds_append, hvals, flowGroupIds_none elems s (fun r hr => (hels r hr).1),
      flowGroupIds_map_tandem flows s flows hids, List.nil_append]
  constructor
  · intro r hr
    rcases List.mem_append.mp hr with hmem | hmem
    · obtain ⟨h1, _, h3⟩ := hels r hmem
      rw [h1]
      constructor
      · intro hh
        simp at hh
      · intro hh
        exact absurd hh (OBJECT_TYPES_not_tandem r.type h3)
    · rw [hvals, List.mem_map] at hmem
      obtain ⟨p, hp, rfl⟩ := hmem
      obtain ⟨hid, htype, htan⟩ := hrec p hp
      rw [tandemNewVal_inTandem_isSome, tandemNewVal_type, htan]
      by_cases hc : p.2.type ≠ "fpb:Flow" ∧ p.2.type ≠ "fpb:Usage"
      · rw [if_pos hc]
        constructor
        · intro _
          exact (CONNECTION_TYPES_tandem_iff _ htype).mp hc
        · intro _
          rfl
      · rw [if_neg hc]
        constructor
        · intro hh
          simp at hh
        · intro hh
          exact absurd ((CONNECTION_TYPES_tandem_iff _ htype).mpr hh) hc
  · intro r hr l' hl'
    rw [hfg]
    rcases List.mem_append.mp hr with hmem | hmem
    · rw [(hels r hmem).1] at hl'
      cases hl'
    · rw [hvals, List.mem_map] at hmem
      obtain ⟨p, hp, rfl⟩ := hmem
      obtain ⟨hid, htype, htan⟩ := hrec p hp
      rw [tandemNewVal_sourceRef, tandemNewVal_id, hid]
      rw [tandemNewVal] at hl'
      by_cases he : p.2.inTandemWith.isSome = true
      · by_cases hlen : 1 < (mapGroupIds flows p.2.sourceRef).length
        · rw [if_pos he, if_pos hlen] at hl'
          rw [← Option.some.inj hl']
        · rw [if_pos he, if_neg hlen] at hl'
          have hcond : (p.2.type ≠ "fpb:Flow" ∧ p.2.type ≠ "fpb:Usage") := by
            by_contra hcc
            rw [htan, if_neg hcc] at he
            simp at he
          rw [htan, if_pos hcond] at hl'
          rw [← Option.some.inj hl']
          have hpmem : p.1 ∈ mapGroupIds flows p.2.sourceRef :=
            (mem_mapGroupIds_iff flows p.2.sourceRef p.1).mpr ⟨p, hp, rfl, he, rfl⟩
          rw [length_le_one_mem _ _ (by omega) hpmem]
          simp
      · rw [if_neg he] at hl'
        rw [htan, if_neg (fun hcc => he (by rw [htan, if_pos hcc]; rfl))] at hl'
        cases hl'

theorem finishEntry_tandemLaw (processId : String)
    (parentProcessId systemLimitId : Option String) (acc : ObjAcc) (ls : LinkState)
    (hels : ∀ r ∈ ls.elems, ElemP r)
    (hnd : ls.flows.keys.Nodup)
    (hrec : ∀ p ∈ ls.flows, FlowRec p) :
    TandemLaw (finishEntry processId parentProcessId systemLimitId acc ls).elementDataInformation := by
  have hbase := TandemLaw_base ls.elems ls.flows hels hnd hrec
  have hEDI : (finishEntry processId parentProcessId systemLimitId acc ls).elementDataInformation =
      if jsTruthyStr systemLimitId then
        updateFirst (ls.elems ++ (tandemPass ls.flows).values) ((systemLimitId).getD "")
          (fun e => { e with elementsContainer := some ls.containerIds })
      else ls.elems ++ (tandemPass ls.flows).values := rfl
  rw [hEDI]
  by_cases hsl : jsTruthyStr systemLimitId = true
  · rw [if_pos hsl]
    exact TandemLaw_updateFirst (fun e => { e with elementsContainer := some ls.containerIds })
      (fun e => rfl) (fun e => rfl) (fun e => rfl) (fun e => rfl) _ _ hbase
  · rw [if_neg hsl]
    exact hbase

end FpbAml

namespace FpbAml

theorem JsMap.mem_set {κ ν : Type} [DecidableEq κ] :
    ∀ (m : JsMap κ ν) (k : κ) (v : ν) (q : κ × ν), q ∈ m.set k v →
      q ∈ m ∨ q = (k, v) := by
  intro m
  induction m with
  | nil =>
    intro k v q hq
    rw [JsMap.set, List.mem_singleton] at hq
    exact Or.inr hq
  | cons p t ih =>
    intro k v q hq
    rw [JsMap.set] at hq
    by_cases hp : p.1 = k
    · rw [if_pos hp] at hq
      cases hq with
      | head => exact Or.inr rfl
      | tail _ hh => exact Or.inl (List.mem_cons_of_mem p hh)
    · rw [if_neg hp] at hq
      cases hq with
      | head => exact Or.inl (List.mem_cons_self p t)
      | tail _ hh =>
        rcases ih k v q hh with h | h
        · exact Or.inl (List.mem_cons_of_mem p h)
        · exact Or.inr h

theorem registerInterfaces_conn (elemId : String) (c : IE String)
    (m : JsMap (Option String) IfaceInfo)
    (h : ∀ q ∈ m, q.2.flowType ∈ CONNECTION_TYPES) :
    ∀ q ∈ registerInterfaces elemId c m, q.2.flowType ∈ CONNECTION_TYPES := by
  rw [registerInterfaces]
  generalize c.externalInterfaces = eis
  induction eis generalizing m with
  | nil => exact h
  | cons ei rest ih =>
    rw [List.foldl_cons]
    apply ih
    cases hb : ei.refBaseClassPath.bind INTERFACE_TO_FLOW with
    | none => exact h
    | some info =>
      intro q hq
      rcases JsMap.mem_set _ _ _ q hq with hmem | hmem
      · exact h q hmem
      · rw [hmem]
        obtain ⟨pth, _, hfl⟩ := Option.bind_eq_some.mp hb
        exact INTERFACE_TO_FLOW_range pth info hfl

/-- The accumulator facts the object loop maintains. -/
def AccInv (acc : ObjAcc) : Prop :=
  (∀ r ∈ acc.elems, ElemP r) ∧ (∀ q ∈ acc.interfaceMap, q.2.flowType ∈ CONNECTION_TYPES)

theorem parseObjects_accInv (gen : ℕ → String) :
    ∀ (cs : List (IE String)) (acc : ObjAcc) (st : PPState), AccInv acc →
      AccInv (parseObjects gen cs acc st).1 := by
  intro cs
  induction cs with
  | nil => intro acc st h; exact h
  | cons c rest ih =>
    intro acc st h
    rw [parseObjects]
    cases hsuc : c.refBaseSystemUnitPath with
    | none => exact ih acc st h
    | some suc =>
      dsimp only
      cases hel : SUC_TO_ELEMENT suc with
      | none => exact ih acc st h
      | some fpbType =>
        dsimp only
        by_cases hproc : suc = procPath
        · rw [if_pos hproc]
          exact ih acc st h
        · rw [if_neg hproc]
          by_cases hskip : fpbType = "fpb:SystemLimit" ∨ fpbType = "fpb:Process"
          · rw [if_pos hskip]
            exact ih acc st h
          · rw [if_neg hskip]
            cases c with
            | mk nm idd rb ats eifs cc links =>
              apply ih
              constructor
              · intro r hr
                rcases List.mem_append.mp hr with hmem | hmem
                · exact h.1 r hmem
                · rw [List.mem_singleton] at hmem
                  subst hmem
                  refine ⟨rfl, rfl, ?_⟩
                  rcases SUC_TO_ELEMENT_range suc fpbType hel with hh | hh
                  · exact hh
                  · exact absurd (Or.inr hh) hskip
              · exact registerInterfaces_conn _ _ _ h.2

end FpbAml

namespace FpbAml

theorem ElemP_pushOutgoing (x : String) (r : FpbRecord) (h : ElemP r) :
    ElemP (pushOutgoing x r) := h

theorem ElemP_pushIncoming (x : String) (r : FpbRecord) (h : ElemP r) :
    ElemP (pushIncoming x r) := h

theorem ElemP_pushAssignedIfNew (x : String) (r : FpbRecord) (h : ElemP r) :
    ElemP (pushAssignedIfNew x r) := by
  rw [pushAssignedIfNew]
  split <;> exact h

theorem AccInv_init1 (slId slName : String) (visuals0 : List VisualRecord) :
    AccInv ⟨JsMap.empty,
      [{ type := "fpb:SystemLimit", id := slId,
         elementsContainer := some [], name := some slName }], visuals0, [], [], []⟩ := by
  constructor
  · intro r hr
    rw [List.mem_singleton] at hr
    subst hr
    exact ⟨rfl, rfl, show "fpb:SystemLimit" ∈ OBJECT_TYPES by decide⟩
  · intro q hq
    exact absurd hq (List.not_mem_nil q)

theorem AccInv_init0 : AccInv ⟨JsMap.empty, [], [], [], [], []⟩ := by
  constructor
  · intro r hr
    exact absurd hr (List.not_mem_nil r)
  · intro q hq
    exact absurd hq (List.not_mem_nil q)

mutual

theorem parseProcess_tandem (gen : ℕ → String) (hinj : Function.Injective gen)
    (ie : IE String) (pp : Option String) (st : PPState)
    (h : ∀ pe ∈ st.entries, TandemLaw pe.elementDataInformation) :
    ∀ pe ∈ (parseProcess gen ie pp st).2.entries, TandemLaw pe.elementDataInformation := by
  cases ie with
  | mk nm idd rb ats eifs children links =>
    rw [parseProcess]
    dsimp only
    intro pe hpe
    rcases List.mem_append.mp hpe with h1 | h1
    · refine parseObjects_tandem gen hinj children _ _ ?_ pe h1
      repeat' split
      all_goals exact h
    · rw [List.mem_singleton] at h1
      subst h1
      apply finishEntry_tandemLaw
      · refine linkFold_elems_pres gen _ ElemP_pushOutgoing ElemP_pushIncoming
          ElemP_pushAssignedIfNew links _ ?_
        refine (parseObjects_accInv gen children _ _ ?_).1
        repeat' split
        all_goals first
          | exact AccInv_init1 _ _ _
          | exact AccInv_init0
      · refine (linkFold_flows_inv gen hinj _ ?_ links _ ?_ ?_ ?_).1
        · refine (parseObjects_accInv gen children _ _ ?_).2
          repeat' split
          all_goals first
            | exact AccInv_init1 _ _ _
            | exact AccInv_init0
        · intro n _
          rfl
        · exact List.nodup_nil
        · intro p hp
          exact absurd hp (List.not_mem_nil p)
      · refine (linkFold_flows_inv gen hinj _ ?_ links _ ?_ ?_ ?_).2
        · refine (parseObjects_accInv gen children _ _ ?_).2
          repeat' split
          all_goals first
            | exact AccInv_init1 _ _ _
            | exact AccInv_init0
        · intro n _
          rfl
        · exact List.nodup_nil
        · intro p hp
          exact absurd hp (List.not_mem_nil p)

theorem parseObjects_tandem (gen : ℕ → String) (hinj : Function.Injective gen)
    (cs : List (IE String)) (acc : ObjAcc) (st : PPState)
    (h : ∀ pe ∈ st.entries, TandemLaw pe.elementDataInformation) :
    ∀ pe ∈ (parseObjects gen cs acc st).2.entries, TandemLaw pe.elementDataInformation := by
  cases cs with
  | nil => exact h
  | cons c rest =>
    rw [parseObjects]
    cases hsuc : c.refBaseSystemUnitPath with
    | none => exact parseObjects_tandem gen hinj rest acc st h
    | some suc =>
      dsimp only
      cases hel : SUC_TO_ELEMENT suc with
      | none => exact parseObjects_tandem gen hinj rest acc st h
      | some fpbType =>
        dsimp only
        by_cases hproc : suc = procPath
        · rw [if_pos hproc]
          exact parseObjects_tandem gen hinj rest acc st h
        · rw [if_neg hproc]
          by_cases hskip : fpbType = "fpb:SystemLimit" ∨ fpbType = "fpb:Process"
          · rw [if_pos hskip]
            exact parseObjects_tandem gen hinj rest acc st h
          · rw [if_neg hskip]
            cases c with
            | mk nm idd rb ats eifs cc links =>
              refine parseObjects_tandem gen hinj rest _ _ ?_
              refine parseNested_tandem gen hinj cc _ _ ?_
              repeat' split
              all_goals exact h

theorem parseNested_tandem (gen : ℕ → String) (hinj : Function.Injective gen)
    (cs : List (IE String)) (elemId : String) (st : PPState)
    (h : ∀ pe ∈ st.entries, TandemLaw pe.elementDataInformation) :
    ∀ pe ∈ (parseNested gen elemId cs st).2.entries, TandemLaw pe.elementDataInformation := by
  cases cs with
  | nil => exact h
  | cons c rest =>
    rw [parseNested]
    by_cases hc : c.refBaseSystemUnitPath = some procPath
    · rw [if_pos hc]
      exact parseProcess_tandem gen hinj c (some elemId) st h
    · rw [if_neg hc]
      exact parseNested_tandem gen hinj rest elemId st h

end

end FpbAml

namespace FpbAml

theorem docEntries_ok_shape (p : ProjectRecord) (l : List ProcessEntry) :
    docEntries (Except.ok (FpbEntry.project p :: l.map FpbEntry.entry)) = l := by
  rw [docEntries, List.filterMap_cons]
  dsimp only
  rw [List.filterMap_map]
  exact List.filterMap_some l

/-- Every entry of a decoded document obeys the tandem law (the id
supply standing in for `uuidv4` is assumed injective). -/
theorem amlToJson_tandemLaw (gen : ℕ → String) (hinj : Function.Injective gen)
    (caex : CaexFile String) :
    ∀ pe ∈ docEntries (amlToJson gen caex), TandemLaw pe.elementDataInformation := by
  rw [amlToJson]
  cases caex.instanceHierarchies with
  | nil => intro pe hpe; cases hpe
  | cons ih rest =>
    dsimp only
    cases hfind : findByRefSUC ih.elements procPath with
    | none => intro pe hpe; cases hpe
    | some top =>
      dsimp only
      intro pe hpe
      rw [docEntries_ok_shape] at hpe
      exact parseProcess_tandem gen hinj top none ⟨0, []⟩
        (fun pe' hpe' => absurd hpe' (List.not_mem_nil pe')) pe hpe

/-- An id supply that is provably injective, standing in for `uuidv4`. -/
def genU : ℕ → String := fun n => String.mk (List.replicate n 'u')

theorem genU_injective : Function.Injective genU := by
  intro m n h
  have h2 := congrArg (fun s => s.data.length) h
  simpa [genU] using h2

end FpbAml

namespace FpbAml

/-- C2 (amended): in every document produced by `amlToJson` (with an
injective id supply standing in for `uuidv4`), a record carries the
`inTandemWith` field iff its kind is ParallelFlow or AlternativeFlow —
so Flow and Usage edges never do — and its value lists exactly the
other tandem-eligible edges with equal `sourceRef` of either eligible
kind, excluding itself, in document order.  The grouping keys by
`sourceRef` alone, not by source and kind: a ParallelFlow and an
AlternativeFlow sharing a source reference one another (see
`tandem_grouping_counterexample`), so membership is symmetric only
across the union of the two kinds. -/
theorem amlToJson_tandem_grouping (gen : ℕ → String) (hinj : Function.Injective gen)
    (caex : CaexFile String) :
    ∀ pe ∈ docEntries (amlToJson gen caex), ∀ r ∈ pe.elementDataInformation,
      (r.inTandemWith.isSome = true ↔
        (r.type = "fpb:ParallelFlow" ∨ r.type = "fpb:AlternativeFlow")) ∧
      (∀ l, r.inTandemWith = some l →
        l = (flowGroupIds pe.elementDataInformation r.sourceRef).filter
          (fun i => decide (i ≠ r.id))) := by
  intro pe hpe r hr
  obtain ⟨h1, h2⟩ := amlToJson_tandemLaw gen hinj caex pe hpe
  exact ⟨h1 r hr, fun l hl => h2 r hr l hl⟩

theorem amlToJson_tandem_grouping_witness :
    Function.Injective genU ∧
    (∀ pe ∈ docEntries (amlToJson genU mixCaex), ∀ r ∈ pe.elementDataInformation,
      (r.inTandemWith.isSome = true ↔
        (r.type = "fpb:ParallelFlow" ∨ r.type = "fpb:AlternativeFlow")) ∧
      (∀ l, r.inTandemWith = some l →
        l = (flowGroupIds pe.elementDataInformation r.sourceRef).filter
          (fun i => decide (i ≠ r.id)))) :=
  ⟨genU_injective, amlToJson_tandem_grouping genU genU_injective mixCaex⟩

/-- A process container with a single ParallelFlow link, so the decoded
edge has no tandem sibling. -/
def soloProcIE : IE String :=
  IE.mk (some "P") (some "iep") (some procPath) [] [] [mixPo, mixA]
    [⟨some "p1", some "p3", some "L1"⟩]

/-- A tree-form file whose only tandem-eligible edge is alone in its
group. -/
def soloCaex : CaexFile String :=
  ⟨"3.0", "f", "A", ⟨"", "", "", "T"⟩, [⟨"IH", some "ih", "1", [soloProcIE]⟩], true⟩

/-- C10: in every document produced by `amlToJson` (with an injective
id supply standing in for `uuidv4`), the presence of `inTandemWith`
depends only on the record's kind — every ParallelFlow or
AlternativeFlow edge carries it and no other record does — and when the
edge has no tandem sibling sharing its `sourceRef` the carried value is
the empty list. -/
theorem amlToJson_tandem_presence (gen : ℕ → String) (hinj : Function.Injective gen)
    (caex : CaexFile String) :
    ∀ pe ∈ docEntries (amlToJson gen caex), ∀ r ∈ pe.elementDataInformation,
      (r.inTandemWith.isSome = true ↔
        (r.type = "fpb:ParallelFlow" ∨ r.type = "fpb:AlternativeFlow")) ∧
      ((flowGroupIds pe.elementDataInformation r.sourceRef).filter
          (fun i => decide (i ≠ r.id)) = [] →
        (r.type = "fpb:ParallelFlow" ∨ r.type = "fpb:AlternativeFlow") →
        r.inTandemWith = some []) := by
  intro pe hpe r hr
  obtain ⟨h1, h2⟩ := amlToJson_tandemLaw gen hinj caex pe hpe
  refine ⟨h1 r hr, ?_⟩
  intro hempty hkind
  obtain ⟨l, hl⟩ := Option.isSome_iff_exists.mp ((h1 r hr).mpr hkind)
  rw [hl, h2 r hr l hl, hempty]

theorem amlToJson_tandem_presence_witness :
    Function.Injective genU ∧
    (∀ pe ∈ docEntries (amlToJson genU soloCaex), ∀ r ∈ pe.elementDataInformation,
      (r.inTandemWith.isSome = true ↔
        (r.type = "fpb:ParallelFlow" ∨ r.type = "fpb:AlternativeFlow")) ∧
      ((flowGroupIds pe.elementDataInformation r.sourceRef).filter
          (fun i => decide (i ≠ r.id)) = [] →
        (r.type = "fpb:ParallelFlow" ∨ r.type = "fpb:AlternativeFlow") →
        r.inTandemWith = some [])) :=
  ⟨genU_injective, amlToJson_tandem_presence genU genU_injective soloCaex⟩

end FpbAml

namespace FpbAml

theorem firstById_cons (e : FpbRecord) (es : List FpbRecord) (b : String) :
    firstById (e :: es) b = if e.id = b then some e else firstById es b := by
  by_cases h : e.id = b <;> simp [firstById, List.find?_cons, h]

theorem firstById_id (l : List FpbRecord) (a : String) (r : FpbRecord)
    (h : firstById l a = some r) : r.id = a := by
  have h2 := List.find?_some h
  simpa using h2

theorem firstById_updateFirst (φ : FpbRecord → FpbRecord) (hid : ∀ r, (φ r).id = r.id) :
    ∀ (l : List FpbRecord) (a b : String), firstById (updateFirst l a φ) b =
      if a = b then (firstById l b).map φ else firstById l b := by
  intro l
  induction l with
  | nil =>
    intro a b
    by_cases h : a = b <;> simp [updateFirst, firstById, h]
  | cons e es ih =>
    intro a b
    rw [updateFirst]
    by_cases hea : e.id = a
    · rw [if_pos hea]
      simp only [firstById_cons, hid]
      by_cases hab : a = b
      · subst hab
        simp [hea]
      · have heb : ¬e.id = b := fun hh => hab (hea.symm.trans hh)
        simp [heb, hab]
    · rw [if_neg hea]
      simp only [firstById_cons, ih]
      by_cases heb : e.id = b
      · have hab : ¬a = b := fun hh => hea (heb.trans hh.symm)
        simp [heb, hab]
      · simp [heb]

end FpbAml

namespace FpbAml

theorem pushAssignedIfNew_id (x : String) (r : FpbRecord) :
    (pushAssignedIfNew x r).id = r.id := by
  rw [pushAssignedIfNew]
  split <;> rfl

theorem pushAssignedIfNew_type (x : String) (r : FpbRecord) :
    (pushAssignedIfNew x r).type = r.type := by
  rw [pushAssignedIfNew]
  split <;> rfl

theorem pushAssignedIfNew_isAssignedTo (x : String) (r : FpbRecord) :
    (pushAssignedIfNew x r).isAssignedTo = jsAssignStep r.isAssignedTo x := by
  by_cases h : x ∈ r.isAssignedTo.getD [] <;> simp [pushAssignedIfNew, jsAssignStep, h]

theorem jsAssignStep_mem_self (acc : Option (List String)) (x : String) :
    x ∈ (jsAssignStep acc x).getD [] := by
  by_cases h : x ∈ acc.getD [] <;> simp [jsAssignStep, h]

theorem jsAssignStep_mem_mono (acc : Option (List String)) (x y : String)
    (h : y ∈ acc.getD []) : y ∈ (jsAssignStep acc x).getD [] := by
  by_cases hx : x ∈ acc.getD [] <;> simp [jsAssignStep, hx, h]

theorem lookup_after_update (φ : FpbRecord → FpbRecord) (hid : ∀ r, (φ r).id = r.id)
    (hmono : ∀ r y, y ∈ r.isAssignedTo.getD [] → y ∈ (φ r).isAssignedTo.getD [])
    (l : List FpbRecord) (a b : String) (x : FpbRecord) (hx : firstById l b = some x) :
    ∃ x', firstById (updateFirst l a φ) b = some x' ∧ x'.id = x.id ∧
      ∀ y ∈ x.isAssignedTo.getD [], y ∈ x'.isAssignedTo.getD [] := by
  rw [firstById_updateFirst φ hid]
  by_cases h : a = b
  · rw [if_pos h, hx]
    exact ⟨φ x, rfl, hid x, fun y hy => hmono x y hy⟩
  · rw [if_neg h, hx]
    exact ⟨x, rfl, rfl, fun y hy => hy⟩

end FpbAml

namespace FpbAml

theorem pushAssigned_mono (v : String) :
    ∀ (r : FpbRecord) (y : String), y ∈ r.isAssignedTo.getD [] →
      y ∈ (pushAssignedIfNew v r).isAssignedTo.getD [] := by
  intro r y hy
  rw [pushAssignedIfNew_isAssignedTo]
  exact jsAssignStep_mem_mono _ _ _ hy

theorem usage_tail (OUT INN : String) (l4 : List FpbRecord) (s4 t4 : FpbRecord)
    (hs4 : firstById l4 OUT = some s4) (ht4 : firstById l4 INN = some t4) :
    ∃ s' t',
      firstById (updateFirst (updateFirst l4 OUT (pushAssignedIfNew t4.id)) INN
        (pushAssignedIfNew s4.id)) OUT = some s' ∧
      firstById (updateFirst (updateFirst l4 OUT (pushAssignedIfNew t4.id)) INN
        (pushAssignedIfNew s4.id)) INN = some t' ∧
      t4.id ∈ s'.isAssignedTo.getD [] ∧ s4.id ∈ t'.isAssignedTo.getD [] := by
  have hA1 : firstById (updateFirst l4 OUT (pushAssignedIfNew t4.id)) OUT
      = some (pushAssignedIfNew t4.id s4) := by
    rw [firstById_updateFirst _ (pushAssignedIfNew_id _), if_pos rfl, hs4, Option.map_some']
  obtain ⟨t5, ht5, _, _⟩ := lookup_after_update (pushAssignedIfNew t4.id)
    (pushAssignedIfNew_id _) (pushAssigned_mono _) l4 OUT INN t4 ht4
  have hFin2 : firstById (updateFirst (updateFirst l4 OUT (pushAssignedIfNew t4.id)) INN
      (pushAssignedIfNew s4.id)) INN = some (pushAssignedIfNew s4.id t5) := by
    rw [firstById_updateFirst _ (pushAssignedIfNew_id _), if_pos rfl, ht5, Option.map_some']
  obtain ⟨s5, hs5, _, hs5m⟩ := lookup_after_update (pushAssignedIfNew s4.id)
    (pushAssignedIfNew_id _) (pushAssigned_mono _)
    (updateFirst l4 OUT (pushAssignedIfNew t4.id)) INN OUT _ hA1
  refine ⟨s5, pushAssignedIfNew s4.id t5, hs5, hFin2, ?_, ?_⟩
  · refine hs5m _ ?_
    rw [pushAssignedIfNew_isAssignedTo]
    exact jsAssignStep_mem_self _ _
  · rw [pushAssignedIfNew_isAssignedTo]
    exact jsAssignStep_mem_self _ _

end FpbAml

namespace FpbAml

theorem firstById_def (l : List FpbRecord) (a : String) :
    List.find? (fun e => decide (e.id = a)) l = firstById l a := rfl

set_option maxHeartbeats 4000000 in
/-- C4: the `isAssignedTo` effect of one constructed edge.  For a
resolved link whose out side is element `s` and in side is element `t`:
if the kind is not Usage and `s` is a state (Product/Energy/Information)
while `t` is a ProcessOperator, `s` gains `t`'s id (appended only when
absent — deduplicated, first-occurrence order) while `t`'s `isAssignedTo`
is unchanged by the edge; symmetrically when the in side is the state;
and for a Usage edge both endpoints gain each other's id. -/
theorem amlToJson_assignment (gen : ℕ → String) (ifmap : JsMap (Option String) IfaceInfo)
    (st : LinkState) (link : InternalLink String) (sideA sideB : IfaceInfo)
    (hA : ifmap.get link.refPartnerSideA = some sideA)
    (hB : ifmap.get link.refPartnerSideB = some sideB)
    (s t : FpbRecord)
    (hs : firstById st.elems (if sideA.direction = "out" then sideA else sideB).elementId
      = some s)
    (ht : firstById st.elems (if sideA.direction = "in" then sideA else sideB).elementId
      = some t) :
    ((if sideA.direction = "out" then sideA else sideB).flowType ≠ "fpb:Usage" →
      s.type ∈ STATE_TYPES → t.type = "fpb:ProcessOperator" →
      (firstById (processLink gen ifmap st link).elems
          (if sideA.direction = "out" then sideA else sideB).elementId).map
          (fun r => r.isAssignedTo) = some (jsAssignStep s.isAssignedTo t.id) ∧
      (firstById (processLink gen ifmap st link).elems
          (if sideA.direction = "in" then sideA else sideB).elementId).map
          (fun r => r.isAssignedTo) = some t.isAssignedTo) ∧
    ((if sideA.direction = "out" then sideA else sideB).flowType ≠ "fpb:Usage" →
      t.type ∈ STATE_TYPES → s.type = "fpb:ProcessOperator" →
      (firstById (processLink gen ifmap st link).elems
          (if sideA.direction = "in" then sideA else sideB).elementId).map
          (fun r => r.isAssignedTo) = some (jsAssignStep t.isAssignedTo s.id) ∧
      (firstById (processLink gen ifmap st link).elems
          (if sideA.direction = "out" then sideA else sideB).elementId).map
          (fun r => r.isAssignedTo) = some s.isAssignedTo) ∧
    ((if sideA.direction = "out" then sideA else sideB).flowType = "fpb:Usage" →
      ∃ s' t',
        firstById (processLink gen ifmap st link).elems
          (if sideA.direction = "out" then sideA else sideB).elementId = some s' ∧
        firstById (processLink gen ifmap st link).elems
          (if sideA.direction = "in" then sideA else sideB).elementId = some t' ∧
        t.id ∈ s'.isAssignedTo.getD [] ∧ s.id ∈ t'.isAssignedTo.getD []) := by
  have hsid := firstById_id _ _ _ hs
  have htid := firstById_id _ _ _ ht
  refine ⟨?_, ?_, ?_⟩
  · intro hft hstype httype
    have hOI : ¬(if sideA.direction = "in" then sideA else sideB).elementId
        = (if sideA.direction = "out" then sideA else sideB).elementId := by
      intro hh
      rw [← hh, ht] at hs
      rw [← Option.some.inj hs, httype] at hstype
      exact absurd hstype (by decide)
    unfold processLink
    rw [hA, hB]
    dsimp only
    simp only [firstById_def]
    simp only [if_neg hft]
    have hs2 : firstById (updateFirst (updateFirst st.elems
        (if sideA.direction = "out" then sideA else sideB).elementId
        (pushOutgoing (gen st.ctr)))
        (if sideA.direction = "in" then sideA else sideB).elementId
        (pushIncoming (gen st.ctr)))
        (if sideA.direction = "out" then sideA else sideB).elementId
        = some (pushOutgoing (gen st.ctr) s) := by
      rw [firstById_updateFirst (pushIncoming (gen st.ctr)) (fun r => rfl), if_neg hOI,
        firstById_updateFirst (pushOutgoing (gen st.ctr)) (fun r => rfl), if_pos rfl, hs,
        Option.map_some']
    have ht2 : firstById (updateFirst (updateFirst st.elems
        (if sideA.direction = "out" then sideA else sideB).elementId
        (pushOutgoing (gen st.ctr)))
        (if sideA.direction = "in" then sideA else sideB).elementId
        (pushIncoming (gen st.ctr)))
        (if sideA.direction = "in" then sideA else sideB).elementId
        = some (pushIncoming (gen st.ctr) t) := by
      rw [firstById_updateFirst (pushIncoming (gen st.ctr)) (fun r => rfl), if_pos rfl,
        firstById_updateFirst (pushOutgoing (gen st.ctr)) (fun r => rfl),
        if_neg (fun hh => hOI hh.symm), ht, Option.map_some']
    simp only [hs2, ht2]
    have hc3 : (pushOutgoing (gen st.ctr) s).type ∈ STATE_TYPES ∧
        (pushIncoming (gen st.ctr) t).type = "fpb:ProcessOperator" := ⟨hstype, httype⟩
    rw [if_pos hc3]
    have hs3 : firstById (updateFirst (updateFirst (updateFirst st.elems
        (if sideA.direction = "out" then sideA else sideB).elementId
        (pushOutgoing (gen st.ctr)))
        (if sideA.direction = "in" then sideA else sideB).elementId
        (pushIncoming (gen st.ctr)))
        (if sideA.direction = "out" then sideA else sideB).elementId
        (pushAssignedIfNew (pushIncoming (gen st.ctr) t).id))
        (if sideA.direction = "out" then sideA else sideB).elementId
        = some (pushAssignedIfNew (pushIncoming (gen st.ctr) t).id
            (pushOutgoing (gen st.ctr) s)) := by
      rw [firstById_updateFirst _ (pushAssignedIfNew_id _), if_pos rfl, hs2,
        Option.map_some']
    have ht3 : firstById (updateFirst (updateFirst (updateFirst st.elems
        (if sideA.direction = "out" then sideA else sideB).elementId
        (pushOutgoing (gen st.ctr)))
        (if sideA.direction = "in" then sideA else sideB).elementId
        (pushIncoming (gen st.ctr)))
        (if sideA.direction = "out" then sideA else sideB).elementId
        (pushAssignedIfNew (pushIncoming (gen st.ctr) t).id))
        (if sideA.direction = "in" then sideA else sideB).elementId
        = some (pushIncoming (gen st.ctr) t) := by
      rw [firstById_updateFirst _ (pushAssignedIfNew_id _),
        if_neg (fun hh => hOI hh.symm), ht2]
    simp only [hs3, ht3]
    rw [if_neg (fun hc => by
      have h1 : t.type ∈ STATE_TYPES := hc.1
      rw [httype] at h1
      exact absurd h1 (by decide))]
    rw [hs3, ht3]
    constructor
    · rw [Option.map_some', pushAssignedIfNew_isAssignedTo]
      rfl
    · rfl
  · intro hft htstate hspo
    have hOI : ¬(if sideA.direction = "in" then sideA else sideB).elementId
        = (if sideA.direction = "out" then sideA else sideB).elementId := by
      intro hh
      rw [← hh, ht] at hs
      rw [Option.some.inj hs, hspo] at htstate
      exact absurd htstate (by decide)
    unfold processLink
    rw [hA, hB]
    dsimp only
    simp only [firstById_def]
    simp only [if_neg hft]
    have hs2 : firstById (updateFirst (updateFirst st.elems
        (if sideA.direction = "out" then sideA else sideB).elementId
        (pushOutgoing (gen st.ctr)))
        (if sideA.direction = "in" then sideA else sideB).elementId
        (pushIncoming (gen st.ctr)))
        (if sideA.direction = "out" then sideA else sideB).elementId
        = some (pushOutgoing (gen st.ctr) s) := by
      rw [firstById_updateFirst (pushIncoming (gen st.ctr)) (fun r => rfl), if_neg hOI,
        firstById_updateFirst (pushOutgoing (gen st.ctr)) (fun r => rfl), if_pos rfl, hs,
        Option.map_some']
    have ht2 : firstById (updateFirst (updateFirst st.elems
        (if sideA.direction = "out" then sideA else sideB).elementId
        (pushOutgoing (gen st.ctr)))
        (if sideA.direction = "in" then sideA else sideB).elementId
        (pushIncoming (gen st.ctr)))
        (if sideA.direction = "in" then sideA else sideB).elementId
        = some (pushIncoming (gen st.ctr) t) := by
      rw [firstById_updateFirst (pushIncoming (gen st.ctr)) (fun r => rfl), if_pos rfl,
        firstById_updateFirst (pushOutgoing (gen st.ctr)) (fun r => rfl),
        if_neg (fun hh => hOI hh.symm), ht, Option.map_some']
    simp only [hs2, ht2]
    rw [if_neg (fun hc => by
      have h1 : s.type ∈ STATE_TYPES := hc.1
      rw [hspo] at h1
      exact absurd h1 (by decide))]
    simp only [hs2, ht2]
    have hc4 : (pushIncoming (gen st.ctr) t).type ∈ STATE_TYPES ∧
        (pushOutgoing (gen st.ctr) s).type = "fpb:ProcessOperator" := ⟨htstate, hspo⟩
    rw [if_pos hc4]
    have ht4 : firstById (updateFirst (updateFirst (updateFirst st.elems
        (if sideA.direction = "out" then sideA else sideB).elementId
        (pushOutgoing (gen st.ctr)))
        (if sideA.direction = "in" then sideA else sideB).elementId
        (pushIncoming (gen st.ctr)))
        (if sideA.direction = "in" then sideA else sideB).elementId
        (pushAssignedIfNew (pushOutgoing (gen st.ctr) s).id))
        (if sideA.direction = "in" then sideA else sideB).elementId
        = some (pushAssignedIfNew (pushOutgoing (gen st.ctr) s).id
            (pushIncoming (gen st.ctr) t)) := by
      rw [firstById_updateFirst _ (pushAssignedIfNew_id _), if_pos rfl, ht2,
        Option.map_some']
    have hs4 : firstById (updateFirst (updateFirst (updateFirst st.elems
        (if sideA.direction = "out" then sideA else sideB).elementId
        (pushOutgoing (gen st.ctr)))
        (if sideA.direction = "in" then sideA else sideB).elementId
        (pushIncoming (gen st.ctr)))
        (if sideA.direction = "in" then sideA else sideB).elementId
        (pushAssignedIfNew (pushOutgoing (gen st.ctr) s).id))
        (if sideA.direction = "out" then sideA else sideB).elementId
        = some (pushOutgoing (gen st.ctr) s) := by
      rw [firstById_updateFirst _ (pushAssignedIfNew_id _), if_neg hOI, hs2]
    rw [hs4, ht4]
    constructor
    · rw [Option.map_some', pushAssignedIfNew_isAssignedTo]
      rfl
    · rfl
  · intro hft
    unfold processLink
    rw [hA, hB]
    dsimp only
    simp only [firstById_def]
    simp only [if_pos hft]
    obtain ⟨s1, hs1, hs1id, _⟩ := lookup_after_update (pushOutgoing (gen st.ctr))
      (fun r => rfl) (fun r y hy => hy) st.elems
      (if sideA.direction = "out" then sideA else sideB).elementId
      (if sideA.direction = "out" then sideA else sideB).elementId s hs
    obtain ⟨t1, ht1, ht1id, _⟩ := lookup_after_update (pushOutgoing (gen st.ctr))
      (fun r => rfl) (fun r y hy => hy) st.elems
      (if sideA.direction = "out" then sideA else sideB).elementId
      (if sideA.direction = "in" then sideA else sideB).elementId t ht
    obtain ⟨s2, hs2, hs2id, _⟩ := lookup_after_update (pushIncoming (gen st.ctr))
      (fun r => rfl) (fun r y hy => hy) _
      (if sideA.direction = "in" then sideA else sideB).elementId
      (if sideA.direction = "out" then sideA else sideB).elementId s1 hs1
    obtain ⟨t2, ht2, ht2id, _⟩ := lookup_after_update (pushIncoming (gen st.ctr))
      (fun r => rfl) (fun r y hy => hy) _
      (if sideA.direction = "in" then sideA else sideB).elementId
      (if sideA.direction = "in" then sideA else sideB).elementId t1 ht1
    simp only [hs2, ht2]
    have htail : ∀ (l4 : List FpbRecord) (s4 t4 : FpbRecord),
        firstById l4 (if sideA.direction = "out" then sideA else sideB).elementId
          = some s4 →
        firstById l4 (if sideA.direction = "in" then sideA else sideB).elementId
          = some t4 →
        ∃ s' t',
          firstById (updateFirst (updateFirst l4
            (if sideA.direction = "out" then sideA else sideB).elementId
            (pushAssignedIfNew t4.id))
            (if sideA.direction = "in" then sideA else sideB).elementId
            (pushAssignedIfNew s4.id))
            (if sideA.direction = "out" then sideA else sideB).elementId = some s' ∧
          firstById (updateFirst (updateFirst l4
            (if sideA.direction = "out" then sideA else sideB).elementId
            (pushAssignedIfNew t4.id))
            (if sideA.direction = "in" then sideA else sideB).elementId
            (pushAssignedIfNew s4.id))
            (if sideA.direction = "in" then sideA else sideB).elementId = some t' ∧
          t.id ∈ s'.isAssignedTo.getD [] ∧ s.id ∈ t'.isAssignedTo.getD [] := by
      intro l4 s4 t4 hs4 ht4
      obtain ⟨s', t', h1, h2, h3, h4⟩ := usage_tail _ _ l4 s4 t4 hs4 ht4
      refine ⟨s', t', h1, h2, ?_, ?_⟩
      · rwa [(firstById_id _ _ _ ht4).trans htid.symm] at h3
      · rwa [(firstById_id _ _ _ hs4).trans hsid.symm] at h4
    by_cases hc3 : s2.type ∈ STATE_TYPES ∧ t2.type = "fpb:ProcessOperator"
    · rw [if_pos hc3]
      obtain ⟨s3, hs3, _, _⟩ := lookup_after_update (pushAssignedIfNew t2.id)
        (pushAssignedIfNew_id _) (pushAssigned_mono _) _
        (if sideA.direction = "out" then sideA else sideB).elementId
        (if sideA.direction = "out" then sideA else sideB).elementId s2 hs2
      obtain ⟨t3, ht3, _, _⟩ := lookup_after_update (pushAssignedIfNew t2.id)
        (pushAssignedIfNew_id _) (pushAssigned_mono _) _
        (if sideA.direction = "out" then sideA else sideB).elementId
        (if sideA.direction = "in" then sideA else sideB).elementId t2 ht2
      simp only [hs3, ht3]
      by_cases hc4 : t3.type ∈ STATE_TYPES ∧ s3.type = "fpb:ProcessOperator"
      · rw [if_pos hc4]
        obtain ⟨s4, hs4, _, _⟩ := lookup_after_update (pushAssignedIfNew s3.id)
          (pushAssignedIfNew_id _) (pushAssigned_mono _) _
          (if sideA.direction = "in" then sideA else sideB).elementId
          (if sideA.direction = "out" then sideA else sideB).elementId s3 hs3
        obtain ⟨t4, ht4, _, _⟩ := lookup_after_update (pushAssignedIfNew s3.id)
          (pushAssignedIfNew_id _) (pushAssigned_mono _) _
          (if sideA.direction = "in" then sideA else sideB).elementId
          (if sideA.direction = "in" then sideA else sideB).elementId t3 ht3
        simp only [hs4, ht4]
        exact htail _ s4 t4 hs4 ht4
      · rw [if_neg hc4]
        simp only [hs3, ht3]
        exact htail _ s3 t3 hs3 ht3
    · rw [if_neg hc3]
      simp only [hs2, ht2]
      by_cases hc4 : t2.type ∈ STATE_TYPES ∧ s2.type = "fpb:ProcessOperator"
      · rw [if_pos hc4]
        obtain ⟨s4, hs4, _, _⟩ := lookup_after_update (pushAssignedIfNew s2.id)
          (pushAssignedIfNew_id _) (pushAssigned_mono _) _
          (if sideA.direction = "in" then sideA else sideB).elementId
          (if sideA.direction = "out" then sideA else sideB).elementId s2 hs2
        obtain ⟨t4, ht4, _, _⟩ := lookup_after_update (pushAssignedIfNew s2.id)
          (pushAssignedIfNew_id _) (pushAssigned_mono _) _
          (if sideA.direction = "in" then sideA else sideB).elementId
          (if sideA.direction = "in" then sideA else sideB).elementId t2 ht2
        simp only [hs4, ht4]
        exact htail _ s4 t4 hs4 ht4
      · rw [if_neg hc4]
        simp only [hs2, ht2]
        exact htail _ s2 t2 hs2 ht2

end FpbAml

namespace FpbAml

/-- The out-tagged Flow port of the witness link. -/
def wSideA : IfaceInfo :=
  { elementId := "a", direction := "out", flowType := "fpb:Flow",
    portCoordinate := none, waypoints := [] }

/-- The in-tagged Flow port of the witness link. -/
def wSideB : IfaceInfo :=
  { elementId := "b", direction := "in", flowType := "fpb:Flow",
    portCoordinate := none, waypoints := [] }

/-- Port lookup holding the two witness ports. -/
def wIfmap : JsMap (Option String) IfaceInfo := [(some "pa", wSideA), (some "pb", wSideB)]

/-- A Product record `a` with an empty assignment list. -/
def wA : FpbRecord := { type := "fpb:Product", id := "a", isAssignedTo := some [] }

/-- A ProcessOperator record `b` with an empty assignment list. -/
def wB : FpbRecord := { type := "fpb:ProcessOperator", id := "b", isAssignedTo := some [] }

/-- Link state before processing the witness link. -/
def wSt : LinkState := ⟨[wA, wB], [], [], JsMap.empty, 0⟩

/-- The witness link, `pa` to `pb`. -/
def wLink : InternalLink String := ⟨some "pa", some "pb", some "L"⟩

theorem amlToJson_assignment_witness :
    (firstById (processLink genU wIfmap wSt wLink).elems "a").map (fun r => r.isAssignedTo)
        = some (some ["b"]) ∧
    (firstById (processLink genU wIfmap wSt wLink).elems "b").map (fun r => r.isAssignedTo)
        = some (some []) :=
  (amlToJson_assignment genU wIfmap wSt wLink wSideA wSideB rfl rfl wA wB rfl rfl).1
    (by decide) (by decide) rfl

end FpbAml

namespace FpbAml

theorem exists_append_trans {α : Type} {a b c : List α}
    (h1 : ∃ d, b = a ++ d) (h2 : ∃ d, c = b ++ d) : ∃ d, c = a ++ d := by
  obtain ⟨d1, hd1⟩ := h1
  obtain ⟨d2, hd2⟩ := h2
  exact ⟨d1 ++ d2, by rw [hd2, hd1, List.append_assoc]⟩

theorem parseNested_eq (gen : ℕ → String) (elemId : String) :
    ∀ (cs : List (IE String)) (st : PPState),
      parseNested gen elemId cs st =
        match cs.find? (fun e => decide (e.refBaseSystemUnitPath = some procPath)) with
        | some cp => (true, (parseProcess gen cp (some elemId) st).2)
        | none => (false, st) := by
  intro cs
  induction cs with
  | nil => intro st; rfl
  | cons c rest ih =>
    intro st
    rw [parseNested, List.find?_cons]
    by_cases hc : c.refBaseSystemUnitPath = some procPath
    · rw [if_pos hc]
      simp [hc]
    · rw [if_neg hc, ih]
      simp [hc]

theorem parseProcess_parent (gen : ℕ → String) (ie : IE String) (elemId : String)
    (st : PPState) (hne : elemId ≠ "") :
    (parseProcess gen ie (some elemId) st).1 = elemId ∧
    ∃ pre e, (parseProcess gen ie (some elemId) st).2.entries = pre ++ [e] ∧
      e.process.id = elemId ∧ e.process.isDecomposedProcessOperator = some elemId ∧
      e.process.parent = some elemId := by
  have htruthy : jsTruthyStr (some elemId) = true := by
    rw [jsTruthyStr]
    exact decide_eq_true hne
  have hnull : jsOrNullStr (some elemId) = some elemId := by
    rw [jsOrNullStr, if_pos htruthy]
  cases ie with
  | mk nm idd rb ats eifs children links =>
    rw [parseProcess]
    dsimp only
    simp only [htruthy, if_true]
    exact ⟨rfl, _, _, rfl, rfl, hnull, hnull⟩

mutual

theorem parseProcess_entries_mono (gen : ℕ → String) (ie : IE String) (pp : Option String)
    (st : PPState) :
    ∃ d, (parseProcess gen ie pp st).2.entries = st.entries ++ d := by
  cases ie with
  | mk nm idd rb ats eifs children links =>
    rw [parseProcess]
    dsimp only
    refine exists_append_trans ?_ ⟨[_], rfl⟩
    refine exists_append_trans ?_ (parseObjects_entries_mono gen children _ _)
    repeat' split
    all_goals exact ⟨[], (List.append_nil _).symm⟩

theorem parseObjects_entries_mono (gen : ℕ → String) (cs : List (IE String)) (acc : ObjAcc)
    (st : PPState) :
    ∃ d, (parseObjects gen cs acc st).2.entries = st.entries ++ d := by
  cases cs with
  | nil => exact ⟨[], (List.append_nil _).symm⟩
  | cons c rest =>
    rw [parseObjects]
    cases hsuc : c.refBaseSystemUnitPath with
    | none => exact parseObjects_entries_mono gen rest acc st
    | some suc =>
      dsimp only
      cases hel : SUC_TO_ELEMENT suc with
      | none => exact parseObjects_entries_mono gen rest acc st
      | some fpbType =>
        dsimp only
        by_cases hproc : suc = procPath
        · rw [if_pos hproc]
          exact parseObjects_entries_mono gen rest acc st
        · rw [if_neg hproc]
          by_cases hskip : fpbType = "fpb:SystemLimit" ∨ fpbType = "fpb:Process"
          · rw [if_pos hskip]
            exact parseObjects_entries_mono gen rest acc st
          · rw [if_neg hskip]
            cases c with
            | mk nm idd rb ats eifs cc links =>
              refine exists_append_trans ?_ (parseObjects_entries_mono gen rest _ _)
              refine exists_append_trans ?_ (parseNested_entries_mono gen _ cc _)
              repeat' split
              all_goals exact ⟨[], (List.append_nil _).symm⟩

theorem parseNested_entries_mono (gen : ℕ → String) (elemId : String)
    (cs : List (IE String)) (st : PPState) :
    ∃ d, (parseNested gen elemId cs st).2.entries = st.entries ++ d := by
  cases cs with
  | nil => exact ⟨[], (List.append_nil _).symm⟩
  | cons c rest =>
    rw [parseNested]
    by_cases hc : c.refBaseSystemUnitPath = some procPath
    · rw [if_pos hc]
      exact parseProcess_entries_mono gen c (some elemId) st
    · rw [if_neg hc]
      exact parseNested_entries_mono gen elemId rest st

end

theorem parseObjects_elems_mono (gen : ℕ → String) :
    ∀ (cs : List (IE String)) (acc : ObjAcc) (st : PPState),
      ∃ d, (parseObjects gen cs acc st).1.elems = acc.elems ++ d := by
  intro cs
  induction cs with
  | nil => intro acc st; exact ⟨[], (List.append_nil _).symm⟩
  | cons c rest ih =>
    intro acc st
    rw [parseObjects]
    cases hsuc : c.refBaseSystemUnitPath with
    | none => exact ih acc st
    | some suc =>
      dsimp only
      cases hel : SUC_TO_ELEMENT suc with
      | none => exact ih acc st
      | some fpbType =>
        dsimp only
        by_cases hproc : suc = procPath
        · rw [if_pos hproc]
          exact ih acc st
        · rw [if_neg hproc]
          by_cases hskip : fpbType = "fpb:SystemLimit" ∨ fpbType = "fpb:Process"
          · rw [if_pos hskip]
            exact ih acc st
          · rw [if_neg hskip]
            cases c with
            | mk nm idd rb ats eifs cc links =>
              refine exists_append_trans ⟨[_], rfl⟩ (ih _ _)

end FpbAml

namespace FpbAml

theorem objPost_elems (c : IE String) (fpbType elemId : String) (dv : Option String)
    (acc : ObjAcc) :
    (objPost c fpbType elemId dv acc).elems = acc.elems ++
      [{ type := fpbType, id := elemId, identification := parseIdentification c,
         characteristics := some (parseCharacteristics c), incoming := some [],
         outgoing := some [], isAssignedTo := some [],
         name := some ((c.name).getD ""), decomposedView := jsOrNullStr dv }] := rfl

set_option maxHeartbeats 1000000 in
/-- C8: decomposition linkage.  When the object loop processes a child
that passes the kind filters, whose identifier `elemId` is nonempty, and
whose internal elements hold a (first) nested `FPD_Process` container,
the operator record appended to the element list carries
`decomposedView = elemId`, and the output entries contain an entry whose
process id is `elemId`, whose `isDecomposedProcessOperator` is `elemId`,
and whose `parent` is `elemId` — the nested process is parsed with the
operator's graph id as its identifier, so the two references are never
mismatched. -/
theorem amlToJson_decomposition (gen : ℕ → String) (c : IE String) (rest : List (IE String))
    (acc : ObjAcc) (st : PPState) (suc fpbType : String) (cp : IE String)
    (hsuc : c.refBaseSystemUnitPath = some suc)
    (hel : SUC_TO_ELEMENT suc = some fpbType)
    (hproc : suc ≠ procPath)
    (hskip : ¬(fpbType = "fpb:SystemLimit" ∨ fpbType = "fpb:Process"))
    (elemId : String)
    (hid : (match parseIdentificationId c with
      | some uid => uid
      | none => gen st.ctr) = elemId)
    (hne : elemId ≠ "")
    (hfind : c.internalElements.find?
      (fun e => decide (e.refBaseSystemUnitPath = some procPath)) = some cp) :
    (∃ r d, (parseObjects gen (c :: rest) acc st).1.elems = acc.elems ++ r :: d ∧
      r.id = elemId ∧ r.type = fpbType ∧ r.decomposedView = some elemId) ∧
    (∃ e ∈ (parseObjects gen (c :: rest) acc st).2.entries,
      e.process.id = elemId ∧ e.process.isDecomposedProcessOperator = some elemId ∧
      e.process.parent = some elemId) := by
  have hnull : jsOrNullStr (some elemId) = some elemId := by
    rw [jsOrNullStr, jsTruthyStr, if_pos (decide_eq_true hne)]
  cases c with
  | mk nm idd rb ats eifs cc links =>
    rw [parseObjects]
    dsimp only
    rw [hsuc]
    dsimp only
    rw [hel]
    dsimp only
    rw [if_neg hproc, if_neg hskip]
    cases hpid : parseIdentificationId (IE.mk nm idd rb ats eifs cc links) with
    | some uid =>
      rw [hpid] at hid
      dsimp only at hid
      rw [hid]
      dsimp only
      have hfind2 : List.find? (fun e => decide (e.refBaseSystemUnitPath = some procPath)) cc
          = some cp := hfind
      rw [parseNested_eq, hfind2]
      dsimp only
      constructor
      · obtain ⟨d, hd⟩ := parseObjects_elems_mono gen rest
          (objPost (IE.mk nm idd rb ats eifs cc links) fpbType elemId
            (if true = true then some elemId else none)
            { acc with interfaceMap := registerInterfaces elemId (IE.mk nm idd rb ats eifs cc links) acc.interfaceMap })
          (parseProcess gen cp (some elemId) st).2
        refine ⟨{ type := fpbType, id := elemId, identification := parseIdentification (IE.mk nm idd rb ats eifs cc links), characteristics := some (parseCharacteristics (IE.mk nm idd rb ats eifs cc links)), incoming := some [], outgoing := some [], isAssignedTo := some [], name := some (((IE.mk nm idd rb ats eifs cc links).name).getD ""), decomposedView := jsOrNullStr (if true = true then some elemId else none) }, d, ?_, rfl, rfl, ?_⟩
        · rw [hd, objPost_elems, List.append_assoc]
          rfl
        · exact hnull
      · obtain ⟨hpp1, pre, e, hee, he1, he2, he3⟩ :=
          parseProcess_parent gen cp elemId st hne
        obtain ⟨d2, hd2⟩ := parseObjects_entries_mono gen rest
          (objPost (IE.mk nm idd rb ats eifs cc links) fpbType elemId
            (if true = true then some elemId else none)
            { acc with interfaceMap := registerInterfaces elemId (IE.mk nm idd rb ats eifs cc links) acc.interfaceMap })
          (parseProcess gen cp (some elemId) st).2
        refine ⟨e, ?_, he1, he2, he3⟩
        rw [hd2, hee]
        exact List.mem_append_left _ (List.mem_append_right _ (List.mem_singleton_self e))
    | none =>
      rw [hpid] at hid
      dsimp only at hid
      rw [hid]
      dsimp only
      have hfind2 : List.find? (fun e => decide (e.refBaseSystemUnitPath = some procPath)) cc
          = some cp := hfind
      rw [parseNested_eq, hfind2]
      dsimp only
      constructor
      · obtain ⟨d, hd⟩ := parseObjects_elems_mono gen rest
          (objPost (IE.mk nm idd rb ats eifs cc links) fpbType elemId
            (if true = true then some elemId else none)
            { acc with interfaceMap := registerInterfaces elemId (IE.mk nm idd rb ats eifs cc links) acc.interfaceMap })
          (parseProcess gen cp (some elemId) ⟨st.ctr + 1, st.entries⟩).2
        refine ⟨{ type := fpbType, id := elemId, identification := parseIdentification (IE.mk nm idd rb ats eifs cc links), characteristics := some (parseCharacteristics (IE.mk nm idd rb ats eifs cc links)), incoming := some [], outgoing := some [], isAssignedTo := some [], name := some (((IE.mk nm idd rb ats eifs cc links).name).getD ""), decomposedView := jsOrNullStr (if true = true then some elemId else none) }, d, ?_, rfl, rfl, ?_⟩
        · rw [hd, objPost_elems, List.append_assoc]
          rfl
        · exact hnull
      · obtain ⟨hpp1, pre, e, hee, he1, he2, he3⟩ :=
          parseProcess_parent gen cp elemId ⟨st.ctr + 1, st.entries⟩ hne
        obtain ⟨d2, hd2⟩ := parseObjects_entries_mono gen rest
          (objPost (IE.mk nm idd rb ats eifs cc links) fpbType elemId
            (if true = true then some elemId else none)
            { acc with interfaceMap := registerInterfaces elemId (IE.mk nm idd rb ats eifs cc links) acc.interfaceMap })
          (parseProcess gen cp (some elemId) ⟨st.ctr + 1, st.entries⟩).2
        refine ⟨e, ?_, he1, he2, he3⟩
        rw [hd2, hee]
        exact List.mem_append_left _ (List.mem_append_right _ (List.mem_singleton_self e))

end FpbAml

namespace FpbAml

/-- A nested process container. -/
def dProc : IE String :=
  IE.mk (some "Nested") (some "ienp") (some procPath) [] [] [] []

/-- A process operator whose children hold a nested process. -/
def dPo : IE String :=
  IE.mk (some "PO") (some "iedpo") (some "FPD_SystemUnitClassLib/FPD_ProcessOperator")
    [mkIdentAttr "po"] [] [dProc] []

/-- An empty object accumulator. -/
def dAcc : ObjAcc := ⟨JsMap.empty, [], [], [], [], []⟩

theorem amlToJson_decomposition_witness :
    (∃ r d, (parseObjects genU [dPo] dAcc ⟨0, []⟩).1.elems = dAcc.elems ++ r :: d ∧
      r.id = "po" ∧ r.type = "fpb:ProcessOperator" ∧ r.decomposedView = some "po") ∧
    (∃ e ∈ (parseObjects genU [dPo] dAcc ⟨0, []⟩).2.entries,
      e.process.id = "po" ∧ e.process.isDecomposedProcessOperator = some "po" ∧
      e.process.parent = some "po") :=
  amlToJson_decomposition genU dPo [] dAcc ⟨0, []⟩
    "FPD_SystemUnitClassLib/FPD_ProcessOperator" "fpb:ProcessOperator" dProc
    rfl rfl (by decide) (by decide) "po" rfl (by decide) rfl

end FpbAml
